import Mathlib

/-!
# orivil/wechat: message cipher, request signing and credential containers

A shallow embedding of `PKCS7Encoder.go`, `WXBizMsgCrypt.go`, the `SignParams`
function of `signature.go`, and of `platform/data.go` and the constructors of
`platform/access.go`.

Conventions of the embedding

* A Go `byte` is a `Fin 256`; a Go `[]byte` and a Go `string` are both lists of
  bytes (Go strings are immutable byte sequences and are compared bytewise).
* Go `int` is the 64-bit signed integer of the usual targets.  Lengths are
  natural numbers; a conversion `byte(x)` keeps the low eight bits.
* A run-time panic (index or slice bound out of range, `CryptBlocks` on a
  partial block) is an explicit outcome, distinct from a returned `error`.
* The standard-library collaborators (AES-CBC, base64, SHA1, the XML decoder)
  are fields of a record `Primitives`; what is assumed about them is stated where
  it is used.
* The code of `platform` runs against collaborators with effects (storages, the
  refresh provider, remote requests).  Their effects are threaded through an
  explicit world `W`: a collaborator is a function that takes the world and
  returns its result with the next world.  Locks are not modelled: the calls
  are those of one goroutine.
* A `time.Time` is an instant in nanoseconds, a `time.Duration` is an `int64`
  of nanoseconds whose arithmetic wraps around.
-/

namespace Wechat

/-! ## Bytes, strings, outcomes -/

/-- A Go `byte`. -/
abbrev Byte := Fin 256

/-- A Go `string`: an immutable sequence of bytes. -/
abbrev GoString := List Byte

/-- The conversion `byte(x)` of a non-negative Go integer: the low eight bits. -/
def toByte (n : Nat) : Byte := ⟨n % 256, Nat.mod_lt _ (by decide)⟩

/-- The errors the embedded functions return. -/
inductive Err where
  /-- The variable `ErrValidateAppID`, "appid 校验失败". -/
  | validateAppID
  /-- The variable `ErrValidateSignature`, "签名校验失败". -/
  | validateSignature
  /-- The error `aes.KeySizeError(n)`, returned by `aes.NewCipher` for a key of `n` bytes. -/
  | keySize (n : Nat)
  /-- An error of `xml.Unmarshal`. -/
  | xmlUnmarshal
  /-- The error `base64.CorruptInputError` of `DecodeString`. -/
  | corruptInput
  /-- The variable `ErrUserNotAuthorized`, "未获得用户授权". -/
  | userNotAuthorized
  /-- The variable `ErrComponentAccessIsNotSet`, "未设置第三方平台". -/
  | componentAccessIsNotSet
  /-- The variable `ErrNeedAuthorizerApp`, "必须为授权平台". -/
  | needAuthorizerApp
  /-- An error made by a collaborator (a storage, a secret provider, a remote call), with its
  message. -/
  | external (msg : List (Fin 256))
  /-- The result of `errors.Wrap(cause, msg)` and `errors.Wrapf(cause, format, ...)` of
  `github.com/pkg/errors`, `msg` being the formatted message. -/
  | wrap (cause : Err) (msg : List (Fin 256))
  /-- The result of `errors.WithMessage(cause, msg)`. -/
  | withMessage (cause : Err) (msg : List (Fin 256))
  deriving DecidableEq, Repr

/-- What a call does: it returns a value with a nil error, returns a non-nil
error (and a nil or empty value), or panics at run time. -/
inductive Outcome (α : Type) where
  | ok (value : α)
  | err (e : Err)
  | panic
  deriving DecidableEq, Repr

/-! ## PKCS7Encoder.go -/

/-- The constant `blockSize = 32`. -/
def blockSize : Int := 32

/-- The function `chr(a int) byte`, `byte(a & 0xFF)`: on a two's complement
integer `a & 0xFF` is the residue of `a` modulo 256 in `[0, 255]`. -/
def chr (a : Int) : Byte := toByte (a % 256).toNat

/-- The function `pkcs7Encode(count int) []byte`.  The operator `%` of Go truncates towards
zero (`Int.tmod`); the loop appends `padChr` once for each `index` in
`0 ≤ index < amountToPad`. -/
def pkcs7Encode (count : Int) : List Byte :=
  let amountToPad0 : Int := blockSize - Int.tmod count blockSize
  let amountToPad : Int := if amountToPad0 = 0 then blockSize else amountToPad0
  let padChr := chr amountToPad
  List.replicate amountToPad.toNat padChr

/-- The function `pkcs7Decode(decrypted []byte) []byte`.  `none` is a run-time panic:
`decrypted[len(decrypted)-1]` on an empty slice, or the slice expression
`decrypted[:len(decrypted)-pad]` with a negative bound. -/
def pkcs7Decode (decrypted : List Byte) : Option (List Byte) :=
  match decrypted.getLast? with
  | none => none
  | some b =>
    let pad0 : Nat := b.val
    let pad : Nat := if pad0 < 1 ∨ pad0 > 32 then 0 else pad0
    if decrypted.length < pad then none
    else some (decrypted.take (decrypted.length - pad))

/-! ## WXBizMsgCrypt.go -/

/-- The standard-library collaborators of the cipher and of the signature. -/
structure Primitives where
  /-- The call `cipher.NewCBCEncrypter(block, iv).CryptBlocks(dst, src)` with `block` the AES
  cipher of `key`: the bytes written to `dst`. -/
  cbcEncrypt : (key iv src : List Byte) → List Byte
  /-- The call `cipher.NewCBCDecrypter(block, iv).CryptBlocks(dst, src)`. -/
  cbcDecrypt : (key iv src : List Byte) → List Byte
  /-- The call `base64.StdEncoding.EncodeToString`. -/
  b64Encode : List Byte → GoString
  /-- The bytes returned by `base64.StdEncoding.DecodeString` (with or without an error). -/
  b64Decode : GoString → List Byte
  /-- The digest `h.Sum(nil)` of a `sha1.New()` hash after the given bytes were written. -/
  sha1 : List Byte → List Byte
  /-- The field `Encrypt` that `xml.Unmarshal` stores in a `DecryptedMsg`; `none` when it
  returns an error. -/
  xmlUnmarshal : List Byte → Option GoString

/-- The key sizes `aes.NewCipher` accepts. -/
def aesKeySizeOk (n : Nat) : Prop := n = 16 ∨ n = 24 ∨ n = 32

instance (n : Nat) : Decidable (aesKeySizeOk n) := by
  unfold aesKeySizeOk; infer_instance

/-- What is assumed of the collaborators for the round trip: CBC encryption keeps
the length, CBC decryption under the same key and IV undoes it on whole blocks,
and base64 decoding undoes base64 encoding. -/
structure Primitives.Lawful (P : Primitives) : Prop where
  cbc_length : ∀ key iv src, aesKeySizeOk key.length → iv.length = 16 →
    (P.cbcEncrypt key iv src).length = src.length
  cbc_inverse : ∀ key iv src, aesKeySizeOk key.length → iv.length = 16 →
    src.length % 16 = 0 → P.cbcDecrypt key iv (P.cbcEncrypt key iv src) = src
  b64_inverse : ∀ bs, P.b64Decode (P.b64Encode bs) = bs

/-- The struct `WXBizMsgCrypt`. -/
structure WXBizMsgCrypt where
  token : GoString
  aesKey : List Byte
  appID : GoString
  deriving DecidableEq, Repr

/-- The struct `EncryptedMsg` (the `Cdata` wrapper holds the string `Encrypt`). -/
structure EncryptedMsg where
  Encrypt : GoString
  MsgSignature : GoString
  TimeStamp : Int
  Nonce : GoString
  deriving DecidableEq, Repr

/-- The function `getNetworkBytesOrder(n int) []byte`, for `n ≥ 0`. -/
def getNetworkBytesOrder (n : Nat) : List Byte :=
  [toByte (n >>> 24), toByte (n >>> 16), toByte (n >>> 8), toByte n]

/-- The function `recoverNetworkBytesOrder(orderBytes []byte) int`; `none` is the index panic on
a slice of fewer than four bytes. -/
def recoverNetworkBytesOrder (orderBytes : List Byte) : Option Nat :=
  match orderBytes with
  | b0 :: b1 :: b2 :: b3 :: _ =>
    some (b0.val <<< 24 ||| b1.val <<< 16 ||| b2.val <<< 8 ||| b3.val)
  | _ => none

/-- The bytes of a Go string literal of ASCII characters. -/
def asciiBytes (s : String) : GoString := s.toList.map (fun c => toByte c.toNat)

/-- The variable `base`. -/
def base : List Byte :=
  asciiBytes "ABCDEFGHIJKLMNOPQRSTUVWXYZabcdefghijklmnopqrstuvwxyz0123456789"

/-- The function `getRandomStr(length int) string`; `rnd idx` is the byte that `rand.Read` left
in `bts[idx]`. -/
def getRandomStr (length : Nat) (rnd : Nat → Byte) : GoString :=
  (List.range length).map (fun idx => base.getD ((rnd idx).val % base.length) 0)

/-- The bytes `buf.Bytes()` that `Encrypt` passes to `CryptBlocks`. -/
def unencrypted (mc : WXBizMsgCrypt) (random : GoString) (text : List Byte) : List Byte :=
  let buf := random ++ getNetworkBytesOrder text.length ++ text ++ mc.appID
  let padding := pkcs7Encode buf.length
  buf ++ padding

/-- The method `(mc *WXBizMsgCrypt) Encrypt(random string, text []byte)`. -/
def Encrypt (P : Primitives) (mc : WXBizMsgCrypt) (random : GoString) (text : List Byte) :
    Outcome GoString :=
  let src := unencrypted mc random text
  if aesKeySizeOk mc.aesKey.length then
    -- CryptBlocks panics on input that is not a whole number of 16-byte blocks
    if src.length % 16 ≠ 0 then .panic
    else .ok (P.b64Encode (P.cbcEncrypt mc.aesKey (mc.aesKey.take 16) src))
  else .err (.keySize mc.aesKey.length)

/-- The method `(mc *WXBizMsgCrypt) Decrypt(text string)`.  The error of `DecodeString` is
overwritten without being read.  `dst` is `make([]byte, len(src))`, so its
capacity is its length, and `pkcs7Decode` returns a prefix of it that keeps that
capacity: the slice expressions `dst[16:20]` and `dst[20 : 20+xmlLength]` are
checked against the capacity, `dst[20+xmlLength:]` against the new length. -/
def Decrypt (P : Primitives) (mc : WXBizMsgCrypt) (text : GoString) : Outcome (List Byte) :=
  if aesKeySizeOk mc.aesKey.length then
    let src := P.b64Decode text
    if src.length % 16 ≠ 0 then .panic
    else
      let full := P.cbcDecrypt mc.aesKey (mc.aesKey.take 16) src
      match pkcs7Decode full with
      | none => .panic
      | some dst =>
        if full.length < 20 then .panic
        else
          let networkOrder := (full.drop 16).take 4
          match recoverNetworkBytesOrder networkOrder with
          | none => .panic
          | some xmlLength =>
            if full.length < 20 + xmlLength then .panic
            else if dst.length < 20 + xmlLength then .panic
            else
              let xmlContent := (full.drop 20).take xmlLength
              let formAppID := dst.drop (20 + xmlLength)
              if formAppID ≠ mc.appID then .err .validateAppID
              else .ok xmlContent
  else .err (.keySize mc.aesKey.length)

/-! ## signature.go -/

/-- The order of Go strings, `a <= b`: bytewise lexicographic. -/
def strLE : GoString → GoString → Bool
  | [], _ => true
  | _ :: _, [] => false
  | x :: xs, y :: ys => x.val < y.val || (x.val == y.val && strLE xs ys)

/-- The order `strLE` as a relation. -/
def StrLE (a b : GoString) : Prop := strLE a b = true

instance : DecidableRel StrLE := fun a b => inferInstanceAs (Decidable (strLE a b = true))

/-- The call `sort.Strings(params)`: the ascending arrangement of the strings (equal strings
are indistinguishable, so it does not depend on the sorting algorithm). -/
def sortStrings (params : List GoString) : List GoString :=
  params.insertionSort StrLE

/-- One lowercase hexadecimal digit, as `fmt` prints it under the verb `%x`. -/
def hexDigit (n : Nat) : Byte := if n < 10 then toByte (48 + n) else toByte (87 + n)

/-- The call `fmt.Sprintf("%x", bs)` on a byte slice: two lowercase digits per byte. -/
def hexLower (bs : List Byte) : GoString :=
  bs.flatMap (fun b => [hexDigit (b.val / 16), hexDigit (b.val % 16)])

/-- The value of a lowercase hexadecimal digit. -/
def hexVal (c : Byte) : Nat := if c.val < 58 then c.val - 48 else c.val - 87

/-- Reading back a string of hexadecimal digit pairs, most significant digit first. -/
def hexDecode : GoString → List Byte
  | hi :: lo :: rest => toByte (hexVal hi * 16 + hexVal lo) :: hexDecode rest
  | _ => []

/-- The characters `0`-`9` and `a`-`f`. -/
def isLowerHex (c : Byte) : Prop := (48 ≤ c.val ∧ c.val ≤ 57) ∨ (97 ≤ c.val ∧ c.val ≤ 102)

/-- The function `SignParams(params ...string) string`. -/
def SignParams (P : Primitives) (params : List GoString) : GoString :=
  let sorted := sortStrings params
  -- io.WriteString(h, s) for each s in turn hashes the concatenation
  hexLower (P.sha1 sorted.flatten)

/-- The function `strconv.FormatInt(i, 10)`. -/
def formatInt (i : Int) : GoString :=
  (if i < 0 then asciiBytes "-" else []) ++
    (Nat.toDigits 10 i.natAbs).map (fun c => toByte c.toNat)

/-- The inputs `EncryptMsg` takes from its environment: the bytes `rand.Read` gives to
the two calls of `getRandomStr`, and `time.Now().Unix()`. -/
structure Env where
  rand1 : Nat → Byte
  rand2 : Nat → Byte
  now : Int

/-- The method `(mc *WXBizMsgCrypt) EncryptMsg(reply []byte, timeStamp int64, nonce string)`. -/
def EncryptMsg (P : Primitives) (env : Env) (mc : WXBizMsgCrypt) (reply : List Byte)
    (timeStamp : Int) (nonce : GoString) : Outcome EncryptedMsg :=
  match Encrypt P mc (getRandomStr 16 env.rand1) reply with
  | .err e => .err e
  | .panic => .panic
  | .ok encryptText =>
    let timeStamp := if timeStamp = 0 then env.now else timeStamp
    let nonce := if nonce = [] then getRandomStr 16 env.rand2 else nonce
    let timeStampStr := formatInt timeStamp
    let signature := SignParams P [mc.token, timeStampStr, nonce, encryptText]
    .ok { Encrypt := encryptText, MsgSignature := signature,
          TimeStamp := timeStamp, Nonce := nonce }

/-- The method `(mc *WXBizMsgCrypt) DecryptMsg(msgSignature, timeStamp, nonce string, postData []byte)`. -/
def DecryptMsg (P : Primitives) (mc : WXBizMsgCrypt) (msgSignature timeStamp nonce : GoString)
    (postData : List Byte) : Outcome (List Byte) :=
  match P.xmlUnmarshal postData with
  | none => .err .xmlUnmarshal
  | some encrypt =>
    let signature := SignParams P [mc.token, timeStamp, nonce, encrypt]
    if signature ≠ msgSignature then .err .validateSignature
    else Decrypt P mc encrypt

/-- The value of a character of the standard base64 alphabet, `none` for any other byte. -/
def b64Value (c : Byte) : Option Nat :=
  if 65 ≤ c.val ∧ c.val ≤ 90 then some (c.val - 65)
  else if 97 ≤ c.val ∧ c.val ≤ 122 then some (c.val - 71)
  else if 48 ≤ c.val ∧ c.val ≤ 57 then some (c.val + 4)
  else if c.val = 43 then some 62
  else if c.val = 47 then some 63
  else none

/-- The three bytes of a quantum of four 6-bit values. -/
def quantumBytes (v0 v1 v2 v3 : Nat) : List Byte :=
  let val := v0 * 2 ^ 18 + v1 * 2 ^ 12 + v2 * 2 ^ 6 + v3
  [toByte (val / 2 ^ 16), toByte (val / 2 ^ 8), toByte val]

/-- Decoding of padded base64 without line breaks: quanta of four characters of the
alphabet, the last one possibly `xx==` (one byte) or `xxx=` (two bytes), and
nothing after the padding.  `none` is `CorruptInputError`. -/
def decodeQuanta : List Byte → Option (List Byte)
  | [] => some []
  | a :: b :: c :: d :: rest =>
    match b64Value a, b64Value b with
    | some va, some vb =>
      if c = 61 then
        if d = 61 ∧ rest = [] then some ((quantumBytes va vb 0 0).take 1) else none
      else
        match b64Value c with
        | none => none
        | some vc =>
          if d = 61 then
            if rest = [] then some ((quantumBytes va vb vc 0).take 2) else none
          else
            match b64Value d with
            | none => none
            | some vd => (decodeQuanta rest).map (quantumBytes va vb vc vd ++ ·)
    | _, _ => none
  | _ => none

/-- The call `base64.StdEncoding.DecodeString(s)` when it returns a nil error: the decoded
bytes.  The decoder skips the characters `\r` and `\n` wherever they stand and
requires padding; it does not check the unused low bits of the last quantum.
`none` is a non-nil error. -/
def stdDecodeString (s : GoString) : Option (List Byte) :=
  decodeQuanta (s.filter (fun c => c ≠ 10 ∧ c ≠ 13))

/-- The function `NewWXBizMsgCrypt(aesToken, encodingAesKey, appid string)`. -/
def NewWXBizMsgCrypt (aesToken encodingAesKey appid : GoString) : Outcome WXBizMsgCrypt :=
  match stdDecodeString (encodingAesKey ++ asciiBytes "=") with
  | none => .err .corruptInput
  | some data => .ok { token := aesToken, aesKey := data, appID := appid }

/-! ## platform/data.go -/

/-- The conversion of an integer to `int64`: the value modulo 2^64 in `[-2^63, 2^63)`. -/
def wrapInt64 (x : Int) : Int := (x + 2 ^ 63) % 2 ^ 64 - 2 ^ 63

/-- The constant `time.Second`, in nanoseconds. -/
def second : Int := 1000000000

/-- The constant `time.Minute`, in nanoseconds. -/
def minute : Int := 60 * second

/-- The struct `ExpireData`; `ExpireAt` is an instant in nanoseconds. -/
structure ExpireData where
  Value : GoString
  RefreshToken : GoString
  ExpireAt : Int
  deriving DecidableEq, Repr

/-- The function `GetRefreshToken(ed *ExpireData) string`; `none` is the nil pointer. -/
def GetRefreshToken (ed : Option ExpireData) : GoString :=
  match ed with
  | none => []
  | some d => if d.RefreshToken ≠ [] then d.RefreshToken else d.Value

/-- The interface `DataStorage`, over a world `W`. -/
structure DataStorage (W : Type) where
  Store : (key value : GoString) → W → Option Err × W
  Read : (key : GoString) → W → Except Err GoString × W
  Del : (key : GoString) → W → Option Err × W

/-- The interface `ExpireDataStorage`, over a world `W`.  `Read` gives the pointer it
returns (`none` for nil) when its error is nil. -/
structure ExpireDataStorage (W : Type) where
  Store : (key : GoString) → (data : ExpireData) → W → Option Err × W
  Read : (key : GoString) → W → Except Err (Option ExpireData) × W
  Del : (key : GoString) → W → Option Err × W

/-- The type `ExpireDataRefresher`: `ok (value, newRefreshToken, expiresIn)` when the
returned error is nil. -/
abbrev ExpireDataRefresher (W : Type) :=
  (key refreshToken : GoString) → W → Outcome (GoString × GoString × Int) × W

/-- The struct `DataContainer`; a nil interface value is `none`. -/
structure DataContainer (W : Type) where
  storage : Option (DataStorage W)

/-- The struct `ExpireDataContainer`; a nil interface value is `none`. -/
structure ExpireDataContainer (W : Type) where
  name : GoString
  refresher : ExpireDataRefresher W
  storage : Option (ExpireDataStorage W)
  refreshBeforeExpire : Int

/-- The function `NewDataContainer`. -/
def NewDataContainer {W : Type} (storage : Option (DataStorage W)) : DataContainer W :=
  { storage := storage }

/-- The function `NewExpireDataContainer`. -/
def NewExpireDataContainer {W : Type} (name : GoString) (storage : Option (ExpireDataStorage W))
    (refreshBeforeExpire : Int) (refresher : ExpireDataRefresher W) : ExpireDataContainer W :=
  { name := name, refresher := refresher, storage := storage,
    refreshBeforeExpire := refreshBeforeExpire }

/-- The method `(dc *DataContainer) Get(key string)`; calling `Read` on a nil interface
panics. -/
def DataContainer.Get {W : Type} (dc : DataContainer W) (key : GoString) (w : W) :
    Outcome GoString × W :=
  match dc.storage with
  | none => (.panic, w)
  | some storage =>
    match storage.Read key w with
    | (.error err, w1) => (.err err, w1)
    | (.ok value, w1) => (.ok value, w1)

/-- A call that `get` makes on a collaborator of the container. -/
inductive Call where
  /-- The call `e.storage.Read(key)`. -/
  | read (key : GoString)
  /-- The call `e.refresher(key, refreshToken)`. -/
  | refresh (key refreshToken : GoString)
  /-- The call `e.storage.Store(key, data)`. -/
  | store (key : GoString) (data : ExpireData)
  deriving DecidableEq, Repr

/-- What a run of `get` gives: the returned pair, the world it leaves and the calls
it made on the storage and the refresh provider, in order. -/
structure GetOut (W : Type) where
  result : Outcome GoString
  world : W
  calls : List Call

/-- The instant `now.Add(time.Duration(expiresIn)*time.Second - e.refreshBeforeExpire)`. -/
def expireAt (now expiresIn refreshBeforeExpire : Int) : Int :=
  now + wrapInt64 (wrapInt64 (expiresIn * second) - refreshBeforeExpire)

/-- The message `fmt.Sprintf("expire data container [%s]", name)`. -/
def containerMessage (name : GoString) : GoString :=
  asciiBytes "expire data container [" ++ name ++ asciiBytes "]"

/-- The body of the `if` of `get`: `data` and `w1` are what `Read` returned and left, `now`
the reading of the ticker. -/
def ExpireDataContainer.refreshCycle {W : Type} (e : ExpireDataContainer W)
    (storage : ExpireDataStorage W) (key : GoString) (data : Option ExpireData) (now : Int)
    (w1 : W) : GetOut W :=
  match e.refresher key (GetRefreshToken data) w1 with
  | (.panic, w2) =>
    { result := .panic, world := w2, calls := [.read key, .refresh key (GetRefreshToken data)] }
  | (.err err, w2) =>
    { result := .err (.wrap err (containerMessage e.name)), world := w2,
      calls := [.read key, .refresh key (GetRefreshToken data)] }
  | (.ok (value, refreshToken, expiresIn), w2) =>
    let data1 : ExpireData :=
      { Value := value, RefreshToken := refreshToken,
        ExpireAt := expireAt now expiresIn e.refreshBeforeExpire }
    -- `e.storage != nil` holds here: `Read` was called on it
    match storage.Store key data1 w2 with
    | (some err, w3) =>
      { result := .err (.withMessage err (asciiBytes "store expire data failed")), world := w3,
        calls := [.read key, .refresh key (GetRefreshToken data), .store key data1] }
    | (none, w3) =>
      { result := .ok data1.Value, world := w3,
        calls := [.read key, .refresh key (GetRefreshToken data), .store key data1] }

/-- The method `(e *ExpireDataContainer) get(key string, refresh bool)`.  `tickerNow` is
`ticker.Now()`, the reading of the package-level time provider.  The condition
`refresh || data == nil || now.After(data.ExpireAt)` is evaluated left to
right. -/
def ExpireDataContainer.get {W : Type} (tickerNow : W → Int) (e : ExpireDataContainer W)
    (key : GoString) (refresh : Bool) (w : W) : GetOut W :=
  match e.storage with
  | none => { result := .panic, world := w, calls := [] }
  | some storage =>
    match storage.Read key w with
    | (.error err, w1) => { result := .err err, world := w1, calls := [.read key] }
    | (.ok data, w1) =>
      let now := tickerNow w1
      match data with
      | none => e.refreshCycle storage key none now w1
      | some d =>
        if refresh = true ∨ now > d.ExpireAt then e.refreshCycle storage key (some d) now w1
        else { result := .ok d.Value, world := w1, calls := [.read key] }

/-- The method `(e *ExpireDataContainer) Refresh(key string)`. -/
def ExpireDataContainer.Refresh {W : Type} (tickerNow : W → Int) (e : ExpireDataContainer W)
    (key : GoString) (w : W) : GetOut W :=
  e.get tickerNow key true w

/-- The method `(e *ExpireDataContainer) Get(key string)`. -/
def ExpireDataContainer.Get {W : Type} (tickerNow : W → Int) (e : ExpireDataContainer W)
    (key : GoString) (w : W) : GetOut W :=
  e.get tickerNow key false w

/-- The number of calls of the refresh provider among the calls of a run. -/
def refreshCount (calls : List Call) : Nat :=
  (calls.filter (fun c => match c with | .refresh _ _ => true | _ => false)).length

/-- The number of calls of `Store` among the calls of a run. -/
def storeCount (calls : List Call) : Nat :=
  (calls.filter (fun c => match c with | .store _ _ => true | _ => false)).length

/-! ## platform/storage.go and platform/access.go -/

/-- The struct `Storage`; a nil interface value is `none`. -/
structure Storage (W : Type) where
  VerifyTicket : Option (DataStorage W)
  PureAuthCode : Option (ExpireDataStorage W)
  AppAccessToken : Option (ExpireDataStorage W)
  AppTicket : Option (ExpireDataStorage W)
  UserAccessToken : Option (ExpireDataStorage W)
  ComponentAccessToken : Option (ExpireDataStorage W)

/-- The function `NewStorage(dt DataStorage, edt ExpireDataStorage)`. -/
def NewStorage {W : Type} (dt : Option (DataStorage W)) (edt : Option (ExpireDataStorage W)) :
    Storage W :=
  { VerifyTicket := dt, PureAuthCode := edt, AppAccessToken := edt, AppTicket := edt,
    UserAccessToken := edt, ComponentAccessToken := edt }

/-- The type `AppSecretProvider`. -/
abbrev AppSecretProvider (W : Type) := (appid : GoString) → W → Except Err GoString × W

/-- The remote operations the refresh providers call, as collaborators over the world. Each
gives the fields of the decoded answer that the provider reads, or the error. -/
structure Remote (W : Type) where
  /-- The function `open_platform.GetComponentAccessToken`: `Token` and `ExpiresIn`. -/
  GetComponentAccessToken : (componentAppid appSecret verifyTicket : GoString) → W →
    Except Err (GoString × Int) × W
  /-- The function `open_platform.GetPureAuthCode`: `PreAuthCode` and `ExpiresIn`. -/
  GetPureAuthCode : (componentAppid componentAccessToken : GoString) → W →
    Except Err (GoString × Int) × W
  /-- The function `open_platform.GetAuthorizerInfo`: the field
  `AuthorizationInfo.AuthorizerRefreshToken`, promoted from the embedded pointer
  `*AuthorizerToken`; `none` when that pointer is nil. -/
  GetAuthorizerInfo : (componentAppid authorizerAppid componentAccessToken : GoString) → W →
    Except Err (Option GoString) × W
  /-- The function `open_platform.RefreshAuthorizerToken`: `AuthorizerAccessToken`,
  `AuthorizerRefreshToken` and `ExpiresIn`. -/
  RefreshAuthorizerToken :
    (componentAppid authorizerAppid authorizerRefreshToken componentAccessToken : GoString) →
    W → Except Err (GoString × GoString × Int) × W
  /-- The function `access.GetAccessToken`: `Value` and `ExpiresIn`. -/
  GetAccessToken : (appid appSecret : GoString) → W → Except Err (GoString × Int) × W
  /-- The function `access.GetTicket`: `Value` and `ExpiresIn`. -/
  GetTicket : (accessToken : GoString) → W → Except Err (GoString × Int) × W
  /-- The function `oauth2.RefreshComponentAccessToken`: `AccessToken`, `RefreshToken` and
  `ExpiresIn`. -/
  RefreshComponentAccessToken :
    (appid refreshToken componentAppid componentAccessToken : GoString) → W →
    Except Err (GoString × GoString × Int) × W
  /-- The function `oauth2.RefreshAccessToken`: `AccessToken`, `RefreshToken` and `ExpiresIn`. -/
  RefreshAccessToken : (appid refreshToken : GoString) → W →
    Except Err (GoString × GoString × Int) × W

/-- The struct `ComponentAccess`. -/
structure ComponentAccess (W : Type) where
  Appid : GoString
  VerifyTicket : DataContainer W
  PreAuthCode : ExpireDataContainer W
  AccessToken : ExpireDataContainer W

/-- The struct `AppAccess`; a nil `*ComponentAccess` is `none`. -/
structure AppAccess (W : Type) where
  Appid : GoString
  ComponentAccess : Option (ComponentAccess W)
  AppAccessToken : ExpireDataContainer W
  AppTicket : ExpireDataContainer W
  UserAccessToken : ExpireDataContainer W

/-- The refresh provider of the container "componentAccessToken" in `NewComponentAccess`. -/
def componentAccessTokenRefresher {W : Type} (R : Remote W) (verifyTicket : DataContainer W)
    (appid : GoString) (secretProvider : AppSecretProvider W) : ExpireDataRefresher W :=
  fun componentAppid _refreshToken w =>
    match verifyTicket.Get componentAppid w with
    | (.panic, w1) => (.panic, w1)
    | (.err err, w1) => (.err err, w1)
    | (.ok ticket, w1) =>
      match secretProvider appid w1 with
      | (.error err, w2) => (.err err, w2)
      | (.ok secret, w2) =>
        match R.GetComponentAccessToken componentAppid secret ticket w2 with
        | (.error err, w3) => (.err err, w3)
        | (.ok (token, expiresIn), w3) => (.ok (token, [], expiresIn), w3)

/-- The refresh provider of the container "preAuthCode" in `NewComponentAccess`. -/
def preAuthCodeRefresher {W : Type} (tickerNow : W → Int) (R : Remote W)
    (accessToken : ExpireDataContainer W) : ExpireDataRefresher W :=
  fun componentAppid _refreshToken w =>
    let got := accessToken.Get tickerNow componentAppid w
    match got.result with
    | .panic => (.panic, got.world)
    | .err err => (.err err, got.world)
    | .ok token =>
      match R.GetPureAuthCode componentAppid token got.world with
      | (.error err, w2) => (.err err, w2)
      | (.ok (code, expiresIn), w2) => (.ok (code, [], expiresIn), w2)

/-- The function `NewComponentAccess(storage, appid, secretProvider)`. -/
def NewComponentAccess {W : Type} (tickerNow : W → Int) (R : Remote W) (storage : Storage W)
    (appid : GoString) (secretProvider : AppSecretProvider W) : ComponentAccess W :=
  let verifyTicket := NewDataContainer storage.VerifyTicket
  let accessToken := NewExpireDataContainer (asciiBytes "componentAccessToken")
    storage.ComponentAccessToken (20 * minute)
    (componentAccessTokenRefresher R verifyTicket appid secretProvider)
  let preAuthCode := NewExpireDataContainer (asciiBytes "preAuthCode")
    storage.PureAuthCode (20 * minute) (preAuthCodeRefresher tickerNow R accessToken)
  { Appid := appid, VerifyTicket := verifyTicket, AccessToken := accessToken,
    PreAuthCode := preAuthCode }

/-- The refresh provider of "openPlatformAppAccessToken" in `NewAppAccess`.  Its first
parameter, named `appid` in the source, hides the `appid` of `NewAppAccess`.
Reading `at.AuthorizationInfo.AuthorizerRefreshToken` through a nil embedded
pointer panics. -/
def openPlatformAppAccessTokenRefresher {W : Type} (tickerNow : W → Int) (R : Remote W)
    (componentAccess : ComponentAccess W) (componentAppid : GoString) : ExpireDataRefresher W :=
  fun appid refreshToken w =>
    let got := componentAccess.AccessToken.Get tickerNow componentAppid w
    match got.result with
    | .panic => (.panic, got.world)
    | .err err => (.err err, got.world)
    | .ok cAccessToken =>
      let refreshWith : GoString → W → Outcome (GoString × GoString × Int) × W :=
        fun refreshToken w2 =>
          match R.RefreshAuthorizerToken componentAppid appid refreshToken cAccessToken w2 with
          | (.error err, w3) => (.err err, w3)
          | (.ok (accessToken, newRefreshToken, expiresIn), w3) =>
            (.ok (accessToken, newRefreshToken, expiresIn), w3)
      if refreshToken = [] then
        match R.GetAuthorizerInfo componentAppid appid cAccessToken got.world with
        | (.error err, w2) =>
          (.err (.wrap err (componentAppid ++ asciiBytes ":" ++ appid ++
            asciiBytes " get refresh token")), w2)
        | (.ok none, w2) => (.panic, w2)
        | (.ok (some authorizerRefreshToken), w2) => refreshWith authorizerRefreshToken w2
      else refreshWith refreshToken got.world

/-- The refresh provider of "publicPlatformAppAccessToken" in `NewAppAccess`. -/
def publicPlatformAppAccessTokenRefresher {W : Type} (R : Remote W) (appid : GoString)
    (secretProvider : AppSecretProvider W) : ExpireDataRefresher W :=
  fun _key _refreshToken w =>
    match secretProvider appid w with
    | (.error err, w1) => (.err err, w1)
    | (.ok secret, w1) =>
      match R.GetAccessToken appid secret w1 with
      | (.error err, w2) => (.err err, w2)
      | (.ok (value, expiresIn), w2) => (.ok (value, [], expiresIn), w2)

/-- The refresh provider of "appTicket" in `NewAppAccess`. -/
def appTicketRefresher {W : Type} (tickerNow : W → Int) (R : Remote W)
    (appAccessToken : ExpireDataContainer W) : ExpireDataRefresher W :=
  fun appid _refreshToken w =>
    let got := appAccessToken.Get tickerNow appid w
    match got.result with
    | .panic => (.panic, got.world)
    | .err err => (.err err, got.world)
    | .ok token =>
      match R.GetTicket token got.world with
      | (.error err, w2) => (.err err, w2)
      | (.ok (value, expiresIn), w2) => (.ok (value, [], expiresIn), w2)

/-- The refresh provider of "openPlatformUserAccessToken" in `NewAppAccess`. -/
def openPlatformUserAccessTokenRefresher {W : Type} (tickerNow : W → Int) (R : Remote W)
    (componentAccess : ComponentAccess W) (componentAppid appid : GoString) :
    ExpireDataRefresher W :=
  fun _key refreshToken w =>
    if refreshToken = [] then (.err .userNotAuthorized, w)
    else
      let got := componentAccess.AccessToken.Get tickerNow componentAppid w
      match got.result with
      | .panic => (.panic, got.world)
      | .err err => (.err err, got.world)
      | .ok cAccessToken =>
        match R.RefreshComponentAccessToken appid refreshToken componentAppid cAccessToken
            got.world with
        | (.error err, w2) => (.err err, w2)
        | (.ok (accessToken, newRefreshToken, expiresIn), w2) =>
          (.ok (accessToken, newRefreshToken, expiresIn), w2)

/-- The refresh provider of "publicPlatformUserAccessToken" in `NewAppAccess`. -/
def publicPlatformUserAccessTokenRefresher {W : Type} (R : Remote W) (appid : GoString) :
    ExpireDataRefresher W :=
  fun _key refreshToken w =>
    if refreshToken = [] then (.err .userNotAuthorized, w)
    else
      match R.RefreshAccessToken appid refreshToken w with
      | (.error err, w1) => (.err err, w1)
      | (.ok (accessToken, newRefreshToken, expiresIn), w1) =>
        (.ok (accessToken, newRefreshToken, expiresIn), w1)

/-- The function `NewAppAccess(storage, appid, secretProvider, componentAccess)`. -/
def NewAppAccess {W : Type} (tickerNow : W → Int) (R : Remote W) (storage : Storage W)
    (appid : GoString) (secretProvider : AppSecretProvider W)
    (componentAccess : Option (ComponentAccess W)) : AppAccess W :=
  let appAccessToken : ExpireDataContainer W :=
    match componentAccess with
    | some ca =>
      NewExpireDataContainer (asciiBytes "openPlatformAppAccessToken") storage.AppAccessToken
        (20 * minute) (openPlatformAppAccessTokenRefresher tickerNow R ca ca.Appid)
    | none =>
      NewExpireDataContainer (asciiBytes "publicPlatformAppAccessToken") storage.AppAccessToken
        (20 * minute) (publicPlatformAppAccessTokenRefresher R appid secretProvider)
  let appTicket := NewExpireDataContainer (asciiBytes "appTicket") storage.AppTicket
    (20 * minute) (appTicketRefresher tickerNow R appAccessToken)
  let userAccessToken : ExpireDataContainer W :=
    match componentAccess with
    | some ca =>
      NewExpireDataContainer (asciiBytes "openPlatformUserAccessToken") storage.UserAccessToken
        (20 * minute) (openPlatformUserAccessTokenRefresher tickerNow R ca ca.Appid appid)
    | none =>
      NewExpireDataContainer (asciiBytes "publicPlatformUserAccessToken")
        storage.UserAccessToken (20 * minute) (publicPlatformUserAccessTokenRefresher R appid)
  { Appid := appid, ComponentAccess := componentAccess, AppAccessToken := appAccessToken,
    AppTicket := appTicket, UserAccessToken := userAccessToken }

/-! ## An in-memory world

The world of the scenarios: a clock, two in-memory storages that return what was
last stored under a key, and the list of the remote requests made so far. -/

/-- A request to the remote platform, with its arguments in the order of the source. -/
inductive RemoteCall where
  | getComponentAccessToken (componentAppid appSecret verifyTicket : GoString)
  | getPureAuthCode (componentAppid componentAccessToken : GoString)
  | getAuthorizerInfo (componentAppid authorizerAppid componentAccessToken : GoString)
  | refreshAuthorizerToken
      (componentAppid authorizerAppid authorizerRefreshToken componentAccessToken : GoString)
  | getAccessToken (appid appSecret : GoString)
  | getTicket (accessToken : GoString)
  | refreshComponentAccessToken
      (appid refreshToken componentAppid componentAccessToken : GoString)
  | refreshAccessToken (appid refreshToken : GoString)
  deriving DecidableEq, Repr

/-- The in-memory world. -/
structure MemWorld where
  /-- The reading of the ticker. -/
  clock : Int
  /-- The contents of the in-memory `DataStorage`, most recent entry first. -/
  data : List (GoString × GoString)
  /-- The contents of the in-memory `ExpireDataStorage`, most recent entry first. -/
  expire : List (GoString × ExpireData)
  /-- The remote requests made, oldest first. -/
  remote : List RemoteCall
  deriving DecidableEq, Repr

/-- The in-memory `DataStorage`: `Read` gives the value last stored under the key, and the
empty string when there is none (as a Go map does); no method fails. -/
def memData : DataStorage MemWorld where
  Store := fun key value w =>
    (none, { w with data := (key, value) :: w.data.filter (fun kv => kv.1 ≠ key) })
  Read := fun key w => (.ok ((w.data.lookup key).getD []), w)
  Del := fun key w => (none, { w with data := w.data.filter (fun kv => kv.1 ≠ key) })

/-- The in-memory `ExpireDataStorage`: `Read` gives the credential last stored under the key,
nil when there is none; no method fails. -/
def memExpire : ExpireDataStorage MemWorld where
  Store := fun key data w =>
    (none, { w with expire := (key, data) :: w.expire.filter (fun kv => kv.1 ≠ key) })
  Read := fun key w => (.ok (w.expire.lookup key), w)
  Del := fun key w => (none, { w with expire := w.expire.filter (fun kv => kv.1 ≠ key) })

/-- The answers of the remote platform, as functions of the arguments of the request. -/
structure Stubs where
  GetComponentAccessToken : (componentAppid appSecret verifyTicket : GoString) →
    Except Err (GoString × Int)
  GetPureAuthCode : (componentAppid componentAccessToken : GoString) →
    Except Err (GoString × Int)
  GetAuthorizerInfo : (componentAppid authorizerAppid componentAccessToken : GoString) →
    Except Err (Option GoString)
  RefreshAuthorizerToken :
    (componentAppid authorizerAppid authorizerRefreshToken componentAccessToken : GoString) →
    Except Err (GoString × GoString × Int)
  GetAccessToken : (appid appSecret : GoString) → Except Err (GoString × Int)
  GetTicket : (accessToken : GoString) → Except Err (GoString × Int)
  RefreshComponentAccessToken :
    (appid refreshToken componentAppid componentAccessToken : GoString) →
    Except Err (GoString × GoString × Int)
  RefreshAccessToken : (appid refreshToken : GoString) → Except Err (GoString × GoString × Int)

/-- Recording a remote request in the world. -/
def MemWorld.request (w : MemWorld) (c : RemoteCall) : MemWorld :=
  { w with remote := w.remote ++ [c] }

/-- The remote operations over the in-memory world: each records its request and gives the
stubbed answer. -/
def stubRemote (S : Stubs) : Remote MemWorld where
  GetComponentAccessToken := fun a b c w =>
    (S.GetComponentAccessToken a b c, w.request (.getComponentAccessToken a b c))
  GetPureAuthCode := fun a b w => (S.GetPureAuthCode a b, w.request (.getPureAuthCode a b))
  GetAuthorizerInfo := fun a b c w =>
    (S.GetAuthorizerInfo a b c, w.request (.getAuthorizerInfo a b c))
  RefreshAuthorizerToken := fun a b c d w =>
    (S.RefreshAuthorizerToken a b c d, w.request (.refreshAuthorizerToken a b c d))
  GetAccessToken := fun a b w => (S.GetAccessToken a b, w.request (.getAccessToken a b))
  GetTicket := fun a w => (S.GetTicket a, w.request (.getTicket a))
  RefreshComponentAccessToken := fun a b c d w =>
    (S.RefreshComponentAccessToken a b c d, w.request (.refreshComponentAccessToken a b c d))
  RefreshAccessToken := fun a b w =>
    (S.RefreshAccessToken a b, w.request (.refreshAccessToken a b))

/-- A secret provider that gives a fixed secret. -/
def fixedSecret (secret : GoString) : AppSecretProvider MemWorld :=
  fun _appid w => (.ok secret, w)

/-- A refresh provider that gives a fixed answer and leaves the world as it is. -/
def fixedRefresher (answer : Outcome (GoString × GoString × Int)) :
    ExpireDataRefresher MemWorld :=
  fun _key _refreshToken w => (answer, w)

/-- The storage `NewStorage(dt, edt)` on the two in-memory storages. -/
def memStorage : Storage MemWorld := NewStorage (some memData) (some memExpire)

/-! ## platform/access.go: AccessContainer

The operations of the registry as they run in one goroutine: every lock is free
when it is taken.  A pointer to a struct that is not modified after its
construction is the struct with the address it was allocated at; the registry
counts its allocations, and the address of a new struct is that count. -/

/-- A pointer `*α`: the address and the struct it points to. -/
structure Ptr (α : Type) where
  addr : Nat
  val : α
  deriving DecidableEq, Repr

/-- The type `AppAesKeyProvider`: `(token, aesKey)` when the returned error is nil.  A provider
is read as what it returns, at the time of the call, for its argument. -/
abbrev AppAesKeyProvider := (appid : GoString) → Except Err (GoString × GoString)

/-- The type `ComponentAppidProvider`: the returned string and the returned error. -/
abbrev ComponentAppidProvider := (appid : GoString) → GoString × Option Err

/-- The assignment `m[k] = v` on a Go map, as a list of entries. -/
def mapSet {α : Type} (m : List (GoString × α)) (k : GoString) (v : α) : List (GoString × α) :=
  (k, v) :: m.filter (fun kv => kv.1 ≠ k)

/-- The call `delete(m, k)` on a Go map. -/
def mapDel {α : Type} (m : List (GoString × α)) (k : GoString) : List (GoString × α) :=
  m.filter (fun kv => kv.1 ≠ k)

/-- The struct `AccessContainer`, with the package-level ticker and remote operations that the
structs it builds use, and the count of the structs it has allocated. -/
structure AccessContainer (W : Type) where
  tickerNow : W → Int
  remote : Remote W
  storage : Storage W
  AppSecretProvider : Wechat.AppSecretProvider W
  AppAesKeyProvider : Wechat.AppAesKeyProvider
  ComponentAppidProvider : Wechat.ComponentAppidProvider
  appAccess : List (GoString × Ptr (AppAccess W))
  componentAccess : List (GoString × Ptr (ComponentAccess W))
  decrypter : List (GoString × Ptr WXBizMsgCrypt)
  allocated : Nat

/-- The function `NewAccessContainer(storage, appSecret, aesKey, components)`. -/
def NewAccessContainer {W : Type} (tickerNow : W → Int) (remote : Remote W)
    (storage : Storage W) (appSecret : Wechat.AppSecretProvider W)
    (aesKey : Wechat.AppAesKeyProvider) (components : Wechat.ComponentAppidProvider) :
    AccessContainer W :=
  { tickerNow := tickerNow, remote := remote, storage := storage,
    AppSecretProvider := appSecret, AppAesKeyProvider := aesKey,
    ComponentAppidProvider := components,
    appAccess := [], componentAccess := [], decrypter := [], allocated := 0 }

/-- The method `(ac *AccessContainer) GetComponentAccess(appid string)`: the returned pointer (the
returned error is always nil) and the registry after the call. -/
def AccessContainer.GetComponentAccess {W : Type} (ac : AccessContainer W) (appid : GoString) :
    Ptr (ComponentAccess W) × AccessContainer W :=
  match ac.componentAccess.lookup appid with
  | some a => (a, ac)
  | none =>
    let a : Ptr (ComponentAccess W) :=
      { addr := ac.allocated,
        val := NewComponentAccess ac.tickerNow ac.remote ac.storage appid ac.AppSecretProvider }
    (a, { ac with componentAccess := mapSet ac.componentAccess appid a,
                  allocated := ac.allocated + 1 })

/-- The method `(ac *AccessContainer) GetAppAccess(componentAppid, appid string)`: the returned
pointer and the registry after the call.  The error of `GetComponentAccess` is
always nil, and so is the returned one; the error of `ComponentAppidProvider` is
dropped by the source. -/
def AccessContainer.GetAppAccess {W : Type} (ac : AccessContainer W)
    (componentAppid appid : GoString) : Ptr (AppAccess W) × AccessContainer W :=
  match ac.appAccess.lookup appid with
  | some a => (a, ac)
  | none =>
    let componentAppid1 :=
      if componentAppid = [] then (ac.ComponentAppidProvider appid).1 else componentAppid
    let built : Option (Ptr (ComponentAccess W)) × AccessContainer W :=
      if componentAppid1 ≠ [] then
        ((some (ac.GetComponentAccess componentAppid1).1), (ac.GetComponentAccess componentAppid1).2)
      else (none, ac)
    let a : Ptr (AppAccess W) :=
      { addr := built.2.allocated,
        val := NewAppAccess ac.tickerNow ac.remote ac.storage appid ac.AppSecretProvider
          (built.1.map (fun c => c.val)) }
    (a, { built.2 with appAccess := mapSet built.2.appAccess appid a,
                       allocated := built.2.allocated + 1 })

/-- The method `(ac *AccessContainer) GetComponentAppid(appid string)`. -/
def AccessContainer.GetComponentAppid {W : Type} (ac : AccessContainer W) (appid : GoString) :
    Outcome GoString × AccessContainer W :=
  let got := ac.GetAppAccess [] appid
  match got.1.val.ComponentAccess with
  | some c => (.ok c.Appid, got.2)
  | none => (.err .needAuthorizerApp, got.2)

/-- The method `(ac *AccessContainer) GetAppAccessToken(appid string)`. -/
def AccessContainer.GetAppAccessToken {W : Type} (ac : AccessContainer W) (appid : GoString)
    (w : W) : Outcome GoString × AccessContainer W × W :=
  let got := ac.GetAppAccess [] appid
  let out := got.1.val.AppAccessToken.Get ac.tickerNow appid w
  (out.result, got.2, out.world)

/-- The method `(ac *AccessContainer) GetAppTicket(appid string)`. -/
def AccessContainer.GetAppTicket {W : Type} (ac : AccessContainer W) (appid : GoString)
    (w : W) : Outcome GoString × AccessContainer W × W :=
  let got := ac.GetAppAccess [] appid
  let out := got.1.val.AppTicket.Get ac.tickerNow appid w
  (out.result, got.2, out.world)

/-- The end of `GetDecrypter` once `aesAppid` is known: the provider, the construction of the
cipher and its caching under `appid`.  `none` is the nil cipher. -/
def AccessContainer.decrypterFor {W : Type} (ac : AccessContainer W) (appid aesAppid : GoString) :
    Outcome (Option (Ptr WXBizMsgCrypt)) × AccessContainer W :=
  match ac.AppAesKeyProvider aesAppid with
  | .error err => (.err err, ac)
  | .ok (token, aesKey) =>
    if aesKey ≠ [] then
      match NewWXBizMsgCrypt token aesKey aesAppid with
      | .panic => (.panic, ac)
      | .err err => (.err err, ac)
      | .ok mc =>
        let d : Ptr WXBizMsgCrypt := { addr := ac.allocated, val := mc }
        (.ok (some d), { ac with decrypter := mapSet ac.decrypter appid d,
                                 allocated := ac.allocated + 1 })
    else (.ok none, ac)

/-- The method `(ac *AccessContainer) GetDecrypter(appid string)`; `ok none` is a nil cipher with
a nil error. -/
def AccessContainer.GetDecrypter {W : Type} (ac : AccessContainer W) (appid : GoString) :
    Outcome (Option (Ptr WXBizMsgCrypt)) × AccessContainer W :=
  match ac.decrypter.lookup appid with
  | some d => (.ok (some d), ac)
  | none =>
    match ac.GetComponentAppid appid with
    | (.panic, ac1) => (.panic, ac1)
    | (.err err, ac1) =>
      if err = .needAuthorizerApp then ac1.decrypterFor appid appid else (.err err, ac1)
    | (.ok componendAppid, ac1) => ac1.decrypterFor appid componendAppid

/-- The method `(ac *AccessContainer) Flash(appid string)`. -/
def AccessContainer.Flash {W : Type} (ac : AccessContainer W) (appid : GoString) :
    AccessContainer W :=
  { ac with decrypter := mapDel ac.decrypter appid, appAccess := mapDel ac.appAccess appid,
            componentAccess := mapDel ac.componentAccess appid }

/-- A call of a method of the registry. -/
inductive Op where
  | getComponentAccess (appid : GoString)
  | getAppAccess (componentAppid appid : GoString)
  | getComponentAppid (appid : GoString)
  | getAppAccessToken (appid : GoString)
  | getAppTicket (appid : GoString)
  | getDecrypter (appid : GoString)
  | flash (appid : GoString)
  deriving DecidableEq, Repr

/-- The registry and the world after a call. -/
def Op.step {W : Type} (op : Op) (s : AccessContainer W × W) : AccessContainer W × W :=
  match op with
  | .getComponentAccess appid => ((s.1.GetComponentAccess appid).2, s.2)
  | .getAppAccess componentAppid appid => ((s.1.GetAppAccess componentAppid appid).2, s.2)
  | .getComponentAppid appid => ((s.1.GetComponentAppid appid).2, s.2)
  | .getAppAccessToken appid =>
    ((s.1.GetAppAccessToken appid s.2).2.1, (s.1.GetAppAccessToken appid s.2).2.2)
  | .getAppTicket appid => ((s.1.GetAppTicket appid s.2).2.1, (s.1.GetAppTicket appid s.2).2.2)
  | .getDecrypter appid => ((s.1.GetDecrypter appid).2, s.2)
  | .flash appid => (s.1.Flash appid, s.2)

/-- The registry and the world after a sequence of calls. -/
def runOps {W : Type} (ops : List Op) (s : AccessContainer W × W) : AccessContainer W × W :=
  ops.foldl (fun s op => op.step s) s

/-! ## platform/access.go: splitStrs -/

/-- What a run of `splitStrs` gives: the returned error (`ok` for nil), the world it leaves,
and the slices it passed to `walk`, in the order of the calls. -/
structure SplitOut (W : Type) where
  result : Outcome Unit
  world : W
  walked : List (List GoString)

/-- The loop of `splitStrs(strs, limit, walk)` from the given `offset`, with a bound `fuel` on
the number of tests of the loop condition; `none` when the bound is reached.
The slice expression `strs[offset:end]` panics unless `0 ≤ offset ≤ end`
(`end ≤ len(strs)` holds after the clamp).  The length of a slice is far below the
range of `int`, so `offset + limit` is the exact sum for the offsets the loop
reaches with a limit that is at most the length; a larger limit ends the loop
after one round. -/
def splitStrsLoop {W : Type} (walk : List GoString → W → Option Err × W)
    (strs : List GoString) (limit : Int) : Nat → Int → W → Option (SplitOut W)
  | 0, _, _ => none
  | fuel + 1, offset, w =>
    if offset < (strs.length : Int) then
      let end0 := offset + limit
      let end1 := if end0 > (strs.length : Int) then (strs.length : Int) else end0
      if offset < 0 ∨ end1 < offset then some { result := .panic, world := w, walked := [] }
      else
        let subs := (strs.drop offset.toNat).take (end1 - offset).toNat
        match walk subs w with
        | (some err, w1) => some { result := .err err, world := w1, walked := [subs] }
        | (none, w1) =>
          match splitStrsLoop walk strs limit fuel (offset + limit) w1 with
          | none => none
          | some out => some { out with walked := subs :: out.walked }
    else some { result := .ok (), world := w, walked := [] }

/-- The function `splitStrs(strs []string, limit int, walk func(subs []string) error) error`. -/
def splitStrs {W : Type} (fuel : Nat) (strs : List GoString) (limit : Int)
    (walk : List GoString → W → Option Err × W) (w : W) : Option (SplitOut W) :=
  splitStrsLoop walk strs limit fuel 0 w

/-- The test `ln > 100` of `oauth2.GetSubscribersInfo`, on which it returns
`ErrGetUsersMoreThan100`. -/
def exceedsBatchLimit (openids : List GoString) : Prop := openids.length > 100

instance (openids : List GoString) : Decidable (exceedsBatchLimit openids) := by
  unfold exceedsBatchLimit; infer_instance

/-! ## signature.go: SignSchema -/

/-- The type `url.Values`, a Go map from a name to its values: the names are distinct and the
order of the entries is the unspecified order of the iteration. -/
abbrev UrlValues := List (GoString × List GoString)

/-- The keys that STEP 1 of `SignSchema` collects, in the order of the iteration: those whose
first value exists and is neither "" nor "0". -/
def schemaKeys (vs : UrlValues) : List GoString :=
  (vs.filter (fun kv =>
    match kv.2 with
    | [] => false
    | v :: _ => decide (v ≠ [] ∧ v ≠ asciiBytes "0"))).map (fun kv => kv.1)

/-- The expression `vs[k][0]` for a key that STEP 1 collected (its values are not empty). -/
def firstValue (vs : UrlValues) (k : GoString) : GoString := ((vs.lookup k).getD []).headD []

/-- The function `strings.TrimSuffix(s, suffix)`. -/
def trimSuffix (s suffix : GoString) : GoString :=
  if suffix <:+ s then s.take (s.length - suffix.length) else s

/-- The string `kv` that `SignSchema` writes to the hash (STEP 1 to STEP 3). -/
def signString (vs : UrlValues) (key : GoString) : GoString :=
  let keys := sortStrings (schemaKeys vs)
  let kv := (keys.map (fun k => k ++ asciiBytes "=" ++ firstValue vs k ++ asciiBytes "&")).flatten
  if key ≠ [] then kv ++ (asciiBytes "key=" ++ key) else trimSuffix kv (asciiBytes "&")

/-- The upper-case form of an ASCII letter, any other byte unchanged. -/
def upperByte (c : Byte) : Byte := if 97 ≤ c.val ∧ c.val ≤ 122 then toByte (c.val - 32) else c

/-- The function `strings.ToUpper` on a string of ASCII characters. -/
def toUpperASCII (s : GoString) : GoString := s.map upperByte

/-- The function `SignSchema(schema, mod, key)`.  `values` is what `query.Values(schema)` returns;
`digest kv` is `mod.Sum(nil)` after `mod.Write(kv)`. -/
def SignSchema (digest : List Byte → List Byte) (values : Except Err UrlValues)
    (key : GoString) : Outcome GoString :=
  match values with
  | .error e => .err e
  | .ok vs => .ok (toUpperASCII (hexLower (digest (signString vs key))))

/-- The padding length the specification reads from the last byte `b`: `b` when
`1 ≤ b ≤ 32`, and `0` otherwise. -/
def specPadLen (b : Byte) : Nat := if 1 ≤ b.val ∧ b.val ≤ 32 then b.val else 0

/-- The number a byte sequence denotes when read as a big-endian numeral in base 256. -/
def bigEndianValue (bs : List Byte) : Nat := bs.foldl (fun acc b => acc * 256 + b.val) 0

/-- The entries of the three maps of `a` are entries of `b`, for every key but `except`
(`none`: for every key). -/
def AccessContainer.KeepsEntries {W : Type} (a b : AccessContainer W)
    (except : Option GoString) : Prop :=
  (∀ k p, some k ≠ except → a.appAccess.lookup k = some p → b.appAccess.lookup k = some p) ∧
  (∀ k p, some k ≠ except → a.componentAccess.lookup k = some p →
    b.componentAccess.lookup k = some p) ∧
  (∀ k p, some k ≠ except → a.decrypter.lookup k = some p → b.decrypter.lookup k = some p)

/-- Every struct held by the registry was allocated by it: its address is below the count of
allocations. -/
def AccessContainer.WellFormed {W : Type} (ac : AccessContainer W) : Prop :=
  (∀ k p, ac.appAccess.lookup k = some p → p.addr < ac.allocated) ∧
  (∀ k p, ac.componentAccess.lookup k = some p → p.addr < ac.allocated) ∧
  (∀ k p, ac.decrypter.lookup k = some p → p.addr < ac.allocated)

/-- Every platform struct held by the registry is held under its own id. -/
def AccessContainer.Keyed {W : Type} (ac : AccessContainer W) : Prop :=
  ∀ k p, ac.componentAccess.lookup k = some p → p.val.Appid = k

/-- Every cipher held by the registry is held under an id whose application struct is held
too, and the key provider gives a non-empty key for the tenant that this struct
names: its platform, or the id itself when it has none. -/
def AccessContainer.CipherKeyed {W : Type} (ac : AccessContainer W) : Prop :=
  ∀ appid d, ac.decrypter.lookup appid = some d →
    ∃ p, ac.appAccess.lookup appid = some p ∧
      ∃ token aesKey,
        ac.AppAesKeyProvider
            (match p.val.ComponentAccess with
             | some c => c.Appid
             | none => appid) = .ok (token, aesKey) ∧
          aesKey ≠ []

/-- The tenant that governs the key material of `appid`: the platform that `GetComponentAppid`
reports, and `appid` itself when it reports an error. -/
def AccessContainer.governing {W : Type} (ac : AccessContainer W) (appid : GoString) : GoString :=
  match (ac.GetComponentAppid appid).1 with
  | .ok componentAppid => componentAppid
  | _ => appid

/-- The tenant id of the cipher that `GetDecrypter` returned, when it returned one. -/
def cipherTenant : Outcome (Option (Ptr WXBizMsgCrypt)) → Option GoString
  | .ok (some d) => some d.val.appID
  | _ => none

/-- The consecutive chunks of `n` elements of a list, the last one with what is left, at most
`fuel` of them. -/
def chunksOf (n : Nat) : Nat → List GoString → List (List GoString)
  | 0, _ => []
  | fuel + 1, l => if l = [] then [] else l.take n :: chunksOf n fuel (l.drop n)

/-- The consecutive chunks of `n` elements of a list, the last one with what is left. -/
def chunks (n : Nat) (l : List GoString) : List (List GoString) := chunksOf n l.length l

/-- A walk over chunks as the specification describes it: `walk` is called on the chunks in
order; its first error ends the walk and is returned, and no later chunk is walked. -/
def walkChunks {W : Type} (walk : List GoString → W → Option Err × W) :
    List (List GoString) → W → SplitOut W
  | [], w => { result := .ok (), world := w, walked := [] }
  | c :: cs, w =>
    match walk c w with
    | (some err, w1) => { result := .err err, world := w1, walked := [c] }
    | (none, w1) =>
      { result := (walkChunks walk cs w1).result, world := (walkChunks walk cs w1).world,
        walked := c :: (walkChunks walk cs w1).walked }

/-- Strings joined by a separator. -/
def joinWith (sep : GoString) : List GoString → GoString
  | [] => []
  | [x] => x
  | x :: y :: rest => x ++ sep ++ joinWith sep (y :: rest)

/-- The string to sign as the specification describes it, for a given rule `keep` on values:
the pairs name=value of the fields whose first value is kept, in ascending order
of the names, joined by `&`, with `key=` and the key as a last pair when the key
is not empty. -/
def specSignString (keep : GoString → Bool) (vs : UrlValues) (key : GoString) : GoString :=
  let names := sortStrings
    ((vs.filter (fun kv => match kv.2 with | [] => false | v :: _ => keep v)).map (fun kv => kv.1))
  let pairs := names.map (fun k => k ++ asciiBytes "=" ++ firstValue vs k)
  joinWith (asciiBytes "&") (pairs ++ (if key ≠ [] then [asciiBytes "key=" ++ key] else []))

/-- Upper-case hexadecimal, two digits per byte. -/
def hexUpper (bs : List Byte) : GoString :=
  bs.flatMap (fun b =>
    [(asciiBytes "0123456789ABCDEF").getD (b.val / 16) 0,
     (asciiBytes "0123456789ABCDEF").getD (b.val % 16) 0])

/-- The composition `Decrypt(Encrypt(seed, p))`: the cipher `enc` encrypts, and when that
returns a nil error the cipher `dec` decrypts the returned string. -/
def decryptEncrypted (P : Primitives) (enc dec : WXBizMsgCrypt) (seed : GoString)
    (p : List Byte) : Outcome (List Byte) :=
  match Encrypt P enc seed p with
  | .ok c => Decrypt P dec c
  | .err e => .err e
  | .panic => .panic

/-! ## A toy instance of the collaborators

Used to evaluate the functions on concrete inputs: the block cipher adds one to
every byte, base64 and the XML decoder are the identity and the hash reverses
its input. -/

/-- A toy instance: a byte-wise shift for the cipher, the identity for base64 and XML,
list reversal for the hash. -/
def toy : Primitives where
  cbcEncrypt := fun _ _ src => src.map (· + 1)
  cbcDecrypt := fun _ _ src => src.map (· - 1)
  b64Encode := id
  b64Decode := id
  sha1 := List.reverse
  xmlUnmarshal := some

/-- A 32-byte key. -/
def key32 : List Byte := List.replicate 32 7

/-- A 16-byte seed. -/
def seed16 : GoString := asciiBytes "0123456789abcdef"

/-- A cipher for the tenant "A". -/
def mcA : WXBizMsgCrypt := { token := asciiBytes "tok", aesKey := key32, appID := asciiBytes "A" }

/-- A cipher for the tenant "B", with the key of `mcA`. -/
def mcB : WXBizMsgCrypt := { token := asciiBytes "tok", aesKey := key32, appID := asciiBytes "B" }

/-- A text of 2^32 zero bytes, the shortest length that does not fit the four-byte
length field. -/
def bigText : List Byte := List.replicate (2 ^ 32) 0

/-- An environment whose random source gives the byte `idx` at index `idx` and whose clock
reads 1409304348. -/
def env0 : Env := { rand1 := fun idx => toByte idx, rand2 := fun idx => toByte (idx + 7),
                    now := 1409304348 }

/-- A cipher with the empty tenant id. -/
def mcEmpty : WXBizMsgCrypt := { token := asciiBytes "tok", aesKey := key32, appID := [] }

/-- A cipher with the key of `mcEmpty` whose tenant id is `bigText`. -/
def mcBig : WXBizMsgCrypt := { token := asciiBytes "tok", aesKey := key32, appID := bigText }

/-- A 43-character key of the base64 alphabet. -/
def key43 : GoString := asciiBytes "abcdefghijklmnopqrstuvwxyzABCDEFGHIJKLMNOPQ"

/-- A container on the in-memory storage with a margin of 1200 seconds and a refresh
provider that always gives the same answer. -/
def memContainer (answer : Outcome (GoString × GoString × Int)) : ExpireDataContainer MemWorld :=
  NewExpireDataContainer (asciiBytes "store") (some memExpire) (1200 * second)
    (fixedRefresher answer)

/-- A container on the in-memory storage whose refresh provider answers with the refresh
token it was given followed by "+", as the new value, and with no new refresh token. -/
def echoContainer : ExpireDataContainer MemWorld :=
  NewExpireDataContainer (asciiBytes "store") (some memExpire) (1200 * second)
    (fun _ refreshToken w => (.ok (refreshToken ++ asciiBytes "+", [], 3600), w))

/-- An in-memory world with nothing stored, at the given reading of the clock. -/
def emptyWorld (clock : Int) : MemWorld := { clock := clock, data := [], expire := [], remote := [] }

/-- An in-memory world that holds one credential under the key "k". -/
def worldWith (clock : Int) (d : ExpireData) : MemWorld :=
  { clock := clock, data := [], expire := [(asciiBytes "k", d)], remote := [] }

/-- A credential with the value "v1", no refresh token and the effective expiry 1000. -/
def cred1000 : ExpireData := { Value := asciiBytes "v1", RefreshToken := [], ExpireAt := 1000 }

/-- The answer ("v2", "r2", 3600) of a refresh provider. -/
def answer3600 : Outcome (GoString × GoString × Int) :=
  .ok (asciiBytes "v2", asciiBytes "r2", 3600)

/-- The world `w` with the clock set to `t`. -/
def MemWorld.atClock (w : MemWorld) (t : Int) : MemWorld := { w with clock := t }

/-- The answer ("v2", "r2", -9223372036) of a refresh provider: a lifetime whose nanoseconds
fit an `int64`, but not once the margin of 1200 seconds is subtracted. -/
def answerNegative : Outcome (GoString × GoString × Int) :=
  .ok (asciiBytes "v2", asciiBytes "r2", -9223372036)

/-- The error answer of a refresh provider. -/
def answerError : Outcome (GoString × GoString × Int) := .err (.external (asciiBytes "boom"))

/-- The error of a remote operation that the scenario does not stub. -/
def notStubbed : Err := .external (asciiBytes "not stubbed")

/-- The stubs of the delegated chain: the access-token exchange of the platform returns
("PLAT_TOK", 7200), the description of the delegated application returns the
refresh token "R1", the refresh of the delegated access token returns
("APP_TOK", "R2", 7200). -/
def chainStubs : Stubs where
  GetComponentAccessToken := fun _ _ _ => .ok (asciiBytes "PLAT_TOK", 7200)
  GetPureAuthCode := fun _ _ => .error notStubbed
  GetAuthorizerInfo := fun _ _ _ => .ok (some (asciiBytes "R1"))
  RefreshAuthorizerToken := fun _ _ _ _ => .ok (asciiBytes "APP_TOK", asciiBytes "R2", 7200)
  GetAccessToken := fun _ _ => .error notStubbed
  GetTicket := fun _ => .error notStubbed
  RefreshComponentAccessToken := fun _ _ _ _ => .error notStubbed
  RefreshAccessToken := fun _ _ => .error notStubbed

/-- The platform "plat1" of the scenarios, on the in-memory storages. -/
def chainPlatform : ComponentAccess MemWorld :=
  NewComponentAccess MemWorld.clock (stubRemote chainStubs) memStorage (asciiBytes "plat1")
    (fixedSecret (asciiBytes "secret"))

/-- The application "app1" delegated through `chainPlatform`. -/
def chainApp : AppAccess MemWorld :=
  NewAppAccess MemWorld.clock (stubRemote chainStubs) memStorage (asciiBytes "app1")
    (fixedSecret (asciiBytes "secret")) (some chainPlatform)

/-- The application "app1" with no platform. -/
def directApp : AppAccess MemWorld :=
  NewAppAccess MemWorld.clock (stubRemote chainStubs) memStorage (asciiBytes "app1")
    (fixedSecret (asciiBytes "secret")) none

/-- The world at the start of the delegated chain: the clock at `t0`, the given contents of
the verify-ticket storage, no credential stored and no request made. -/
def chainStart (t0 : Int) (tickets : List (GoString × GoString)) : MemWorld :=
  { clock := t0, data := tickets, expire := [], remote := [] }

/-- The world after the first `Get` of the delegated chain. -/
def chainAfter (t0 : Int) (tickets : List (GoString × GoString)) : MemWorld :=
  { clock := t0, data := tickets,
    expire :=
      [(asciiBytes "app1", { Value := asciiBytes "APP_TOK", RefreshToken := asciiBytes "R2",
                             ExpireAt := t0 + 6000 * second }),
       (asciiBytes "plat1", { Value := asciiBytes "PLAT_TOK", RefreshToken := [],
                              ExpireAt := t0 + 6000 * second })],
    remote :=
      [.getComponentAccessToken (asciiBytes "plat1") (asciiBytes "secret")
         ((tickets.lookup (asciiBytes "plat1")).getD []),
       .getAuthorizerInfo (asciiBytes "plat1") (asciiBytes "app1") (asciiBytes "PLAT_TOK"),
       .refreshAuthorizerToken (asciiBytes "plat1") (asciiBytes "app1") (asciiBytes "R1")
         (asciiBytes "PLAT_TOK")] }

/-- The stubs of a direct application: the access-token exchange returns ("TOK", 7200) and the
ticket exchange ("TICKET", 7200). -/
def ticketStubs : Stubs where
  GetComponentAccessToken := fun _ _ _ => .error notStubbed
  GetPureAuthCode := fun _ _ => .error notStubbed
  GetAuthorizerInfo := fun _ _ _ => .error notStubbed
  RefreshAuthorizerToken := fun _ _ _ _ => .error notStubbed
  GetAccessToken := fun _ _ => .ok (asciiBytes "TOK", 7200)
  GetTicket := fun _ => .ok (asciiBytes "TICKET", 7200)
  RefreshComponentAccessToken := fun _ _ _ _ => .error notStubbed
  RefreshAccessToken := fun _ _ => .error notStubbed

/-- The direct application "app1" on `NewStorage` over the in-memory storages. -/
def ticketApp : AppAccess MemWorld :=
  NewAppAccess MemWorld.clock (stubRemote ticketStubs) memStorage (asciiBytes "app1")
    (fixedSecret (asciiBytes "secret")) none

/-- A key provider: the key `key43` with the token "tok" for "plat1", "plat2" and "app2", an
empty key for every other id. -/
def someKeys : AppAesKeyProvider :=
  fun appid =>
    if appid = asciiBytes "plat1" ∨ appid = asciiBytes "plat2" ∨ appid = asciiBytes "app2" then
      .ok (asciiBytes "tok", key43)
    else .ok (asciiBytes "tok", [])

/-- A delegation lookup: "app1" is delegated through "plat1", no other id is delegated. -/
def delegation : ComponentAppidProvider :=
  fun appid => if appid = asciiBytes "app1" then (asciiBytes "plat1", none) else ([], none)

/-- The registry of the scenarios, just built. -/
def registry0 : AccessContainer MemWorld :=
  NewAccessContainer MemWorld.clock (stubRemote chainStubs) memStorage
    (fixedSecret (asciiBytes "secret")) someKeys delegation

/-- The registry after `GetAppAccess("plat2", "app1")`: the application "app1" is held with
the platform "plat2", while the delegation lookup answers "plat1" for it. -/
def crossRegistry : AccessContainer MemWorld :=
  (registry0.GetAppAccess (asciiBytes "plat2") (asciiBytes "app1")).2

/-- Calls on other ids, with a `Flash` of another id among them. -/
def midOps : List Op :=
  [.getAppAccess [] (asciiBytes "app1"), .flash (asciiBytes "app2"),
   .getDecrypter (asciiBytes "app1"), .getAppTicket (asciiBytes "app2"),
   .getComponentAccess (asciiBytes "plat2")]

/-- A `walk` that fails on the slices that start with "bad" and counts its calls in the
world. -/
def countingWalk : List GoString → Nat → Option Err × Nat :=
  fun subs n => (if subs.head? = some (asciiBytes "bad") then some notStubbed else none, n + 1)

/-- Three identifiers, the second of which makes `countingWalk` fail. -/
def badIds : List GoString := [asciiBytes "a", asciiBytes "bad", asciiBytes "c"]

/-- Five identifiers. -/
def fiveIds : List GoString :=
  [asciiBytes "a", asciiBytes "b", asciiBytes "c", asciiBytes "d", asciiBytes "e"]

/-! ## Evaluation on concrete inputs -/

example : pkcs7Encode 0 = List.replicate 32 32 := by decide
example : pkcs7Encode 31 = [1] := by decide
example : pkcs7Decode [1, 2, 3, 2] = some [1, 2] := by decide
example : pkcs7Decode [5] = none := by decide
example : pkcs7Decode [1, 2, 3, 40] = some [1, 2, 3, 40] := by decide
example : getNetworkBytesOrder 258 = [0, 0, 1, 2] := by decide
example : recoverNetworkBytesOrder [0, 0, 1, 2] = some 258 := by decide
example : (unencrypted mcA seed16 [1, 2, 3]).length = 32 := by decide
example : Encrypt toy mcA seed16 [1, 2, 3] = .ok ((unencrypted mcA seed16 [1, 2, 3]).map (· + 1)) := by
  decide
example : Decrypt toy mcA ((unencrypted mcA seed16 [1, 2, 3]).map (· + 1)) = .ok [1, 2, 3] := by
  decide
example : Decrypt toy mcB ((unencrypted mcA seed16 [1, 2, 3]).map (· + 1)) = .err .validateAppID := by
  decide
example : sortStrings [asciiBytes "ba", asciiBytes "aba", [], []] =
    [[], [], asciiBytes "aba", asciiBytes "ba"] := by decide
example : hexLower [0, 171, 255] = asciiBytes "00abff" := by decide
example : formatInt 1409304348 = asciiBytes "1409304348" := by decide
example : formatInt (-12) = asciiBytes "-12" := by decide
example : Decrypt toy mcA [] = .panic := by decide
example : Decrypt toy mcA (List.replicate 16 21) = .panic := by decide
example : Encrypt toy { mcA with aesKey := [1, 2, 3] } seed16 [] = .err (.keySize 3) := by decide
example : stdDecodeString (asciiBytes "TWFu") = some (asciiBytes "Man") := by decide
example : stdDecodeString (asciiBytes "TWE=") = some (asciiBytes "Ma") := by decide
example : stdDecodeString (asciiBytes "TQ==") = some (asciiBytes "M") := by decide
example : stdDecodeString (asciiBytes "TW\nFu\r\n") = some (asciiBytes "Man") := by decide
example : stdDecodeString (asciiBytes "TWF") = none := by decide
example : stdDecodeString (asciiBytes "TQ==TWFu") = none := by decide
example : stdDecodeString (asciiBytes "=") = none := by decide
example : wrapInt64 (2 ^ 63) = -2 ^ 63 := by decide
example : (splitStrs 6 fiveIds 2 countingWalk 0).map (fun out => (out.result, out.world, out.walked)) =
    some (.ok (), 3, [[asciiBytes "a", asciiBytes "b"], [asciiBytes "c", asciiBytes "d"],
      [asciiBytes "e"]]) := by decide
example : (splitStrs 6 [asciiBytes "a", asciiBytes "bad", asciiBytes "c"] 1 countingWalk 0).map
    (fun out => (out.result, out.world, out.walked)) =
    some (.err notStubbed, 2, [[asciiBytes "a"], [asciiBytes "bad"]]) := by decide
example : (splitStrs 50 fiveIds 0 countingWalk 0).map (fun out => out.result) = none := by decide
example : (splitStrs 50 fiveIds (-1) countingWalk 0).map (fun out => out.result) = some .panic := by
  decide
example : signString [(asciiBytes "b", [asciiBytes "2"]), (asciiBytes "a", [asciiBytes "1"])]
    (asciiBytes "K") = asciiBytes "a=1&b=2&key=K" := by decide
example : signString [(asciiBytes "b", [asciiBytes "2"]), (asciiBytes "a", [asciiBytes "1"])] [] =
    asciiBytes "a=1&b=2" := by decide
example : signString [] (asciiBytes "K") = asciiBytes "key=K" := by decide
example : signString [(asciiBytes "a", [[]]), (asciiBytes "c", [])] [] = [] := by decide
example : toUpperASCII (hexLower [0, 171, 255]) = asciiBytes "00ABFF" := by decide
example : expireAt 0 3600 (1200 * second) = 2400 * second := by decide

/-! ## Padding -/

theorem toByte_val (n : Nat) : (toByte n).val = n % 256 := rfl

theorem toByte_val_of_lt {n : Nat} (h : n < 256) : (toByte n).val = n := by
  rw [toByte_val, Nat.mod_eq_of_lt h]

/-- On a non-negative count the padding is `32 - count % 32` bytes of that value. -/
theorem pkcs7Encode_of_nonneg {count : Int} (h : 0 ≤ count) :
    pkcs7Encode count =
      List.replicate (32 - (count % 32).toNat) (toByte (32 - (count % 32).toNat)) := by
  have hr0 : 0 ≤ count % 32 := Int.emod_nonneg _ (by decide)
  have hr1 : count % 32 < 32 := Int.emod_lt_of_pos _ (by decide)
  have ht : Int.tmod count 32 = count % 32 := Int.tmod_eq_emod h (by decide)
  have hne : ¬ ((32 : Int) - count % 32 = 0) := by omega
  have hmod : ((32 : Int) - count % 32) % 256 = 32 - count % 32 := by omega
  have hnat : ((32 : Int) - count % 32).toNat = 32 - (count % 32).toNat := by omega
  simp only [pkcs7Encode, blockSize, chr, ht, if_neg hne, hmod, hnat]

theorem pkcs7Encode_length_of_nonneg {count : Int} (h : 0 ≤ count) :
    (pkcs7Encode count).length = 32 - (count % 32).toNat := by
  rw [pkcs7Encode_of_nonneg h, List.length_replicate]

theorem pkcs7Decode_eq (d : List Byte) (h : d ≠ []) :
    pkcs7Decode d =
      if d.length < specPadLen (d.getLast h) then none
      else some (d.take (d.length - specPadLen (d.getLast h))) := by
  have hpad : (if (d.getLast h).val < 1 ∨ (d.getLast h).val > 32 then 0 else (d.getLast h).val)
      = specPadLen (d.getLast h) := by
    unfold specPadLen
    by_cases h1 : 1 ≤ (d.getLast h).val ∧ (d.getLast h).val ≤ 32
    · rw [if_pos h1, if_neg (by omega)]
    · rw [if_neg h1, if_pos (by omega)]
  simp only [pkcs7Decode, List.getLast?_eq_getLast _ h, hpad]

/-- C6: for every count ≥ 0 the length L of `pkcs7Encode(count)` satisfies
1 ≤ L ≤ 32 and (count + L) mod 32 = 0; L is never 0. -/
theorem pkcs7Encode_length_bounds (count : Int) (h : 0 ≤ count) :
    1 ≤ (pkcs7Encode count).length ∧ (pkcs7Encode count).length ≤ 32 ∧
      (count + ((pkcs7Encode count).length : Int)) % 32 = 0 ∧
      (pkcs7Encode count).length ≠ 0 := by
  have hr0 : 0 ≤ count % 32 := Int.emod_nonneg _ (by decide)
  have hr1 : count % 32 < 32 := Int.emod_lt_of_pos _ (by decide)
  rw [pkcs7Encode_length_of_nonneg h]
  refine ⟨by omega, by omega, by omega, by omega⟩

theorem pkcs7Encode_length_bounds_witness :
    (0 : Int) ≤ 64 ∧
      (1 ≤ (pkcs7Encode 64).length ∧ (pkcs7Encode 64).length ≤ 32 ∧
        ((64 : Int) + ((pkcs7Encode 64).length : Int)) % 32 = 0 ∧
        (pkcs7Encode 64).length ≠ 0) :=
  ⟨by decide, pkcs7Encode_length_bounds 64 (by decide)⟩

/-- C7: for every count ≥ 0 every byte of `pkcs7Encode(count)` equals the length
of `pkcs7Encode(count)`; when count is a multiple of 32 the result is 32 bytes
each holding the value 32. -/
theorem pkcs7Encode_bytes (count : Int) (h : 0 ≤ count) :
    (∀ b ∈ pkcs7Encode count, b.val = (pkcs7Encode count).length) ∧
      (count % 32 = 0 → pkcs7Encode count = List.replicate 32 32) := by
  have hr0 : 0 ≤ count % 32 := Int.emod_nonneg _ (by decide)
  have hr1 : count % 32 < 32 := Int.emod_lt_of_pos _ (by decide)
  constructor
  · intro b hb
    rw [pkcs7Encode_length_of_nonneg h]
    rw [pkcs7Encode_of_nonneg h] at hb
    rw [List.eq_of_mem_replicate hb]
    exact toByte_val_of_lt (by omega)
  · intro h0
    rw [pkcs7Encode_of_nonneg h, h0]
    rfl

theorem pkcs7Encode_bytes_witness :
    (0 : Int) ≤ 45 ∧
      ((∀ b ∈ pkcs7Encode 45, b.val = (pkcs7Encode 45).length) ∧
        ((45 : Int) % 32 = 0 → pkcs7Encode 45 = List.replicate 32 32)) :=
  ⟨by decide, pkcs7Encode_bytes 45 (by decide)⟩

/-- C8, as stated, fails: on the one-byte input `[5]` the last byte is 5, and
`pkcs7Decode` does not return the input with five trailing bytes dropped: the
slice expression `decrypted[:1-5]` panics. -/
theorem pkcs7Decode_short_input_panics :
    pkcs7Decode [5] = none ∧
      ¬ (∀ (d : List Byte) (h : d ≠ []),
          pkcs7Decode d = some (d.take (d.length - specPadLen (d.getLast h)))) := by
  refine ⟨by decide, fun hall => ?_⟩
  have h5 := hall [5] (by decide)
  revert h5
  decide

/-- C8, amended: for every non-empty byte sequence d with last byte b and
p = b when 1 ≤ b ≤ 32, p = 0 otherwise, if d has at least p bytes then
`pkcs7Decode(d)` is d with its trailing p bytes dropped; when b is outside
[1, 32] the input is returned unchanged. -/
theorem pkcs7Decode_drops_padding (d : List Byte) (h : d ≠ [])
    (hp : specPadLen (d.getLast h) ≤ d.length) :
    pkcs7Decode d = some (d.take (d.length - specPadLen (d.getLast h))) ∧
      (¬ (1 ≤ (d.getLast h).val ∧ (d.getLast h).val ≤ 32) → pkcs7Decode d = some d) := by
  have hmain : pkcs7Decode d = some (d.take (d.length - specPadLen (d.getLast h))) := by
    rw [pkcs7Decode_eq d h, if_neg (by omega)]
  refine ⟨hmain, fun hout => ?_⟩
  rw [hmain]
  simp [specPadLen, if_neg hout]

theorem pkcs7Decode_drops_padding_witness :
    ∃ (h : ([9, 8, 7, 2, 2] : List Byte) ≠ []),
      specPadLen (([9, 8, 7, 2, 2] : List Byte).getLast h) ≤ ([9, 8, 7, 2, 2] : List Byte).length ∧
      pkcs7Decode [9, 8, 7, 2, 2] = some [9, 8, 7] :=
  ⟨by decide, by decide,
    (pkcs7Decode_drops_padding [9, 8, 7, 2, 2] (by decide) (by decide)).1⟩

/-! ## Signing -/

theorem strLE_total (a b : GoString) : StrLE a b ∨ StrLE b a := by
  unfold StrLE
  induction a generalizing b with
  | nil => left; cases b <;> rfl
  | cons x xs ih =>
    cases b with
    | nil => right; rfl
    | cons y ys =>
      simp only [strLE, Bool.or_eq_true, Bool.and_eq_true, decide_eq_true_eq, beq_iff_eq]
      rcases Nat.lt_trichotomy x.val y.val with hlt | heq | hgt
      · exact Or.inl (Or.inl hlt)
      · rcases ih ys with h | h
        · exact Or.inl (Or.inr ⟨heq, h⟩)
        · exact Or.inr (Or.inr ⟨heq.symm, h⟩)
      · exact Or.inr (Or.inl hgt)

theorem strLE_trans (a b c : GoString) (hab : StrLE a b) (hbc : StrLE b c) : StrLE a c := by
  unfold StrLE at *
  induction a generalizing b c with
  | nil => cases c <;> rfl
  | cons x xs ih =>
    cases b with
    | nil => simp [strLE] at hab
    | cons y ys =>
      cases c with
      | nil => simp [strLE] at hbc
      | cons z zs =>
        simp only [strLE, Bool.or_eq_true, Bool.and_eq_true, decide_eq_true_eq,
          beq_iff_eq] at hab hbc ⊢
        rcases hab with h1 | ⟨h1, h1r⟩ <;> rcases hbc with h2 | ⟨h2, h2r⟩
        · exact Or.inl (by omega)
        · exact Or.inl (by omega)
        · exact Or.inl (by omega)
        · exact Or.inr ⟨by omega, ih ys zs h1r h2r⟩

theorem strLE_antisymm (a b : GoString) (hab : StrLE a b) (hba : StrLE b a) : a = b := by
  unfold StrLE at *
  induction a generalizing b with
  | nil =>
    cases b with
    | nil => rfl
    | cons y ys => simp [strLE] at hba
  | cons x xs ih =>
    cases b with
    | nil => simp [strLE] at hab
    | cons y ys =>
      simp only [strLE, Bool.or_eq_true, Bool.and_eq_true, decide_eq_true_eq,
        beq_iff_eq] at hab hba
      rcases hab with h1 | ⟨h1, h1r⟩ <;> rcases hba with h2 | ⟨h2, h2r⟩
      · omega
      · omega
      · omega
      · rw [Fin.ext h1, ih ys h1r h2r]

theorem sortStrings_perm (l : List GoString) : (sortStrings l).Perm l :=
  List.perm_insertionSort StrLE l

theorem sortStrings_sorted (l : List GoString) : (sortStrings l).Sorted StrLE := by
  haveI : IsTotal GoString StrLE := ⟨strLE_total⟩
  haveI : IsTrans GoString StrLE := ⟨strLE_trans⟩
  exact List.sorted_insertionSort StrLE l

/-- Sorting forgets the order of the arguments. -/
theorem sortStrings_eq_of_perm {l l' : List GoString} (h : l.Perm l') :
    sortStrings l = sortStrings l' := by
  haveI : IsAntisymm GoString StrLE := ⟨strLE_antisymm⟩
  exact List.eq_of_perm_of_sorted
    (((sortStrings_perm l).trans h).trans (sortStrings_perm l').symm)
    (sortStrings_sorted l) (sortStrings_sorted l')

theorem hexVal_hexDigit : ∀ n : Fin 16, hexVal (hexDigit n.val) = n.val := by decide

theorem isLowerHex_hexDigit : ∀ n : Fin 16, isLowerHex (hexDigit n.val) := by
  unfold isLowerHex; decide

theorem hexLower_cons (b : Byte) (bs : List Byte) :
    hexLower (b :: bs) = hexDigit (b.val / 16) :: hexDigit (b.val % 16) :: hexLower bs := by
  simp [hexLower]

theorem hexDecode_hexLower (bs : List Byte) : hexDecode (hexLower bs) = bs := by
  induction bs with
  | nil => rfl
  | cons b bs ih =>
    have hhi := hexVal_hexDigit ⟨b.val / 16, by omega⟩
    have hlo := hexVal_hexDigit ⟨b.val % 16, by omega⟩
    simp only at hhi hlo
    have hb : toByte (b.val / 16 * 16 + b.val % 16) = b := by
      apply Fin.ext
      rw [toByte_val]
      omega
    rw [hexLower_cons, hexDecode, hhi, hlo, hb, ih]

theorem hexLower_injective : Function.Injective hexLower :=
  Function.LeftInverse.injective hexDecode_hexLower

theorem hexLower_lower (bs : List Byte) : ∀ c ∈ hexLower bs, isLowerHex c := by
  intro c hc
  simp only [hexLower, List.mem_flatMap, List.mem_cons, List.mem_singleton, List.not_mem_nil,
    or_false] at hc
  obtain ⟨b, -, rfl | rfl⟩ := hc
  · exact isLowerHex_hexDigit ⟨b.val / 16, by omega⟩
  · exact isLowerHex_hexDigit ⟨b.val % 16, by omega⟩

theorem hexLower_length (bs : List Byte) : (hexLower bs).length = 2 * bs.length := by
  induction bs with
  | nil => rfl
  | cons b bs ih =>
    rw [hexLower_cons, List.length_cons, List.length_cons, ih, List.length_cons]
    omega

/-- The bytes hashed by `SignParams` are a rearrangement of the bytes of the arguments. -/
theorem sortStrings_flatten_perm (l : List GoString) : (sortStrings l).flatten.Perm l.flatten :=
  (sortStrings_perm l).flatten

/-- C9: `SignParams` is order-independent: `SignParams(a, b, c, d)` equals
`SignParams(d, c, b, a)`, and it gives the same result on every permutation of
its argument list; the result is the lowercase hexadecimal SHA1 of the arguments
sorted ascending as strings and concatenated with no separator. -/
theorem SignParams_order_independent (P : Primitives) (a b c d : GoString)
    (l l' : List GoString) (hperm : l.Perm l') :
    SignParams P [a, b, c, d] = SignParams P [d, c, b, a] ∧
      SignParams P l = SignParams P l' ∧
      (∃ s : List GoString, s.Perm l ∧ s.Sorted StrLE ∧
        SignParams P l = hexLower (P.sha1 s.flatten) ∧
        hexDecode (SignParams P l) = P.sha1 s.flatten) ∧
      (∀ ch ∈ SignParams P l, isLowerHex ch) ∧
      (SignParams P l).length = 2 * (P.sha1 (sortStrings l).flatten).length := by
  have h4 : [a, b, c, d].Perm [d, c, b, a] := by
    have hrev : [d, c, b, a] = [a, b, c, d].reverse := rfl
    rw [hrev]
    exact (List.reverse_perm _).symm
  refine ⟨?_, ?_, ⟨sortStrings l, sortStrings_perm l, sortStrings_sorted l, rfl, ?_⟩, ?_, ?_⟩
  · simp only [SignParams, sortStrings_eq_of_perm h4]
  · simp only [SignParams, sortStrings_eq_of_perm hperm]
  · exact hexDecode_hexLower _
  · exact hexLower_lower _
  · exact hexLower_length _

theorem SignParams_order_independent_witness :
    [asciiBytes "tok", asciiBytes "1409304348", asciiBytes "nonce"].Perm
        [asciiBytes "nonce", asciiBytes "tok", asciiBytes "1409304348"] ∧
      SignParams toy [asciiBytes "tok", asciiBytes "1409304348", asciiBytes "nonce"] =
        SignParams toy [asciiBytes "nonce", asciiBytes "tok", asciiBytes "1409304348"] :=
  ⟨by decide,
    (SignParams_order_independent toy [] [] [] []
      [asciiBytes "tok", asciiBytes "1409304348", asciiBytes "nonce"]
      [asciiBytes "nonce", asciiBytes "tok", asciiBytes "1409304348"] (by decide)).2.1⟩

/-- C10, as stated, fails: with b = "aba" and c = d = "", replacing a = "ab" by
a' = "ba" leaves the sorted concatenation "ababa" unchanged, so the signature
is the same whatever the hash. -/
theorem SignParams_collision :
    asciiBytes "ba" ≠ asciiBytes "ab" ∧
      (sortStrings [asciiBytes "ba", asciiBytes "aba", [], []]).flatten =
        (sortStrings [asciiBytes "ab", asciiBytes "aba", [], []]).flatten ∧
      Function.Injective toy.sha1 ∧
      SignParams toy [asciiBytes "ba", asciiBytes "aba", [], []] =
        SignParams toy [asciiBytes "ab", asciiBytes "aba", [], []] :=
  ⟨by decide, by decide, List.reverse_injective, by decide⟩

/-- C10, amended: for all strings a, b, c, d and every a' that is not a
rearrangement of the bytes of a (in particular every a' of another length), the
sorted concatenation hashed by `SignParams(a', b, c, d)` differs from the one
hashed by `SignParams(a, b, c, d)`, and with an injective SHA1 the two
signatures differ. -/
theorem SignParams_changes (P : Primitives) (hinj : Function.Injective P.sha1)
    (a a' b c d : GoString) (hne : ¬ a'.Perm a) :
    (sortStrings [a', b, c, d]).flatten ≠ (sortStrings [a, b, c, d]).flatten ∧
      SignParams P [a', b, c, d] ≠ SignParams P [a, b, c, d] := by
  have hcat : (sortStrings [a', b, c, d]).flatten ≠ (sortStrings [a, b, c, d]).flatten := by
    intro heq
    apply hne
    have h1 : (a' ++ [b, c, d].flatten).Perm (a ++ [b, c, d].flatten) := by
      have h' := sortStrings_flatten_perm [a', b, c, d]
      have h := sortStrings_flatten_perm [a, b, c, d]
      rw [heq] at h'
      simpa only [List.flatten_cons] using h'.symm.trans h
    exact (List.perm_append_right_iff _).1 h1
  refine ⟨hcat, fun hsig => hcat ?_⟩
  exact hinj (hexLower_injective hsig)

theorem SignParams_changes_witness :
    Function.Injective toy.sha1 ∧ ¬ (asciiBytes "abc").Perm (asciiBytes "ab") ∧
      SignParams toy [asciiBytes "abc", asciiBytes "aba", [], asciiBytes "x"] ≠
        SignParams toy [asciiBytes "ab", asciiBytes "aba", [], asciiBytes "x"] :=
  ⟨List.reverse_injective, by decide,
    (SignParams_changes toy List.reverse_injective (asciiBytes "ab") (asciiBytes "abc")
      (asciiBytes "aba") [] (asciiBytes "x") (by decide)).2⟩

/-! ## The cipher -/

theorem or_shift_eq_add (b0 b1 b2 b3 : Nat) (h1 : b1 < 256) (h2 : b2 < 256) (h3 : b3 < 256) :
    b0 <<< 24 ||| b1 <<< 16 ||| b2 <<< 8 ||| b3 =
      b0 * 2 ^ 24 + b1 * 2 ^ 16 + b2 * 2 ^ 8 + b3 := by
  have e1 : b0 <<< 24 ||| b1 <<< 16 = 2 ^ 16 * (b0 * 2 ^ 8 + b1) := by
    have h := Nat.mul_add_lt_is_or (i := 24) (b := b1 * 2 ^ 16) (by omega) b0
    rw [Nat.shiftLeft_eq, Nat.shiftLeft_eq, Nat.mul_comm b0 (2 ^ 24), ← h]
    omega
  have e2 : 2 ^ 16 * (b0 * 2 ^ 8 + b1) ||| b2 <<< 8 = 2 ^ 8 * (b0 * 2 ^ 16 + b1 * 2 ^ 8 + b2) := by
    have h := Nat.mul_add_lt_is_or (i := 16) (b := b2 * 2 ^ 8) (by omega) (b0 * 2 ^ 8 + b1)
    rw [Nat.shiftLeft_eq, ← h]
    omega
  have e3 := Nat.mul_add_lt_is_or (i := 8) (b := b3) (by omega) (b0 * 2 ^ 16 + b1 * 2 ^ 8 + b2)
  rw [e1, e2, ← e3]
  omega

/-- The four bytes written by `getNetworkBytesOrder` read back as the length modulo 2^32. -/
theorem recover_getNetworkBytesOrder (n : Nat) :
    recoverNetworkBytesOrder (getNetworkBytesOrder n) = some (n % 2 ^ 32) := by
  simp only [getNetworkBytesOrder, recoverNetworkBytesOrder, toByte_val,
    Nat.shiftRight_eq_div_pow]
  rw [or_shift_eq_add _ _ _ _ (Nat.mod_lt _ (by decide)) (Nat.mod_lt _ (by decide))
    (Nat.mod_lt _ (by decide))]
  congr 1
  omega

theorem getNetworkBytesOrder_length (n : Nat) : (getNetworkBytesOrder n).length = 4 := rfl

/-- Removing the padding that `pkcs7Encode` adds to a buffer gives the buffer back. -/
theorem pkcs7Decode_append_pkcs7Encode (buf : List Byte) :
    pkcs7Decode (buf ++ pkcs7Encode buf.length) = some buf := by
  have hnn : (0 : Int) ≤ (buf.length : Int) := Int.ofNat_nonneg _
  have hk : ((buf.length : Int) % 32).toNat = buf.length % 32 := by omega
  have hlt : buf.length % 32 < 32 := Nat.mod_lt _ (by decide)
  rw [pkcs7Encode_of_nonneg hnn, hk]
  have hk0 : ¬ (32 - buf.length % 32 = 0) := by omega
  have hv : (toByte (32 - buf.length % 32)).val = 32 - buf.length % 32 :=
    toByte_val_of_lt (by omega)
  have hpad : ¬ (32 - buf.length % 32 < 1 ∨ 32 - buf.length % 32 > 32) := by omega
  simp only [pkcs7Decode, List.getLast?_append, List.getLast?_replicate, if_neg hk0,
    Option.or, hv, if_neg hpad, List.length_append, List.length_replicate]
  rw [if_neg (by omega), Nat.add_sub_cancel, List.take_left' rfl]

/-- The buffer before padding: seed, length field, plaintext, tenant id. -/
theorem unencrypted_eq (mc : WXBizMsgCrypt) (random : GoString) (text : List Byte) :
    unencrypted mc random text =
      (random ++ getNetworkBytesOrder text.length ++ text ++ mc.appID) ++
        pkcs7Encode
          ((random ++ getNetworkBytesOrder text.length ++ text ++ mc.appID).length : Nat) := rfl

theorem length_append_pkcs7Encode (buf : List Byte) :
    (buf ++ pkcs7Encode buf.length).length = buf.length + (32 - buf.length % 32) := by
  have hnn : (0 : Int) ≤ (buf.length : Int) := Int.ofNat_nonneg _
  have hk : ((buf.length : Int) % 32).toNat = buf.length % 32 := by omega
  rw [List.length_append, pkcs7Encode_length_of_nonneg hnn, hk]

theorem unencrypted_length_mod (mc : WXBizMsgCrypt) (random : GoString) (text : List Byte) :
    (unencrypted mc random text).length % 32 = 0 ∧ 0 < (unencrypted mc random text).length := by
  rw [unencrypted_eq, length_append_pkcs7Encode]
  omega

theorem iv_length {key : List Byte} (hk : aesKeySizeOk key.length) : (key.take 16).length = 16 := by
  unfold aesKeySizeOk at hk
  rw [List.length_take]
  omega

/-- With a key of a valid size `Encrypt` returns the base64 encoding of the CBC
encryption of the padded buffer. -/
theorem Encrypt_eq (P : Primitives) (mc : WXBizMsgCrypt) (random : GoString) (text : List Byte)
    (hk : aesKeySizeOk mc.aesKey.length) :
    Encrypt P mc random text =
      .ok (P.b64Encode (P.cbcEncrypt mc.aesKey (mc.aesKey.take 16) (unencrypted mc random text))) := by
  have hlen := (unencrypted_length_mod mc random text).1
  have h16 : ¬ ((unencrypted mc random text).length % 16 ≠ 0) := by omega
  simp only [Encrypt, if_pos hk, if_neg h16]

/-- What a cipher `mcB` decrypts from a payload that a cipher `mcA` with the same
key encrypted with a 16-byte seed: the length field holds `len(text)` modulo
2^32, the payload is that many bytes of the text, and whatever follows is
compared with the tenant id of `mcB`. -/
theorem Decrypt_Encrypt_eq (P : Primitives) (hP : P.Lawful) (mcA mcB : WXBizMsgCrypt)
    (hkey : mcB.aesKey = mcA.aesKey) (hk : aesKeySizeOk mcA.aesKey.length)
    (random : GoString) (text : List Byte) (hr : random.length = 16) :
    Decrypt P mcB
        (P.b64Encode (P.cbcEncrypt mcA.aesKey (mcA.aesKey.take 16) (unencrypted mcA random text))) =
      if text.drop (text.length % 2 ^ 32) ++ mcA.appID ≠ mcB.appID then .err .validateAppID
      else .ok (text.take (text.length % 2 ^ 32)) := by
  have hiv := iv_length hk
  have hlen := (unencrypted_length_mod mcA random text).1
  have hclen := hP.cbc_length mcA.aesKey (mcA.aesKey.take 16) (unencrypted mcA random text) hk hiv
  have hinv := hP.cbc_inverse mcA.aesKey (mcA.aesKey.take 16) (unencrypted mcA random text) hk hiv
    (by omega)
  have h16 : ¬ ((P.cbcEncrypt mcA.aesKey (mcA.aesKey.take 16)
      (unencrypted mcA random text)).length % 16 ≠ 0) := by omega
  have hm : text.length % 2 ^ 32 ≤ text.length := Nat.mod_le _ _
  have hg := getNetworkBytesOrder_length text.length
  -- the buffer before padding
  have hbuflen : (random ++ getNetworkBytesOrder text.length ++ text ++ mcA.appID).length =
      20 + text.length + mcA.appID.length := by
    simp only [List.length_append, hr, hg]
  have hfull := length_append_pkcs7Encode
    (random ++ getNetworkBytesOrder text.length ++ text ++ mcA.appID)
  have hdec := pkcs7Decode_append_pkcs7Encode
    (random ++ getNetworkBytesOrder text.length ++ text ++ mcA.appID)
  have hnet : ((unencrypted mcA random text).drop 16).take 4 =
      getNetworkBytesOrder text.length := by
    rw [unencrypted_eq]
    simp only [List.append_assoc]
    rw [List.drop_left' hr, List.take_left' hg]
  have hxml : ((unencrypted mcA random text).drop 20).take (text.length % 2 ^ 32) =
      text.take (text.length % 2 ^ 32) := by
    rw [unencrypted_eq]
    have h20 : (random ++ getNetworkBytesOrder text.length).length = 20 := by
      rw [List.length_append, hr, hg]
    have hre : random ++ getNetworkBytesOrder text.length ++ text ++ mcA.appID ++
        pkcs7Encode ((random ++ getNetworkBytesOrder text.length ++ text ++ mcA.appID).length : Nat)
        = (random ++ getNetworkBytesOrder text.length) ++ (text ++ (mcA.appID ++
        pkcs7Encode ((random ++ getNetworkBytesOrder text.length ++ text ++ mcA.appID).length : Nat)))
        := by simp only [List.append_assoc]
    rw [hre, List.drop_left' h20, List.take_append_of_le_length hm]
  have happ : (random ++ getNetworkBytesOrder text.length ++ text ++ mcA.appID).drop
      (20 + text.length % 2 ^ 32) = text.drop (text.length % 2 ^ 32) ++ mcA.appID := by
    have h20 : (random ++ getNetworkBytesOrder text.length).length = 20 := by
      rw [List.length_append, hr, hg]
    have hre : random ++ getNetworkBytesOrder text.length ++ text ++ mcA.appID =
        (random ++ getNetworkBytesOrder text.length) ++ (text ++ mcA.appID) := by
      simp only [List.append_assoc]
    rw [hre, ← h20, List.drop_append, List.drop_append_of_le_length hm]
  have hf20 : ¬ ((unencrypted mcA random text).length < 20) := by
    rw [unencrypted_eq, hfull, hbuflen]; omega
  have hfx : ¬ ((unencrypted mcA random text).length < 20 + text.length % 2 ^ 32) := by
    rw [unencrypted_eq, hfull, hbuflen]; omega
  have hdx : ¬ ((random ++ getNetworkBytesOrder text.length ++ text ++ mcA.appID).length <
      20 + text.length % 2 ^ 32) := by
    rw [hbuflen]; omega
  have hdec' : pkcs7Decode (unencrypted mcA random text) =
      some (random ++ getNetworkBytesOrder text.length ++ text ++ mcA.appID) := hdec
  simp only [Decrypt, hkey, if_pos hk, hP.b64_inverse, if_neg h16, hinv, hdec', if_neg hf20,
    hnet, recover_getNetworkBytesOrder, if_neg hfx, if_neg hdx, hxml, happ]

theorem toy_lawful : toy.Lawful where
  cbc_length := fun _ _ src _ _ => List.length_map src _
  cbc_inverse := fun _ _ src _ _ _ => by
    show (src.map (· + 1)).map (· - 1) = src
    rw [List.map_map]
    have hid : ((fun x : Byte => x - 1) ∘ fun x : Byte => x + 1) = id := by
      funext x
      exact add_sub_cancel_right x 1
    rw [hid, List.map_id]
  b64_inverse := fun _ => rfl

theorem key32_ok : aesKeySizeOk key32.length := by decide

/-- The composition on two ciphers with the same key of a valid size and a 16-byte seed. -/
theorem decryptEncrypted_eq (P : Primitives) (hP : P.Lawful) (mcA mcB : WXBizMsgCrypt)
    (hkey : mcB.aesKey = mcA.aesKey) (hk : aesKeySizeOk mcA.aesKey.length)
    (seed : GoString) (p : List Byte) (hs : seed.length = 16) :
    decryptEncrypted P mcA mcB seed p =
      if p.drop (p.length % 2 ^ 32) ++ mcA.appID ≠ mcB.appID then .err .validateAppID
      else .ok (p.take (p.length % 2 ^ 32)) := by
  simp only [decryptEncrypted, Encrypt_eq P mcA seed p hk]
  exact Decrypt_Encrypt_eq P hP mcA mcB hkey hk seed p hs

theorem bigText_length : bigText.length = 2 ^ 32 := List.length_replicate _ _

theorem bigText_length_mod : bigText.length % 2 ^ 32 = 0 := by
  rw [bigText_length, Nat.mod_self]

theorem bigText_ne_nil : bigText ≠ [] := by
  intro h
  have hl := congrArg List.length h
  rw [bigText_length] at hl
  exact absurd hl (by decide)

/-- C1, as stated, fails: a plaintext of 2^32 bytes is written with the length
field 0, so `Decrypt` reads an empty payload, takes the whole text for the
tenant id and returns `ErrValidateAppID`. -/
theorem roundtrip_fails_at_two_pow_32 :
    toy.Lawful ∧ mcA.aesKey.length = 32 ∧ seed16.length = 16 ∧
      getNetworkBytesOrder bigText.length = [0, 0, 0, 0] ∧
      decryptEncrypted toy mcA mcA seed16 bigText = .err .validateAppID := by
  refine ⟨toy_lawful, by decide, by decide, ?_, ?_⟩
  · rw [bigText_length]; decide
  · rw [decryptEncrypted_eq toy toy_lawful mcA mcA rfl key32_ok seed16 bigText (by decide),
      bigText_length_mod, List.drop_zero]
    have hne : bigText ++ mcA.appID ≠ mcA.appID := by
      intro h
      exact bigText_ne_nil (List.append_left_eq_self.1 h)
    rw [if_pos hne]

/-- C1, amended: for every cipher with a 32-byte key, every 16-byte seed and every
plaintext p shorter than 2^32 bytes (the empty one included), `Encrypt` returns
a string with no error and `Decrypt` of that string returns p with no error
(AES-CBC and base64 taken as inverse pairs). -/
theorem Decrypt_Encrypt_roundtrip (P : Primitives) (hP : P.Lawful) (mc : WXBizMsgCrypt)
    (hkey : mc.aesKey.length = 32) (seed : GoString) (hs : seed.length = 16)
    (p : List Byte) (hp : p.length < 2 ^ 32) :
    (∃ c, Encrypt P mc seed p = .ok c ∧ Decrypt P mc c = .ok p) ∧
      decryptEncrypted P mc mc seed p = .ok p := by
  have hk : aesKeySizeOk mc.aesKey.length := Or.inr (Or.inr hkey)
  have hmod : p.length % 2 ^ 32 = p.length := Nat.mod_eq_of_lt hp
  have hgen := Decrypt_Encrypt_eq P hP mc mc rfl hk seed p hs
  have hcomp := decryptEncrypted_eq P hP mc mc rfl hk seed p hs
  rw [hmod, List.drop_length, List.nil_append, List.take_length] at hgen hcomp
  rw [if_neg (by simp)] at hgen hcomp
  exact ⟨⟨_, Encrypt_eq P mc seed p hk, hgen⟩, hcomp⟩

theorem Decrypt_Encrypt_roundtrip_witness :
    toy.Lawful ∧ mcA.aesKey.length = 32 ∧ seed16.length = 16 ∧
      ([1, 2, 3] : List Byte).length < 2 ^ 32 ∧
      decryptEncrypted toy mcA mcA seed16 [1, 2, 3] = .ok [1, 2, 3] :=
  ⟨toy_lawful, by decide, by decide, by decide,
    (Decrypt_Encrypt_roundtrip toy toy_lawful mcA (by decide) seed16 (by decide) [1, 2, 3]
      (by decide)).2⟩

/-- C2, as stated, fails: for the tenant ids "" and 2^32 zero bytes and a
plaintext of 2^32 zero bytes, the second cipher reads the length field 0, takes
the plaintext for the tenant id, finds its own and returns an empty payload with
no error. -/
theorem tenant_check_fails_at_two_pow_32 :
    toy.Lawful ∧ mcBig.aesKey = mcEmpty.aesKey ∧ mcEmpty.appID ≠ mcBig.appID ∧
      seed16.length = 16 ∧
      decryptEncrypted toy mcEmpty mcBig seed16 bigText = .ok [] := by
  refine ⟨toy_lawful, rfl, fun h => bigText_ne_nil h.symm, by decide, ?_⟩
  rw [decryptEncrypted_eq toy toy_lawful mcEmpty mcBig rfl key32_ok seed16 bigText (by decide),
    bigText_length_mod, List.drop_zero, List.take_zero]
  have heq : ¬ (bigText ++ mcEmpty.appID ≠ mcBig.appID) := by
    intro h
    exact h (List.append_nil bigText)
  rw [if_neg heq]

/-- C2, amended: for every two ciphers sharing the same key (of a valid size) with
tenant ids A and B, A different from B, every 16-byte seed and every plaintext
p shorter than 2^32 bytes, the cipher for B applied to what the cipher for A
encrypted returns no plaintext and fails with `ErrValidateAppID`. -/
theorem Decrypt_other_tenant (P : Primitives) (hP : P.Lawful) (mcA mcB : WXBizMsgCrypt)
    (hkey : mcB.aesKey = mcA.aesKey) (hk : aesKeySizeOk mcA.aesKey.length)
    (hab : mcA.appID ≠ mcB.appID) (seed : GoString) (hs : seed.length = 16)
    (p : List Byte) (hp : p.length < 2 ^ 32) :
    (∃ c, Encrypt P mcA seed p = .ok c ∧ Decrypt P mcB c = .err .validateAppID) ∧
      decryptEncrypted P mcA mcB seed p = .err .validateAppID := by
  have hmod : p.length % 2 ^ 32 = p.length := Nat.mod_eq_of_lt hp
  have hgen := Decrypt_Encrypt_eq P hP mcA mcB hkey hk seed p hs
  have hcomp := decryptEncrypted_eq P hP mcA mcB hkey hk seed p hs
  rw [hmod, List.drop_length, List.nil_append, if_pos hab] at hgen hcomp
  exact ⟨⟨_, Encrypt_eq P mcA seed p hk, hgen⟩, hcomp⟩

theorem Decrypt_other_tenant_witness :
    toy.Lawful ∧ mcB.aesKey = mcA.aesKey ∧ aesKeySizeOk mcA.aesKey.length ∧
      mcA.appID ≠ mcB.appID ∧ seed16.length = 16 ∧ ([1, 2, 3] : List Byte).length < 2 ^ 32 ∧
      decryptEncrypted toy mcA mcB seed16 [1, 2, 3] = .err .validateAppID :=
  ⟨toy_lawful, rfl, key32_ok, by decide, by decide, by decide,
    (Decrypt_other_tenant toy toy_lawful mcA mcB rfl key32_ok (by decide) seed16 (by decide)
      [1, 2, 3] (by decide)).2⟩

/-- C3: for a well-formed envelope whose `Encrypt` field is c, if
`SignParams(token, timeStamp, nonce, c)` differs from msgSignature then
`DecryptMsg` returns `ErrValidateSignature` and no plaintext, whatever `Decrypt`
would do on c (it is not run); a plaintext is returned only when the signatures
are equal, and then the result is that of `Decrypt` on c. -/
theorem DecryptMsg_checks_signature_first (P : Primitives) (mc : WXBizMsgCrypt)
    (msgSignature timeStamp nonce : GoString) (postData : List Byte) (c : GoString)
    (hxml : P.xmlUnmarshal postData = some c) :
    (SignParams P [mc.token, timeStamp, nonce, c] ≠ msgSignature →
        DecryptMsg P mc msgSignature timeStamp nonce postData = .err .validateSignature) ∧
      (∀ plaintext, DecryptMsg P mc msgSignature timeStamp nonce postData = .ok plaintext →
        SignParams P [mc.token, timeStamp, nonce, c] = msgSignature) ∧
      (SignParams P [mc.token, timeStamp, nonce, c] = msgSignature →
        DecryptMsg P mc msgSignature timeStamp nonce postData = Decrypt P mc c) := by
  refine ⟨fun hne => ?_, fun plaintext hok => ?_, fun heq => ?_⟩
  · simp only [DecryptMsg, hxml, if_pos hne]
  · by_contra hne
    simp only [DecryptMsg, hxml, if_pos hne] at hok
    exact Outcome.noConfusion hok
  · simp only [DecryptMsg, hxml, heq, ne_eq, not_true_eq_false, if_false]

theorem DecryptMsg_checks_signature_first_witness :
    toy.xmlUnmarshal [] = some [] ∧ Decrypt toy mcA [] = .panic ∧
      SignParams toy [mcA.token, asciiBytes "1409304348", asciiBytes "nonce", []] ≠
        asciiBytes "00" ∧
      DecryptMsg toy mcA (asciiBytes "00") (asciiBytes "1409304348") (asciiBytes "nonce") [] =
        .err .validateSignature :=
  ⟨rfl, by decide, by decide,
    (DecryptMsg_checks_signature_first toy mcA (asciiBytes "00") (asciiBytes "1409304348")
      (asciiBytes "nonce") [] [] rfl).1 (by decide)⟩

/-- What `EncryptMsg` returns when the key has a valid size. -/
theorem EncryptMsg_eq (P : Primitives) (env : Env) (mc : WXBizMsgCrypt) (reply : List Byte)
    (timeStamp : Int) (nonce : GoString) (hk : aesKeySizeOk mc.aesKey.length) :
    EncryptMsg P env mc reply timeStamp nonce =
      .ok { Encrypt := P.b64Encode (P.cbcEncrypt mc.aesKey (mc.aesKey.take 16)
              (unencrypted mc (getRandomStr 16 env.rand1) reply)),
            MsgSignature := SignParams P [mc.token,
              formatInt (if timeStamp = 0 then env.now else timeStamp),
              if nonce = [] then getRandomStr 16 env.rand2 else nonce,
              P.b64Encode (P.cbcEncrypt mc.aesKey (mc.aesKey.take 16)
                (unencrypted mc (getRandomStr 16 env.rand1) reply))],
            TimeStamp := if timeStamp = 0 then env.now else timeStamp,
            Nonce := if nonce = [] then getRandomStr 16 env.rand2 else nonce } := by
  simp only [EncryptMsg, Encrypt_eq P mc _ reply hk]

/-- With a key of an invalid size `EncryptMsg` returns the error of `aes.NewCipher`. -/
theorem EncryptMsg_bad_key (P : Primitives) (env : Env) (mc : WXBizMsgCrypt) (reply : List Byte)
    (timeStamp : Int) (nonce : GoString) (hk : ¬ aesKeySizeOk mc.aesKey.length) :
    EncryptMsg P env mc reply timeStamp nonce = .err (.keySize mc.aesKey.length) := by
  simp only [EncryptMsg, Encrypt, if_neg hk]

theorem getRandomStr_length (n : Nat) (rnd : Nat → Byte) : (getRandomStr n rnd).length = n := by
  simp only [getRandomStr, List.length_map, List.length_range]

/-- The method `DecryptMsg` on a payload that `Encrypt` produced with a 16-byte seed, presented
with the signature of that payload: the signature check passes and the result is
that of `Decrypt`. -/
theorem DecryptMsg_signed_eq (P : Primitives) (hP : P.Lawful) (mc : WXBizMsgCrypt)
    (hk : aesKeySizeOk mc.aesKey.length) (seed : GoString) (hs : seed.length = 16)
    (reply : List Byte) (tsStr nonce : GoString) (postData : List Byte)
    (hxml : P.xmlUnmarshal postData =
      some (P.b64Encode (P.cbcEncrypt mc.aesKey (mc.aesKey.take 16) (unencrypted mc seed reply)))) :
    DecryptMsg P mc
        (SignParams P [mc.token, tsStr, nonce,
          P.b64Encode (P.cbcEncrypt mc.aesKey (mc.aesKey.take 16) (unencrypted mc seed reply))])
        tsStr nonce postData =
      if reply.drop (reply.length % 2 ^ 32) ++ mc.appID ≠ mc.appID then .err .validateAppID
      else .ok (reply.take (reply.length % 2 ^ 32)) := by
  simp only [DecryptMsg, hxml, ne_eq, not_true_eq_false, if_false]
  exact Decrypt_Encrypt_eq P hP mc mc rfl hk seed reply hs

/-- C4, as stated, fails: for a reply of 2^32 bytes the envelope of `EncryptMsg`
carries the length field 0, and `DecryptMsg` on that envelope with its own
signature, time stamp and nonce returns `ErrValidateAppID`, not the reply. -/
theorem envelope_roundtrip_fails_at_two_pow_32 :
    toy.Lawful ∧ (1409304348 : Int) ≠ 0 ∧ asciiBytes "nonce" ≠ [] ∧
      ∃ e, EncryptMsg toy env0 mcA bigText 1409304348 (asciiBytes "nonce") = .ok e ∧
        toy.xmlUnmarshal e.Encrypt = some e.Encrypt ∧
        DecryptMsg toy mcA e.MsgSignature (formatInt e.TimeStamp) e.Nonce e.Encrypt =
          .err .validateAppID := by
  refine ⟨toy_lawful, by decide, by decide, _,
    EncryptMsg_eq toy env0 mcA bigText 1409304348 (asciiBytes "nonce") key32_ok, rfl, ?_⟩
  have h := DecryptMsg_signed_eq toy toy_lawful mcA key32_ok (getRandomStr 16 env0.rand1)
    (getRandomStr_length 16 _) bigText
    (formatInt (if (1409304348 : Int) = 0 then env0.now else 1409304348))
    (if asciiBytes "nonce" = [] then getRandomStr 16 env0.rand2 else asciiBytes "nonce")
    (toy.b64Encode (toy.cbcEncrypt mcA.aesKey (mcA.aesKey.take 16)
      (unencrypted mcA (getRandomStr 16 env0.rand1) bigText))) rfl
  rw [bigText_length_mod, List.drop_zero] at h
  have hne : bigText ++ mcA.appID ≠ mcA.appID := by
    intro h'
    exact bigText_ne_nil (List.append_left_eq_self.1 h')
  rw [if_pos hne] at h
  dsimp only
  exact h

/-- C4, amended: for every reply shorter than 2^32 bytes, every non-zero timeStamp
and every non-empty nonce, `EncryptMsg` on a cipher with a key of a valid size
returns an envelope e with e.TimeStamp = timeStamp, e.Nonce = nonce and
e.MsgSignature = SignParams(token, decimal(timeStamp), nonce, e.Encrypt), and
`DecryptMsg(e.MsgSignature, decimal(e.TimeStamp), e.Nonce, envelope)` on the same
cipher returns reply for every envelope whose `Encrypt` field is e.Encrypt. -/
theorem EncryptMsg_DecryptMsg_roundtrip (P : Primitives) (hP : P.Lawful) (env : Env)
    (mc : WXBizMsgCrypt) (hk : aesKeySizeOk mc.aesKey.length) (reply : List Byte)
    (timeStamp : Int) (nonce : GoString) (hts : timeStamp ≠ 0) (hn : nonce ≠ [])
    (hlen : reply.length < 2 ^ 32) :
    ∃ e, EncryptMsg P env mc reply timeStamp nonce = .ok e ∧
      e.TimeStamp = timeStamp ∧ e.Nonce = nonce ∧
      e.MsgSignature = SignParams P [mc.token, formatInt timeStamp, nonce, e.Encrypt] ∧
      ∀ postData, P.xmlUnmarshal postData = some e.Encrypt →
        DecryptMsg P mc e.MsgSignature (formatInt e.TimeStamp) e.Nonce postData = .ok reply := by
  refine ⟨_, EncryptMsg_eq P env mc reply timeStamp nonce hk, ?_, ?_, ?_, ?_⟩
  · exact if_neg hts
  · exact if_neg hn
  · simp only [if_neg hts, if_neg hn]
  · intro postData hxml
    have h := DecryptMsg_signed_eq P hP mc hk (getRandomStr 16 env.rand1)
      (getRandomStr_length 16 _) reply
      (formatInt (if timeStamp = 0 then env.now else timeStamp))
      (if nonce = [] then getRandomStr 16 env.rand2 else nonce) postData hxml
    rw [Nat.mod_eq_of_lt hlen, List.drop_length, List.nil_append, List.take_length,
      if_neg (show ¬ (mc.appID ≠ mc.appID) from fun hc => hc rfl)] at h
    exact h

theorem EncryptMsg_DecryptMsg_roundtrip_witness :
    toy.Lawful ∧ aesKeySizeOk mcA.aesKey.length ∧ (1409304348 : Int) ≠ 0 ∧
      asciiBytes "nonce" ≠ [] ∧ ([60, 120, 62] : List Byte).length < 2 ^ 32 ∧
      ∃ e, EncryptMsg toy env0 mcA [60, 120, 62] 1409304348 (asciiBytes "nonce") = .ok e ∧
        e.TimeStamp = 1409304348 ∧ e.Nonce = asciiBytes "nonce" ∧
        e.MsgSignature =
          SignParams toy [mcA.token, formatInt 1409304348, asciiBytes "nonce", e.Encrypt] ∧
        ∀ postData, toy.xmlUnmarshal postData = some e.Encrypt →
          DecryptMsg toy mcA e.MsgSignature (formatInt e.TimeStamp) e.Nonce postData =
            .ok [60, 120, 62] :=
  ⟨toy_lawful, key32_ok, by decide, by decide, by decide,
    EncryptMsg_DecryptMsg_roundtrip toy toy_lawful env0 mcA key32_ok [60, 120, 62] 1409304348
      (asciiBytes "nonce") (by decide) (by decide) (by decide)⟩

theorem bigEndianValue_getNetworkBytesOrder (n : Nat) :
    bigEndianValue (getNetworkBytesOrder n) = n % 2 ^ 32 := by
  simp only [bigEndianValue, getNetworkBytesOrder, List.foldl_cons, List.foldl_nil, toByte_val,
    Nat.shiftRight_eq_div_pow]
  omega

/-- C5: for every seed string r and plaintext t, the byte sequence that `Encrypt`
hands to the block cipher is r, then the four-byte big-endian length of t (the
length modulo 2^32, which is the length itself below 2^32), then t, then the
tenant id, then `pkcs7Encode(len(r)+4+len(t)+len(appID))`, and its length is a
positive multiple of 32. -/
theorem Encrypt_buffer_layout (P : Primitives) (mc : WXBizMsgCrypt) (r : GoString)
    (t : List Byte) :
    Encrypt P mc r t =
        (if aesKeySizeOk mc.aesKey.length then
          .ok (P.b64Encode (P.cbcEncrypt mc.aesKey (mc.aesKey.take 16) (unencrypted mc r t)))
        else .err (.keySize mc.aesKey.length)) ∧
      unencrypted mc r t =
        r ++ getNetworkBytesOrder t.length ++ t ++ mc.appID ++
          pkcs7Encode ((r.length + 4 + t.length + mc.appID.length : Nat) : Int) ∧
      (getNetworkBytesOrder t.length).length = 4 ∧
      bigEndianValue (getNetworkBytesOrder t.length) = t.length % 2 ^ 32 ∧
      (t.length < 2 ^ 32 → bigEndianValue (getNetworkBytesOrder t.length) = t.length) ∧
      (unencrypted mc r t).length % 32 = 0 ∧ 0 < (unencrypted mc r t).length := by
  refine ⟨?_, ?_, rfl, bigEndianValue_getNetworkBytesOrder _, fun h => ?_,
    (unencrypted_length_mod mc r t).1, (unencrypted_length_mod mc r t).2⟩
  · by_cases hk : aesKeySizeOk mc.aesKey.length
    · rw [if_pos hk, Encrypt_eq P mc r t hk]
    · simp only [Encrypt, if_neg hk]
  · rw [unencrypted_eq]
    simp only [List.length_append, getNetworkBytesOrder_length]
  · rw [bigEndianValue_getNetworkBytesOrder, Nat.mod_eq_of_lt h]

/-! ## The constructor of the cipher -/

theorem b64Value_isSome_ne (c : Byte) (h : (b64Value c).isSome = true) :
    c ≠ 61 ∧ c ≠ 10 ∧ c ≠ 13 := by
  refine ⟨?_, ?_, ?_⟩ <;>
  · intro hc
    subst hc
    revert h
    decide

theorem filter_lineBreaks_of_alphabet (l : List Byte)
    (h : ∀ c ∈ l, (b64Value c).isSome = true) :
    l.filter (fun c => c ≠ 10 ∧ c ≠ 13) = l := by
  rw [List.filter_eq_self]
  intro c hc
  have h3 := b64Value_isSome_ne c (h c hc)
  simp [h3.2.1, h3.2.2]

theorem quantumBytes_length (v0 v1 v2 v3 : Nat) : (quantumBytes v0 v1 v2 v3).length = 3 := rfl

/-- A run of 4n+3 characters of the alphabet followed by one `=` decodes to 3n+2 bytes. -/
theorem decodeQuanta_padded_length (n : Nat) :
    ∀ l : List Byte, l.length = 4 * n + 3 → (∀ c ∈ l, (b64Value c).isSome = true) →
      ∃ bs, decodeQuanta (l ++ [61]) = some bs ∧ bs.length = 3 * n + 2 := by
  induction n with
  | zero =>
    intro l hl hall
    match l, hl with
    | [a, b, c], _ =>
      obtain ⟨va, hva⟩ := Option.isSome_iff_exists.1 (hall a (by simp))
      obtain ⟨vb, hvb⟩ := Option.isSome_iff_exists.1 (hall b (by simp))
      obtain ⟨vc, hvc⟩ := Option.isSome_iff_exists.1 (hall c (by simp))
      have hc := (b64Value_isSome_ne c (hall c (by simp))).1
      refine ⟨(quantumBytes va vb vc 0).take 2, ?_, rfl⟩
      simp [decodeQuanta, hva, hvb, hvc, hc]
  | succ n ih =>
    intro l hl hall
    match l, hl with
    | a :: b :: c :: d :: rest, hl =>
      obtain ⟨va, hva⟩ := Option.isSome_iff_exists.1 (hall a (by simp))
      obtain ⟨vb, hvb⟩ := Option.isSome_iff_exists.1 (hall b (by simp))
      obtain ⟨vc, hvc⟩ := Option.isSome_iff_exists.1 (hall c (by simp))
      obtain ⟨vd, hvd⟩ := Option.isSome_iff_exists.1 (hall d (by simp))
      have hc := (b64Value_isSome_ne c (hall c (by simp))).1
      have hd := (b64Value_isSome_ne d (hall d (by simp))).1
      have hrest : rest.length = 4 * n + 3 := by
        simp only [List.length_cons] at hl
        omega
      obtain ⟨bs, hbs, hlen⟩ := ih rest hrest (fun x hx => hall x (by simp [hx]))
      refine ⟨quantumBytes va vb vc vd ++ bs, ?_, ?_⟩
      · simp [decodeQuanta, hva, hvb, hvc, hvd, hc, hd, hbs]
      · rw [List.length_append, quantumBytes_length, hlen]
        omega

/-- C11, as stated, fails: `NewWXBizMsgCrypt` accepts the three-character string
"AAA" ("AAA=" is valid base64) and returns a cipher whose key has two bytes. -/
theorem NewWXBizMsgCrypt_short_key :
    NewWXBizMsgCrypt (asciiBytes "tok") (asciiBytes "AAA") (asciiBytes "A") =
        .ok { token := asciiBytes "tok", aesKey := [0, 0], appID := asciiBytes "A" } ∧
      ¬ (∀ (aesToken encodingAesKey appid : GoString) (mc : WXBizMsgCrypt),
          NewWXBizMsgCrypt aesToken encodingAesKey appid = .ok mc → mc.aesKey.length = 32) := by
  refine ⟨by decide, fun hall => ?_⟩
  have h := hall (asciiBytes "tok") (asciiBytes "AAA") (asciiBytes "A")
    { token := asciiBytes "tok", aesKey := [0, 0], appID := asciiBytes "A" } (by decide)
  revert h
  decide

/-- C11, amended: for every encodingAesKey of 43 characters of the base64
alphabet (the format of the platform), `NewWXBizMsgCrypt` returns without error
a cipher that holds a cipher key of exactly 32 bytes, with the given token and
tenant id. -/
theorem NewWXBizMsgCrypt_key_length (aesToken encodingAesKey appid : GoString)
    (hlen : encodingAesKey.length = 43)
    (halpha : ∀ c ∈ encodingAesKey, (b64Value c).isSome = true) :
    ∃ mc, NewWXBizMsgCrypt aesToken encodingAesKey appid = .ok mc ∧ mc.aesKey.length = 32 ∧
      mc.token = aesToken ∧ mc.appID = appid := by
  obtain ⟨bs, hbs, hbl⟩ := decodeQuanta_padded_length 10 encodingAesKey hlen halpha
  have hpad : asciiBytes "=" = [61] := by decide
  have hfilter : (encodingAesKey ++ [61]).filter (fun c => c ≠ 10 ∧ c ≠ 13) =
      encodingAesKey ++ [61] := by
    rw [List.filter_append, filter_lineBreaks_of_alphabet encodingAesKey halpha]
    rfl
  refine ⟨{ token := aesToken, aesKey := bs, appID := appid }, ?_, hbl, rfl, rfl⟩
  simp only [NewWXBizMsgCrypt, stdDecodeString, hpad, hfilter, hbs]

set_option maxRecDepth 8000 in
theorem NewWXBizMsgCrypt_key_length_witness :
    key43.length = 43 ∧ (∀ c ∈ key43, (b64Value c).isSome = true) ∧
      ∃ mc, NewWXBizMsgCrypt (asciiBytes "tok") key43 (asciiBytes "A") = .ok mc ∧
        mc.aesKey.length = 32 ∧ mc.token = asciiBytes "tok" ∧ mc.appID = asciiBytes "A" :=
  ⟨by decide, by decide,
    NewWXBizMsgCrypt_key_length (asciiBytes "tok") key43 (asciiBytes "A") (by decide) (by decide)⟩

/-! ## The expiring container -/

/-- When the flag is set, nothing is stored or the stored credential is stale, `get` runs the
refresh cycle on what `Read` returned. -/
theorem get_eq_refreshCycle {W : Type} (tickerNow : W → Int) (e : ExpireDataContainer W)
    (s : ExpireDataStorage W) (key : GoString) (refresh : Bool) (w w1 : W)
    (data : Option ExpireData) (hs : e.storage = some s) (hread : s.Read key w = (.ok data, w1))
    (hc : refresh = true ∨ data = none ∨ ∃ d, data = some d ∧ tickerNow w1 > d.ExpireAt) :
    e.get tickerNow key refresh w = e.refreshCycle s key data (tickerNow w1) w1 := by
  simp only [ExpireDataContainer.get, hs, hread]
  cases data with
  | none => rfl
  | some d =>
    have hcond : refresh = true ∨ tickerNow w1 > d.ExpireAt := by
      rcases hc with h | h | ⟨d', hd', h⟩
      · exact Or.inl h
      · exact absurd h (by simp)
      · rw [Option.some.inj hd']
        exact Or.inr h
    simp only [if_pos hcond]

/-- A cache hit of `get`. -/
theorem get_hit {W : Type} (tickerNow : W → Int) (e : ExpireDataContainer W)
    (s : ExpireDataStorage W) (key : GoString) (w w1 : W) (d : ExpireData)
    (hs : e.storage = some s) (hread : s.Read key w = (.ok (some d), w1))
    (hfresh : ¬ tickerNow w1 > d.ExpireAt) :
    e.get tickerNow key false w = { result := .ok d.Value, world := w1, calls := [.read key] } := by
  have hcond : ¬ (false = true ∨ tickerNow w1 > d.ExpireAt) := by
    rintro (h | h)
    · exact Bool.noConfusion h
    · exact hfresh h
  simp only [ExpireDataContainer.get, hs, hread, if_neg hcond]

/-- The refresh cycle always starts with the call of the refresh provider, on the token that
`GetRefreshToken` reads from the stored credential. -/
theorem refreshCycle_calls_take {W : Type} (e : ExpireDataContainer W) (s : ExpireDataStorage W)
    (key : GoString) (data : Option ExpireData) (now : Int) (w1 : W) :
    (e.refreshCycle s key data now w1).calls.take 2 =
      [.read key, .refresh key (GetRefreshToken data)] := by
  unfold ExpireDataContainer.refreshCycle
  generalize e.refresher key (GetRefreshToken data) w1 = res
  obtain ⟨r, w2⟩ := res
  cases r with
  | panic => rfl
  | err perr => rfl
  | ok val =>
    obtain ⟨v, r', x⟩ := val
    dsimp only
    generalize s.Store key _ w2 = sres
    obtain ⟨o, w3⟩ := sres
    cases o <;> rfl

/-- The refresh cycle calls the refresh provider exactly once. -/
theorem refreshCycle_refreshCount {W : Type} (e : ExpireDataContainer W)
    (s : ExpireDataStorage W) (key : GoString) (data : Option ExpireData) (now : Int) (w1 : W) :
    refreshCount (e.refreshCycle s key data now w1).calls = 1 := by
  unfold ExpireDataContainer.refreshCycle
  generalize e.refresher key (GetRefreshToken data) w1 = res
  obtain ⟨r, w2⟩ := res
  cases r with
  | panic => rfl
  | err perr => rfl
  | ok val =>
    obtain ⟨v, r', x⟩ := val
    dsimp only
    generalize s.Store key _ w2 = sres
    obtain ⟨o, w3⟩ := sres
    cases o <;> rfl

/-- The refresh cycle when the refresh provider returns an error. -/
theorem refreshCycle_err {W : Type} (e : ExpireDataContainer W) (s : ExpireDataStorage W)
    (key : GoString) (data : Option ExpireData) (now : Int) (w1 w2 : W) (perr : Err)
    (hp : e.refresher key (GetRefreshToken data) w1 = (.err perr, w2)) :
    e.refreshCycle s key data now w1 =
      { result := .err (.wrap perr (containerMessage e.name)), world := w2,
        calls := [.read key, .refresh key (GetRefreshToken data)] } := by
  simp only [ExpireDataContainer.refreshCycle, hp]

/-- The refresh cycle when the refresh provider and `Store` succeed. -/
theorem refreshCycle_ok {W : Type} (e : ExpireDataContainer W) (s : ExpireDataStorage W)
    (key : GoString) (data : Option ExpireData) (now : Int) (w1 w2 w3 : W)
    (v r : GoString) (expiresIn : Int)
    (hp : e.refresher key (GetRefreshToken data) w1 = (.ok (v, r, expiresIn), w2))
    (hstore : s.Store key
      { Value := v, RefreshToken := r, ExpireAt := expireAt now expiresIn e.refreshBeforeExpire }
      w2 = (none, w3)) :
    e.refreshCycle s key data now w1 =
      { result := .ok v, world := w3,
        calls := [.read key, .refresh key (GetRefreshToken data),
          .store key { Value := v, RefreshToken := r,
                       ExpireAt := expireAt now expiresIn e.refreshBeforeExpire }] } := by
  simp only [ExpireDataContainer.refreshCycle, hp, hstore]

theorem wrapInt64_of_mem {x : Int} (h1 : -2 ^ 63 ≤ x) (h2 : x < 2 ^ 63) : wrapInt64 x = x := by
  unfold wrapInt64
  omega

/-- C12, as stated, fails at now = E: with the stored effective expiry 1000 and
the clock at 1000, `now.After(data.ExpireAt)` is false and `Get` returns the
stored value after the `Read` alone, without calling the refresh provider. -/
theorem Get_at_expiry_does_not_refresh :
    (worldWith 1000 cred1000).clock ≥ cred1000.ExpireAt ∧
      ((memContainer answer3600).Get MemWorld.clock (asciiBytes "k")
        (worldWith 1000 cred1000)).calls = [.read (asciiBytes "k")] ∧
      ((memContainer answer3600).Get MemWorld.clock (asciiBytes "k")
        (worldWith 1000 cred1000)).result = .ok (asciiBytes "v1") ∧
      refreshCount ((memContainer answer3600).Get MemWorld.clock (asciiBytes "k")
        (worldWith 1000 cred1000)).calls = 0 := by
  decide

/-- C12, amended: for every key whose stored credential has effective expiry E
and every clock reading now with now > E, `Get` invokes the refresh provider,
once, right after the `Read` and before returning, with the refresh token of
the stored credential: what `Get` returns and the world it leaves are those of
the application of the provider to that token in the world that `Read` left
(its error, wrapped, and its world; or its value, once `Store` has stored it).
At now = E `Get` returns the stored value after the `Read` alone. -/
theorem Get_refreshes_after_expiry {W : Type} (tickerNow : W → Int)
    (e : ExpireDataContainer W) (s : ExpireDataStorage W) (key : GoString) (w w1 : W)
    (d : ExpireData) (hs : e.storage = some s) (hread : s.Read key w = (.ok (some d), w1)) :
    (tickerNow w1 > d.ExpireAt →
      Call.refresh key (GetRefreshToken (some d)) ∈ (e.Get tickerNow key w).calls ∧
      (e.Get tickerNow key w).calls.take 2 =
        [.read key, .refresh key (GetRefreshToken (some d))] ∧
      refreshCount (e.Get tickerNow key w).calls = 1 ∧
      (∀ (perr : Err) (w2 : W),
        e.refresher key (GetRefreshToken (some d)) w1 = (.err perr, w2) →
        (e.Get tickerNow key w).result = .err (.wrap perr (containerMessage e.name)) ∧
        (e.Get tickerNow key w).world = w2) ∧
      (∀ (w2 : W), e.refresher key (GetRefreshToken (some d)) w1 = (.panic, w2) →
        (e.Get tickerNow key w).result = .panic ∧ (e.Get tickerNow key w).world = w2) ∧
      (∀ (v r : GoString) (expiresIn : Int) (w2 w3 : W),
        e.refresher key (GetRefreshToken (some d)) w1 = (.ok (v, r, expiresIn), w2) →
        s.Store key { Value := v, RefreshToken := r,
                      ExpireAt := expireAt (tickerNow w1) expiresIn e.refreshBeforeExpire } w2 =
          (none, w3) →
        (e.Get tickerNow key w).result = .ok v ∧ (e.Get tickerNow key w).world = w3)) ∧
      (tickerNow w1 = d.ExpireAt →
        e.Get tickerNow key w = { result := .ok d.Value, world := w1, calls := [.read key] }) := by
  refine ⟨fun hnow => ?_, fun heq => ?_⟩
  · have hget : e.Get tickerNow key w = e.refreshCycle s key (some d) (tickerNow w1) w1 :=
      get_eq_refreshCycle tickerNow e s key false w w1 (some d) hs hread
        (Or.inr (Or.inr ⟨d, rfl, hnow⟩))
    have htake := refreshCycle_calls_take e s key (some d) (tickerNow w1) w1
    rw [hget]
    refine ⟨?_, htake, refreshCycle_refreshCount e s key (some d) (tickerNow w1) w1, ?_, ?_, ?_⟩
    · have hmem : Call.refresh key (GetRefreshToken (some d)) ∈
          (e.refreshCycle s key (some d) (tickerNow w1) w1).calls.take 2 := by
        rw [htake]
        simp
      exact List.mem_of_mem_take hmem
    · intro perr w2 hp
      rw [refreshCycle_err e s key (some d) (tickerNow w1) w1 w2 perr hp]
      exact ⟨rfl, rfl⟩
    · intro w2 hp
      simp only [ExpireDataContainer.refreshCycle, hp]
      exact ⟨trivial, trivial⟩
    · intro v r expiresIn w2 w3 hp hstore
      rw [refreshCycle_ok e s key (some d) (tickerNow w1) w1 w2 w3 v r expiresIn hp hstore]
      exact ⟨rfl, rfl⟩
  · exact get_hit tickerNow e s key w w1 d hs hread (by omega)

theorem Get_refreshes_after_expiry_witness :
    (memContainer answer3600).storage = some memExpire ∧
      memExpire.Read (asciiBytes "k") (worldWith 1001 cred1000) =
        (.ok (some cred1000), worldWith 1001 cred1000) ∧
      (worldWith 1001 cred1000).clock > cred1000.ExpireAt ∧
      refreshCount ((memContainer answer3600).Get MemWorld.clock (asciiBytes "k")
        (worldWith 1001 cred1000)).calls = 1 ∧
      ((memContainer answer3600).Get MemWorld.clock (asciiBytes "k")
        (worldWith 1001 cred1000)).result = .ok (asciiBytes "v2") ∧
      ((memContainer answerError).Get MemWorld.clock (asciiBytes "k")
        (worldWith 1001 cred1000)).result =
        .err (.wrap (.external (asciiBytes "boom")) (containerMessage (asciiBytes "store"))) ∧
      (memContainer answer3600).Get MemWorld.clock (asciiBytes "k") (worldWith 1000 cred1000) =
        { result := .ok (asciiBytes "v1"), world := worldWith 1000 cred1000,
          calls := [.read (asciiBytes "k")] } :=
  ⟨rfl, rfl, by decide,
    ((Get_refreshes_after_expiry MemWorld.clock (memContainer answer3600) memExpire
      (asciiBytes "k") (worldWith 1001 cred1000) (worldWith 1001 cred1000) cred1000 rfl rfl).1
      (by decide)).2.2.1,
    (((Get_refreshes_after_expiry MemWorld.clock (memContainer answer3600) memExpire
      (asciiBytes "k") (worldWith 1001 cred1000) (worldWith 1001 cred1000) cred1000 rfl rfl).1
      (by decide)).2.2.2.2.2 (asciiBytes "v2") (asciiBytes "r2") 3600 (worldWith 1001 cred1000) _
      rfl rfl).1,
    (((Get_refreshes_after_expiry MemWorld.clock (memContainer answerError) memExpire
      (asciiBytes "k") (worldWith 1001 cred1000) (worldWith 1001 cred1000) cred1000 rfl rfl).1
      (by decide)).2.2.2.1 (.external (asciiBytes "boom")) (worldWith 1001 cred1000) rfl).1,
    (Get_refreshes_after_expiry MemWorld.clock (memContainer answer3600) memExpire
      (asciiBytes "k") (worldWith 1000 cred1000) (worldWith 1000 cred1000) cred1000 rfl rfl).2
      rfl⟩

/-- C14: cache hit: when the stored credential d satisfies now < d.ExpireAt, `Get`
returns d.Value with no error, its only call is the `Read` (no refresh-provider
call, no `Store` call), and it leaves the world as `Read` left it: unchanged
when `Read` changes nothing. -/
theorem Get_cache_hit {W : Type} (tickerNow : W → Int) (e : ExpireDataContainer W)
    (s : ExpireDataStorage W) (key : GoString) (w w1 : W) (d : ExpireData)
    (hs : e.storage = some s) (hread : s.Read key w = (.ok (some d), w1))
    (hnow : tickerNow w1 < d.ExpireAt) :
    (e.Get tickerNow key w).result = .ok d.Value ∧
      (e.Get tickerNow key w).calls = [.read key] ∧
      refreshCount (e.Get tickerNow key w).calls = 0 ∧
      storeCount (e.Get tickerNow key w).calls = 0 ∧
      (e.Get tickerNow key w).world = w1 ∧
      (w1 = w → (e.Get tickerNow key w).world = w) := by
  have hget : e.Get tickerNow key w =
      { result := .ok d.Value, world := w1, calls := [.read key] } :=
    get_hit tickerNow e s key w w1 d hs hread (by omega)
  rw [hget]
  exact ⟨rfl, rfl, rfl, rfl, rfl, fun h => h⟩

theorem Get_cache_hit_witness :
    (memContainer answer3600).storage = some memExpire ∧
      memExpire.Read (asciiBytes "k") (worldWith 999 cred1000) =
        (.ok (some cred1000), worldWith 999 cred1000) ∧
      (worldWith 999 cred1000).clock < cred1000.ExpireAt ∧
      ((memContainer answer3600).Get MemWorld.clock (asciiBytes "k")
        (worldWith 999 cred1000)).result = .ok (asciiBytes "v1") ∧
      ((memContainer answer3600).Get MemWorld.clock (asciiBytes "k")
        (worldWith 999 cred1000)).world = worldWith 999 cred1000 :=
  ⟨rfl, rfl, by decide,
    (Get_cache_hit MemWorld.clock (memContainer answer3600) memExpire (asciiBytes "k")
      (worldWith 999 cred1000) (worldWith 999 cred1000) cred1000 rfl rfl (by decide)).1,
    (Get_cache_hit MemWorld.clock (memContainer answer3600) memExpire (asciiBytes "k")
      (worldWith 999 cred1000) (worldWith 999 cred1000) cred1000 rfl rfl
      (by decide)).2.2.2.2.2 rfl⟩

theorem expireAt_3600_1200 (t0 : Int) : expireAt t0 3600 (1200 * second) = t0 + 2400 * second := by
  have h : wrapInt64 (wrapInt64 (3600 * second) - 1200 * second) = 2400 * second := by decide
  unfold expireAt
  rw [h]

/-- The refresh cycle of a container on the in-memory storage whose provider gives a fixed
successful answer. -/
theorem memContainer_refreshCycle (v r : GoString) (x : Int) (key : GoString)
    (data : Option ExpireData) (now : Int) (w : MemWorld) :
    (memContainer (.ok (v, r, x))).refreshCycle memExpire key data now w =
      { result := .ok v,
        world := { w with expire :=
          (key, { Value := v, RefreshToken := r, ExpireAt := expireAt now x (1200 * second) }) ::
            w.expire.filter (fun kv => kv.1 ≠ key) },
        calls := [.read key, .refresh key (GetRefreshToken data),
          .store key { Value := v, RefreshToken := r,
                       ExpireAt := expireAt now x (1200 * second) }] } := rfl

/-- A run of `get` on such a container that called the provider was a refresh cycle. -/
theorem memContainer_get_of_refreshCount (v r : GoString) (x : Int) (key : GoString)
    (refresh : Bool) (w : MemWorld)
    (h : refreshCount ((memContainer (.ok (v, r, x))).get MemWorld.clock key refresh w).calls = 1) :
    (memContainer (.ok (v, r, x))).get MemWorld.clock key refresh w =
      (memContainer (.ok (v, r, x))).refreshCycle memExpire key (w.expire.lookup key) w.clock w := by
  have hread : memExpire.Read key w = (.ok (w.expire.lookup key), w) := rfl
  cases hd : w.expire.lookup key with
  | none =>
    rw [hd] at hread
    exact get_eq_refreshCycle MemWorld.clock _ memExpire key refresh w w none rfl hread
      (Or.inr (Or.inl rfl))
  | some d =>
    rw [hd] at hread
    by_cases hc : refresh = true ∨ w.clock > d.ExpireAt
    · exact get_eq_refreshCycle MemWorld.clock _ memExpire key refresh w w (some d) rfl hread
        (hc.elim Or.inl (fun h' => Or.inr (Or.inr ⟨d, rfl, h'⟩)))
    · exfalso
      have hhit : (memContainer (.ok (v, r, x))).get MemWorld.clock key refresh w =
          { result := .ok d.Value, world := w, calls := [.read key] } := by
        simp only [ExpireDataContainer.get, memContainer, NewExpireDataContainer, hread, if_neg hc]
      rw [hhit] at h
      have h0 : refreshCount [Call.read key] = 0 := rfl
      have h1 : refreshCount [Call.read key] = 1 := h
      rw [h0] at h1
      exact absurd h1 (by decide)

/-- Reading back, at another reading of the clock, the credential that was just stored. -/
theorem memExpire_read_stored (key : GoString) (d : ExpireData) (w : MemWorld) (t : Int) :
    memExpire.Read key
        (({ w with expire := (key, d) :: w.expire.filter (fun kv => kv.1 ≠ key) } :
          MemWorld).atClock t) =
      (.ok (some d),
        ({ w with expire := (key, d) :: w.expire.filter (fun kv => kv.1 ≠ key) } :
          MemWorld).atClock t) := by
  simp [memExpire, MemWorld.atClock, List.lookup]

/-- C13, as stated, fails: with a margin of 1200 s, a credential obtained at
clock time 0 from a provider returning expiresIn = 3600 has the effective expiry
2400 s, and a `Get` at 2300 s is a cache hit: it makes no refresh-provider
call. -/
theorem Get_at_2300_does_not_refresh :
    refreshCount ((memContainer answer3600).Get MemWorld.clock (asciiBytes "k")
        (emptyWorld 0)).calls = 1 ∧
      ((memContainer answer3600).Get MemWorld.clock (asciiBytes "k")
        (emptyWorld 0)).world.expire.lookup (asciiBytes "k") =
          some { Value := asciiBytes "v2", RefreshToken := asciiBytes "r2",
                 ExpireAt := 2400 * second } ∧
      refreshCount ((memContainer answer3600).Get MemWorld.clock (asciiBytes "k")
        (((memContainer answer3600).Get MemWorld.clock (asciiBytes "k")
          (emptyWorld 0)).world.atClock (2300 * second))).calls = 0 := by
  decide

/-- C13, amended: for a store with refreshMargin = 1200 s on a storage that
returns what was last stored, whose credential was obtained at clock time t0
from a provider returning expiresIn = 3600, a `Get` at clock time t0 + 2300 s
returns the credential and triggers no refresh-provider call (the effective
expiry is t0 + 2400 s); a `Get` at a clock time after t0 + 2400 s triggers
exactly one. -/
theorem Get_after_refresh_3600_1200 (v r key : GoString) (refresh0 : Bool) (w0 : MemWorld)
    (hfirst : refreshCount
      ((memContainer (.ok (v, r, 3600))).get MemWorld.clock key refresh0 w0).calls = 1) :
    refreshCount ((memContainer (.ok (v, r, 3600))).Get MemWorld.clock key
        (((memContainer (.ok (v, r, 3600))).get MemWorld.clock key refresh0 w0).world.atClock
          (w0.clock + 2300 * second))).calls = 0 ∧
      ((memContainer (.ok (v, r, 3600))).Get MemWorld.clock key
        (((memContainer (.ok (v, r, 3600))).get MemWorld.clock key refresh0 w0).world.atClock
          (w0.clock + 2300 * second))).result = .ok v ∧
      ∀ t1 : Int, t1 > w0.clock + 2400 * second →
        refreshCount ((memContainer (.ok (v, r, 3600))).Get MemWorld.clock key
          (((memContainer (.ok (v, r, 3600))).get MemWorld.clock key refresh0 w0).world.atClock
            t1)).calls = 1 := by
  rw [memContainer_get_of_refreshCount v r 3600 key refresh0 w0 hfirst,
    memContainer_refreshCycle, expireAt_3600_1200]
  dsimp only
  have hread := fun t => memExpire_read_stored key
    { Value := v, RefreshToken := r, ExpireAt := w0.clock + 2400 * second } w0 t
  have hsec : (0 : Int) < second := by decide
  have hhit := get_hit MemWorld.clock (memContainer (.ok (v, r, 3600))) memExpire key _ _ _ rfl
    (hread (w0.clock + 2300 * second))
    (by show ¬ (w0.clock + 2300 * second > w0.clock + 2400 * second); omega)
  refine ⟨?_, ?_, fun t1 ht1 => ?_⟩
  · show refreshCount (ExpireDataContainer.get _ _ key false _).calls = 0
    rw [hhit]
    rfl
  · show (ExpireDataContainer.get _ _ key false _).result = .ok v
    rw [hhit]
  · have hcyc := get_eq_refreshCycle MemWorld.clock (memContainer (.ok (v, r, 3600))) memExpire
      key false _ _ _ rfl (hread t1)
      (Or.inr (Or.inr ⟨_, rfl, by show t1 > w0.clock + 2400 * second; exact ht1⟩))
    show refreshCount (ExpireDataContainer.get _ _ key false _).calls = 1
    rw [hcyc]
    exact refreshCycle_refreshCount _ _ _ _ _ _

theorem Get_after_refresh_3600_1200_witness :
    refreshCount ((memContainer (.ok (asciiBytes "v2", asciiBytes "r2", 3600))).get
        MemWorld.clock (asciiBytes "k") false (emptyWorld 5)).calls = 1 ∧
      refreshCount ((memContainer (.ok (asciiBytes "v2", asciiBytes "r2", 3600))).Get
        MemWorld.clock (asciiBytes "k")
        (((memContainer (.ok (asciiBytes "v2", asciiBytes "r2", 3600))).get MemWorld.clock
          (asciiBytes "k") false (emptyWorld 5)).world.atClock
          ((emptyWorld 5).clock + 2300 * second))).calls = 0 :=
  ⟨by decide,
    (Get_after_refresh_3600_1200 (asciiBytes "v2") (asciiBytes "r2") (asciiBytes "k") false
      (emptyWorld 5) (by decide)).1⟩

/-- C15, as stated, fails: with a margin of 1200 s and a provider answer
expiresIn = -9223372036, whose nanoseconds fit an `int64`, the subtraction of
the margin wraps around and `Get` stores ExpireAt = now + 9223370837709551616
nanoseconds, not now + expiresIn seconds - refreshBeforeExpire. -/
theorem Get_stores_wrapped_expiry :
    -2 ^ 63 ≤ (-9223372036 : Int) * second ∧ (-9223372036 : Int) * second < 2 ^ 63 ∧
      ((memContainer answerNegative).Get MemWorld.clock (asciiBytes "k") (emptyWorld 0)).calls =
        [.read (asciiBytes "k"), .refresh (asciiBytes "k") [],
          .store (asciiBytes "k") { Value := asciiBytes "v2", RefreshToken := asciiBytes "r2",
                                    ExpireAt := 9223370837709551616 }] ∧
      (9223370837709551616 : Int) ≠ 0 + (-9223372036) * second - 1200 * second := by
  decide

/-- C15, amended: for every key with no stored credential or one whose ExpireAt
the clock reading now is after, when the provider succeeds with
(v, r, expiresIn), expiresIn seconds and expiresIn seconds minus
refreshBeforeExpire are both representable as 64-bit nanosecond durations, and
`Store` succeeds, `Get` calls `Store` once, under that key, with exactly the
credential {Value: v, RefreshToken: r, ExpireAt: now + expiresIn seconds -
refreshBeforeExpire}, and returns v. -/
theorem Get_stores_refreshed_credential {W : Type} (tickerNow : W → Int)
    (e : ExpireDataContainer W) (s : ExpireDataStorage W) (key : GoString) (w w1 w2 w3 : W)
    (data : Option ExpireData) (v r : GoString) (expiresIn : Int)
    (hs : e.storage = some s) (hread : s.Read key w = (.ok data, w1))
    (hstale : data = none ∨ ∃ d, data = some d ∧ tickerNow w1 > d.ExpireAt)
    (hp : e.refresher key (GetRefreshToken data) w1 = (.ok (v, r, expiresIn), w2))
    (hrep1 : -2 ^ 63 ≤ expiresIn * second ∧ expiresIn * second < 2 ^ 63)
    (hrep2 : -2 ^ 63 ≤ expiresIn * second - e.refreshBeforeExpire ∧
      expiresIn * second - e.refreshBeforeExpire < 2 ^ 63)
    (hstore : s.Store key
      { Value := v, RefreshToken := r,
        ExpireAt := tickerNow w1 + expiresIn * second - e.refreshBeforeExpire } w2 = (none, w3)) :
    (e.Get tickerNow key w).result = .ok v ∧
      (e.Get tickerNow key w).calls =
        [.read key, .refresh key (GetRefreshToken data),
          .store key { Value := v, RefreshToken := r,
                       ExpireAt := tickerNow w1 + expiresIn * second - e.refreshBeforeExpire }] ∧
      (e.Get tickerNow key w).world = w3 := by
  have hexp : expireAt (tickerNow w1) expiresIn e.refreshBeforeExpire =
      tickerNow w1 + expiresIn * second - e.refreshBeforeExpire := by
    unfold expireAt
    rw [wrapInt64_of_mem hrep1.1 hrep1.2, wrapInt64_of_mem hrep2.1 hrep2.2]
    omega
  have hget : e.Get tickerNow key w = e.refreshCycle s key data (tickerNow w1) w1 :=
    get_eq_refreshCycle tickerNow e s key false w w1 data hs hread (Or.inr hstale)
  rw [← hexp] at hstore
  rw [hget, refreshCycle_ok e s key data (tickerNow w1) w1 w2 w3 v r expiresIn hp hstore, hexp]
  exact ⟨rfl, rfl, rfl⟩

theorem Get_stores_refreshed_credential_witness :
    (memContainer answer3600).storage = some memExpire ∧
      ((memContainer answer3600).Get MemWorld.clock (asciiBytes "k") (emptyWorld 7)).calls =
        [.read (asciiBytes "k"), .refresh (asciiBytes "k") [],
          .store (asciiBytes "k") { Value := asciiBytes "v2", RefreshToken := asciiBytes "r2",
                                    ExpireAt := 7 + 3600 * second - 1200 * second }] :=
  ⟨rfl,
    (Get_stores_refreshed_credential MemWorld.clock (memContainer answer3600) memExpire
      (asciiBytes "k") (emptyWorld 7) (emptyWorld 7) (emptyWorld 7)
      { clock := 7, data := [],
        expire := [(asciiBytes "k", { Value := asciiBytes "v2", RefreshToken := asciiBytes "r2",
                                      ExpireAt := 7 + 3600 * second - 1200 * second })],
        remote := [] }
      none (asciiBytes "v2") (asciiBytes "r2") 3600 rfl rfl (Or.inl rfl) rfl
      (by decide) (by decide) (by decide)).2.1⟩

/-- C17: if the refresh provider returns an error during `Get` or `Refresh` (the
flag is set, nothing is stored, or the stored credential is stale), the call
returns the empty value and the provider error wrapped with the message
"expire data container [name]"; its calls are the `Read` and the provider call,
`Store` is not called, and the world is left as the provider left it, so that
nothing persisted is changed by the container. -/
theorem get_provider_error {W : Type} (tickerNow : W → Int) (e : ExpireDataContainer W)
    (s : ExpireDataStorage W) (key : GoString) (refresh : Bool) (w w1 w2 : W)
    (data : Option ExpireData) (perr : Err)
    (hs : e.storage = some s) (hread : s.Read key w = (.ok data, w1))
    (hc : refresh = true ∨ data = none ∨ ∃ d, data = some d ∧ tickerNow w1 > d.ExpireAt)
    (hp : e.refresher key (GetRefreshToken data) w1 = (.err perr, w2)) :
    (e.get tickerNow key refresh w).result = .err (.wrap perr (containerMessage e.name)) ∧
      (e.get tickerNow key refresh w).calls =
        [.read key, .refresh key (GetRefreshToken data)] ∧
      storeCount (e.get tickerNow key refresh w).calls = 0 ∧
      (e.get tickerNow key refresh w).world = w2 ∧
      (refresh = true → (e.Refresh tickerNow key w).result =
        .err (.wrap perr (containerMessage e.name))) ∧
      (refresh = false → (e.Get tickerNow key w).result =
        .err (.wrap perr (containerMessage e.name))) := by
  have hget := get_eq_refreshCycle tickerNow e s key refresh w w1 data hs hread hc
  rw [refreshCycle_err e s key data (tickerNow w1) w1 w2 perr hp] at hget
  refine ⟨?_, ?_, ?_, ?_, fun h => ?_, fun h => ?_⟩
  · rw [hget]
  · rw [hget]
  · rw [hget]
    rfl
  · rw [hget]
  · subst h
    show (e.get tickerNow key true w).result = _
    rw [hget]
  · subst h
    show (e.get tickerNow key false w).result = _
    rw [hget]

theorem get_provider_error_witness :
    (memContainer answerError).storage = some memExpire ∧
      memExpire.Read (asciiBytes "k") (worldWith 2000 cred1000) =
        (.ok (some cred1000), worldWith 2000 cred1000) ∧
      ((memContainer answerError).get MemWorld.clock (asciiBytes "k") false
        (worldWith 2000 cred1000)).result =
          .err (.wrap (.external (asciiBytes "boom"))
            (asciiBytes "expire data container [store]")) ∧
      ((memContainer answerError).get MemWorld.clock (asciiBytes "k") false
        (worldWith 2000 cred1000)).world = worldWith 2000 cred1000 :=
  ⟨rfl, rfl,
    (get_provider_error MemWorld.clock (memContainer answerError) memExpire (asciiBytes "k") false
      (worldWith 2000 cred1000) (worldWith 2000 cred1000) (worldWith 2000 cred1000)
      (some cred1000) (.external (asciiBytes "boom")) rfl rfl
      (Or.inr (Or.inr ⟨cred1000, rfl, by decide⟩)) rfl).1,
    (get_provider_error MemWorld.clock (memContainer answerError) memExpire (asciiBytes "k") false
      (worldWith 2000 cred1000) (worldWith 2000 cred1000) (worldWith 2000 cred1000)
      (some cred1000) (.external (asciiBytes "boom")) rfl rfl
      (Or.inr (Or.inr ⟨cred1000, rfl, by decide⟩)) rfl).2.2.2.1⟩

/-- C18: for every key and every stored state for which the storage read
succeeds, a credential that is still fresh included, `Refresh(key)` invokes the
refresh provider exactly once, with the refresh token of what is stored, and
when the provider and `Store` succeed it returns the provider's new value. -/
theorem Refresh_forces_refresh {W : Type} (tickerNow : W → Int) (e : ExpireDataContainer W)
    (s : ExpireDataStorage W) (key : GoString) (w w1 : W) (data : Option ExpireData)
    (hs : e.storage = some s) (hread : s.Read key w = (.ok data, w1)) :
    refreshCount (e.Refresh tickerNow key w).calls = 1 ∧
      (e.Refresh tickerNow key w).calls.take 2 =
        [.read key, .refresh key (GetRefreshToken data)] ∧
      ∀ (v r : GoString) (expiresIn : Int) (w2 w3 : W),
        e.refresher key (GetRefreshToken data) w1 = (.ok (v, r, expiresIn), w2) →
        s.Store key { Value := v, RefreshToken := r,
                      ExpireAt := expireAt (tickerNow w1) expiresIn e.refreshBeforeExpire } w2 =
          (none, w3) →
        (e.Refresh tickerNow key w).result = .ok v := by
  have hget : e.Refresh tickerNow key w = e.refreshCycle s key data (tickerNow w1) w1 :=
    get_eq_refreshCycle tickerNow e s key true w w1 data hs hread (Or.inl rfl)
  rw [hget]
  refine ⟨refreshCycle_refreshCount _ _ _ _ _ _, refreshCycle_calls_take _ _ _ _ _ _, ?_⟩
  intro v r expiresIn w2 w3 hp hstore
  rw [refreshCycle_ok e s key data (tickerNow w1) w1 w2 w3 v r expiresIn hp hstore]

theorem Refresh_forces_refresh_witness :
    (memContainer answer3600).storage = some memExpire ∧
      memExpire.Read (asciiBytes "k") (worldWith 999 cred1000) =
        (.ok (some cred1000), worldWith 999 cred1000) ∧
      (worldWith 999 cred1000).clock < cred1000.ExpireAt ∧
      refreshCount ((memContainer answer3600).Refresh MemWorld.clock (asciiBytes "k")
        (worldWith 999 cred1000)).calls = 1 ∧
      ((memContainer answer3600).Refresh MemWorld.clock (asciiBytes "k")
        (worldWith 999 cred1000)).result = .ok (asciiBytes "v2") :=
  ⟨rfl, rfl, by decide,
    (Refresh_forces_refresh MemWorld.clock (memContainer answer3600) memExpire (asciiBytes "k")
      (worldWith 999 cred1000) (worldWith 999 cred1000) (some cred1000) rfl rfl).1,
    (Refresh_forces_refresh MemWorld.clock (memContainer answer3600) memExpire (asciiBytes "k")
      (worldWith 999 cred1000) (worldWith 999 cred1000) (some cred1000) rfl rfl).2.2
      (asciiBytes "v2") (asciiBytes "r2") 3600 (worldWith 999 cred1000) _ rfl rfl⟩

/-- On the in-memory storage, a run of `get` whose third call is a `Store` leaves the stored
credential at the head of the storage. -/
theorem memExpire_get_world_of_store (e : ExpireDataContainer MemWorld)
    (he : e.storage = some memExpire) (key : GoString) (refresh : Bool) (w : MemWorld)
    (c1 c2 : Call) (d : ExpireData)
    (h : (e.get MemWorld.clock key refresh w).calls = [c1, c2, .store key d]) :
    ∃ w2 : MemWorld, (e.get MemWorld.clock key refresh w).world =
      { w2 with expire := (key, d) :: w2.expire.filter (fun kv => kv.1 ≠ key) } := by
  have hread : memExpire.Read key w = (.ok (w.expire.lookup key), w) := rfl
  by_cases hc : refresh = true ∨ w.expire.lookup key = none ∨
      ∃ d', w.expire.lookup key = some d' ∧ w.clock > d'.ExpireAt
  · rw [get_eq_refreshCycle MemWorld.clock e memExpire key refresh w w _ he hread hc] at h ⊢
    unfold ExpireDataContainer.refreshCycle at h ⊢
    generalize e.refresher key (GetRefreshToken (w.expire.lookup key)) w = res at h ⊢
    obtain ⟨o, w2⟩ := res
    cases o with
    | panic => simp at h
    | err perr => simp at h
    | ok val =>
      obtain ⟨v', r', x'⟩ := val
      simp only [memExpire, List.cons.injEq, Call.store.injEq, true_and, and_true] at h ⊢
      obtain ⟨-, -, hd⟩ := h
      exact ⟨w2, by rw [hd]⟩
  · exfalso
    cases hd : w.expire.lookup key with
    | none => exact hc (Or.inr (Or.inl hd))
    | some d' =>
      rw [hd] at hread
      have hfresh : ¬ w.clock > d'.ExpireAt := fun hgt => hc (Or.inr (Or.inr ⟨d', hd, hgt⟩))
      have hfalse : refresh = false := by
        cases refresh with
        | false => rfl
        | true => exact absurd (Or.inl rfl) hc
      subst hfalse
      rw [get_hit MemWorld.clock e memExpire key w w d' he hread hfresh] at h
      simp at h

/-- C16: refresh-token carry-over on the in-memory storage, which returns what was
last stored: if a refresh cycle for key k obtained (v, r, _) from the provider,
the next refresh cycle for k (forced, or at a clock reading after the stored
ExpireAt) calls the provider with refreshToken = v when r is empty and with r
otherwise: what it returns is what the provider returns for that token in the
world the first cycle left.  With no stored credential the provider is called
with the empty string, and `GetRefreshToken(nil)` is "". -/
theorem refresh_token_carry_over (e : ExpireDataContainer MemWorld)
    (he : e.storage = some memExpire) (key v r : GoString) (x : Int)
    (refresh0 refresh1 : Bool) (w0 w2 : MemWorld) (t1 : Int)
    (hcond0 : refresh0 = true ∨ w0.expire.lookup key = none ∨
      ∃ d, w0.expire.lookup key = some d ∧ w0.clock > d.ExpireAt)
    (hp0 : e.refresher key (GetRefreshToken (w0.expire.lookup key)) w0 = (.ok (v, r, x), w2))
    (hcycle : refresh1 = true ∨ t1 > expireAt w0.clock x e.refreshBeforeExpire) :
    (e.get MemWorld.clock key refresh0 w0).result = .ok v ∧
      (e.get MemWorld.clock key refresh1
        ((e.get MemWorld.clock key refresh0 w0).world.atClock t1)).calls.take 2 =
        [.read key, .refresh key (if r = [] then v else r)] ∧
      (∀ (perr : Err) (w3 : MemWorld),
        e.refresher key (if r = [] then v else r)
          ((e.get MemWorld.clock key refresh0 w0).world.atClock t1) = (.err perr, w3) →
        (e.get MemWorld.clock key refresh1
          ((e.get MemWorld.clock key refresh0 w0).world.atClock t1)).result =
            .err (.wrap perr (containerMessage e.name)) ∧
        (e.get MemWorld.clock key refresh1
          ((e.get MemWorld.clock key refresh0 w0).world.atClock t1)).world = w3) ∧
      (∀ (v1 r1 : GoString) (x1 : Int) (w3 : MemWorld),
        e.refresher key (if r = [] then v else r)
          ((e.get MemWorld.clock key refresh0 w0).world.atClock t1) = (.ok (v1, r1, x1), w3) →
        (e.get MemWorld.clock key refresh1
          ((e.get MemWorld.clock key refresh0 w0).world.atClock t1)).result = .ok v1 ∧
        (e.get MemWorld.clock key refresh1
          ((e.get MemWorld.clock key refresh0 w0).world.atClock t1)).calls =
          [.read key, .refresh key (if r = [] then v else r),
            .store key { Value := v1, RefreshToken := r1,
                         ExpireAt := expireAt t1 x1 e.refreshBeforeExpire }]) ∧
      (∀ (w : MemWorld) (refresh : Bool), w.expire.lookup key = none →
        (e.get MemWorld.clock key refresh w).calls.take 2 = [.read key, .refresh key []] ∧
        (∀ (perr : Err) (w3 : MemWorld), e.refresher key [] w = (.err perr, w3) →
          (e.get MemWorld.clock key refresh w).result =
              .err (.wrap perr (containerMessage e.name)) ∧
          (e.get MemWorld.clock key refresh w).world = w3) ∧
        (∀ (v1 r1 : GoString) (x1 : Int) (w3 : MemWorld),
          e.refresher key [] w = (.ok (v1, r1, x1), w3) →
          (e.get MemWorld.clock key refresh w).result = .ok v1)) ∧
      GetRefreshToken none = [] := by
  have hread0 : memExpire.Read key w0 = (.ok (w0.expire.lookup key), w0) := rfl
  have hfirst : e.get MemWorld.clock key refresh0 w0 =
      { result := .ok v,
        world := (memExpire.Store key
          { Value := v, RefreshToken := r,
            ExpireAt := expireAt w0.clock x e.refreshBeforeExpire } w2).2,
        calls := [.read key, .refresh key (GetRefreshToken (w0.expire.lookup key)),
          .store key { Value := v, RefreshToken := r,
                       ExpireAt := expireAt w0.clock x e.refreshBeforeExpire }] } := by
    rw [get_eq_refreshCycle MemWorld.clock e memExpire key refresh0 w0 w0 _ he hread0 hcond0]
    exact refreshCycle_ok e memExpire key _ (MemWorld.clock w0) w0 w2 _ v r x hp0 rfl
  have htok : ∀ y : Int, GetRefreshToken (some { Value := v, RefreshToken := r, ExpireAt := y }) =
      if r = [] then v else r := by
    intro y
    by_cases hr : r = []
    · simp [GetRefreshToken, hr]
    · simp [GetRefreshToken, hr]
  have hread1 := memExpire_read_stored key
    { Value := v, RefreshToken := r, ExpireAt := expireAt w0.clock x e.refreshBeforeExpire } w2 t1
  have hsecond := get_eq_refreshCycle MemWorld.clock e memExpire key refresh1 _ _ _ he hread1
    (hcycle.elim Or.inl (fun h => Or.inr (Or.inr ⟨_, rfl, h⟩)))
  have h2 : e.get MemWorld.clock key refresh1
        ((e.get MemWorld.clock key refresh0 w0).world.atClock t1) =
      e.refreshCycle memExpire key
        (some (ExpireData.mk v r (expireAt w0.clock x e.refreshBeforeExpire))) t1
        ((e.get MemWorld.clock key refresh0 w0).world.atClock t1) := by
    rw [hfirst]
    exact hsecond
  have htok := htok (expireAt w0.clock x e.refreshBeforeExpire)
  have hnone : ∀ (w : MemWorld) (refresh : Bool), w.expire.lookup key = none →
      e.get MemWorld.clock key refresh w = e.refreshCycle memExpire key none w.clock w := by
    intro w refresh hnone
    have hread : memExpire.Read key w = (.ok none, w) := by
      show (Except.ok (w.expire.lookup key), w) = _
      rw [hnone]
    exact get_eq_refreshCycle MemWorld.clock e memExpire key refresh w w none he hread
      (Or.inr (Or.inl rfl))
  refine ⟨by rw [hfirst], ?_, ?_, ?_, ?_, rfl⟩
  · rw [h2, refreshCycle_calls_take, htok]
  · intro perr w3 hp
    rw [← htok] at hp
    rw [h2, refreshCycle_err e memExpire key _ t1 _ w3 perr hp]
    exact ⟨rfl, rfl⟩
  · intro v1 r1 x1 w3 hp
    rw [← htok] at hp
    rw [h2, refreshCycle_ok e memExpire key _ t1 _ w3 _ v1 r1 x1 hp rfl, htok]
    exact ⟨rfl, rfl⟩
  · intro w refresh hn
    rw [hnone w refresh hn]
    refine ⟨by rw [refreshCycle_calls_take]; rfl, ?_, ?_⟩
    · intro perr w3 hp
      rw [refreshCycle_err e memExpire key none w.clock w w3 perr hp]
      exact ⟨rfl, rfl⟩
    · intro v1 r1 x1 w3 hp
      rw [refreshCycle_ok e memExpire key none w.clock w w3 _ v1 r1 x1 hp rfl]

theorem refresh_token_carry_over_witness :
    echoContainer.storage = some memExpire ∧
      (echoContainer.get MemWorld.clock (asciiBytes "k") false (emptyWorld 0)).result =
        .ok (asciiBytes "+") ∧
      (echoContainer.get MemWorld.clock (asciiBytes "k") true
        ((echoContainer.get MemWorld.clock (asciiBytes "k") false
          (emptyWorld 0)).world.atClock 5)).result = .ok (asciiBytes "++") :=
  ⟨rfl,
    (refresh_token_carry_over echoContainer rfl (asciiBytes "k") (asciiBytes "+") [] 3600
      false true (emptyWorld 0) (emptyWorld 0) 5 (Or.inr (Or.inl rfl)) rfl (Or.inl rfl)).1,
    ((refresh_token_carry_over echoContainer rfl (asciiBytes "k") (asciiBytes "+") [] 3600
      false true (emptyWorld 0) (emptyWorld 0) 5 (Or.inr (Or.inl rfl)) rfl
      (Or.inl rfl)).2.2.2.1 (asciiBytes "++") [] 3600 _ rfl).1⟩

/-! ## The credentials of an application -/

/-- The name of the user-token container that `NewAppAccess` builds. -/
theorem NewAppAccess_userAccessToken_name {W : Type} (tickerNow : W → Int) (R : Remote W)
    (storage : Storage W) (appid : GoString) (secretProvider : AppSecretProvider W)
    (componentAccess : Option (ComponentAccess W)) :
    (NewAppAccess tickerNow R storage appid secretProvider componentAccess).UserAccessToken.name =
      if componentAccess.isSome = true then asciiBytes "openPlatformUserAccessToken"
      else asciiBytes "publicPlatformUserAccessToken" := by
  cases componentAccess <;> rfl

/-- C19: for every AppAccess built by `NewAppAccess`, with or without a parent
ComponentAccess, and every user key with no stored credential,
`UserAccessToken.Get(key)` returns the empty value and the error
`ErrUserNotAuthorized`, which arrives as every error of a refresh provider does:
wrapped with the message "expire data container [name]" of its store.  After the
`Read` it calls only its refresh provider (with the empty refresh token), which
returns at once: the world is left as `Read` left it, so that no remote call is
made (neither the parent access-token read nor a refresh-token request) and
nothing is stored. -/
theorem UserAccessToken_cold {W : Type} (tickerNow : W → Int) (R : Remote W)
    (storage : Storage W) (appid : GoString) (secretProvider : AppSecretProvider W)
    (componentAccess : Option (ComponentAccess W)) (s : ExpireDataStorage W) (key : GoString)
    (w w1 : W) (hs : storage.UserAccessToken = some s) (hread : s.Read key w = (.ok none, w1)) :
    ((NewAppAccess tickerNow R storage appid secretProvider componentAccess).UserAccessToken.Get
        tickerNow key w).result =
        .err (.wrap .userNotAuthorized (containerMessage
          (if componentAccess.isSome = true then asciiBytes "openPlatformUserAccessToken"
           else asciiBytes "publicPlatformUserAccessToken"))) ∧
      ((NewAppAccess tickerNow R storage appid secretProvider componentAccess).UserAccessToken.Get
        tickerNow key w).calls = [.read key, .refresh key []] ∧
      storeCount ((NewAppAccess tickerNow R storage appid secretProvider
        componentAccess).UserAccessToken.Get tickerNow key w).calls = 0 ∧
      ((NewAppAccess tickerNow R storage appid secretProvider componentAccess).UserAccessToken.Get
        tickerNow key w).world = w1 := by
  have hname := NewAppAccess_userAccessToken_name tickerNow R storage appid secretProvider
    componentAccess
  have hstorage : (NewAppAccess tickerNow R storage appid secretProvider
      componentAccess).UserAccessToken.storage = some s := by
    cases componentAccess <;> exact hs
  have hp : (NewAppAccess tickerNow R storage appid secretProvider
      componentAccess).UserAccessToken.refresher key (GetRefreshToken none) w1 =
      (.err .userNotAuthorized, w1) := by
    cases componentAccess <;> rfl
  have hget : (NewAppAccess tickerNow R storage appid secretProvider
      componentAccess).UserAccessToken.Get tickerNow key w = _ :=
    get_eq_refreshCycle tickerNow _ s key false w w1 none hstorage hread (Or.inr (Or.inl rfl))
  rw [hget, refreshCycle_err _ s key none (tickerNow w1) w1 w1 .userNotAuthorized hp, hname]
  exact ⟨rfl, rfl, rfl, rfl⟩

theorem UserAccessToken_cold_witness :
    memStorage.UserAccessToken = some memExpire ∧
      memExpire.Read (asciiBytes "user1") (emptyWorld 0) = (.ok none, emptyWorld 0) ∧
      (chainApp.UserAccessToken.Get MemWorld.clock (asciiBytes "user1") (emptyWorld 0)).result =
        .err (.wrap .userNotAuthorized
          (asciiBytes "expire data container [openPlatformUserAccessToken]")) ∧
      (chainApp.UserAccessToken.Get MemWorld.clock (asciiBytes "user1") (emptyWorld 0)).world =
        emptyWorld 0 :=
  ⟨rfl, rfl,
    (UserAccessToken_cold MemWorld.clock (stubRemote chainStubs) memStorage (asciiBytes "app1")
      (fixedSecret (asciiBytes "secret")) (some chainPlatform) memExpire (asciiBytes "user1")
      (emptyWorld 0) (emptyWorld 0) rfl rfl).1,
    (UserAccessToken_cold MemWorld.clock (stubRemote chainStubs) memStorage (asciiBytes "app1")
      (fixedSecret (asciiBytes "secret")) (some chainPlatform) memExpire (asciiBytes "user1")
      (emptyWorld 0) (emptyWorld 0) rfl rfl).2.2.2⟩

/-- The first `Get` of the delegated chain, on a storage with no credential. -/
theorem chain_first_get (t0 : Int) (tickets : List (GoString × GoString)) :
    chainApp.AppAccessToken.Get MemWorld.clock (asciiBytes "app1") (chainStart t0 tickets) =
      { result := .ok (asciiBytes "APP_TOK"), world := chainAfter t0 tickets,
        calls := [.read (asciiBytes "app1"), .refresh (asciiBytes "app1") [],
          .store (asciiBytes "app1")
            { Value := asciiBytes "APP_TOK", RefreshToken := asciiBytes "R2",
              ExpireAt := t0 + 6000 * second }] } := by
  rfl

/-- C20: delegated chain on the in-memory storage with the stubs of `chainStubs`:
starting with no credential stored, `AppAccessToken.Get("app1")` returns
"APP_TOK" after three requests, the last one the refresh stub with refresh token
"R1" and platform token "PLAT_TOK"; a second `Get` at a clock reading before the
effective expiry t0 + 7200 s - 20 min returns "APP_TOK" after the `Read` alone,
with no further request. -/
theorem delegated_chain (t0 t1 : Int) (tickets : List (GoString × GoString))
    (hbefore : t1 < t0 + 6000 * second) :
    (chainApp.AppAccessToken.Get MemWorld.clock (asciiBytes "app1")
        (chainStart t0 tickets)).result = .ok (asciiBytes "APP_TOK") ∧
      (chainApp.AppAccessToken.Get MemWorld.clock (asciiBytes "app1")
        (chainStart t0 tickets)).world.remote =
        [.getComponentAccessToken (asciiBytes "plat1") (asciiBytes "secret")
           ((tickets.lookup (asciiBytes "plat1")).getD []),
         .getAuthorizerInfo (asciiBytes "plat1") (asciiBytes "app1") (asciiBytes "PLAT_TOK"),
         .refreshAuthorizerToken (asciiBytes "plat1") (asciiBytes "app1") (asciiBytes "R1")
           (asciiBytes "PLAT_TOK")] ∧
      (chainApp.AppAccessToken.Get MemWorld.clock (asciiBytes "app1")
        ((chainApp.AppAccessToken.Get MemWorld.clock (asciiBytes "app1")
          (chainStart t0 tickets)).world.atClock t1)).result = .ok (asciiBytes "APP_TOK") ∧
      (chainApp.AppAccessToken.Get MemWorld.clock (asciiBytes "app1")
        ((chainApp.AppAccessToken.Get MemWorld.clock (asciiBytes "app1")
          (chainStart t0 tickets)).world.atClock t1)).calls = [.read (asciiBytes "app1")] ∧
      (chainApp.AppAccessToken.Get MemWorld.clock (asciiBytes "app1")
        ((chainApp.AppAccessToken.Get MemWorld.clock (asciiBytes "app1")
          (chainStart t0 tickets)).world.atClock t1)).world.remote =
        (chainApp.AppAccessToken.Get MemWorld.clock (asciiBytes "app1")
          (chainStart t0 tickets)).world.remote := by
  rw [chain_first_get t0 tickets]
  have hread : memExpire.Read (asciiBytes "app1") ((chainAfter t0 tickets).atClock t1) =
      (.ok (some { Value := asciiBytes "APP_TOK", RefreshToken := asciiBytes "R2",
                   ExpireAt := t0 + 6000 * second }),
        (chainAfter t0 tickets).atClock t1) := rfl
  have hhit := get_hit MemWorld.clock chainApp.AppAccessToken memExpire (asciiBytes "app1")
    ((chainAfter t0 tickets).atClock t1) ((chainAfter t0 tickets).atClock t1) _ rfl hread
    (by show ¬ (t1 > t0 + 6000 * second); omega)
  refine ⟨rfl, rfl, ?_, ?_, ?_⟩
  · show (ExpireDataContainer.get _ _ _ false _).result = _
    rw [hhit]
  · show (ExpireDataContainer.get _ _ _ false _).calls = _
    rw [hhit]
  · show (GetOut.world (ExpireDataContainer.get MemWorld.clock _ _ false _)).remote = _
    rw [hhit]
    rfl

theorem delegated_chain_witness :
    (100 : Int) < 0 + 6000 * second ∧
      (chainApp.AppAccessToken.Get MemWorld.clock (asciiBytes "app1")
        (chainStart 0 [(asciiBytes "plat1", asciiBytes "TICKET")])).result =
          .ok (asciiBytes "APP_TOK") ∧
      (chainApp.AppAccessToken.Get MemWorld.clock (asciiBytes "app1")
        ((chainApp.AppAccessToken.Get MemWorld.clock (asciiBytes "app1")
          (chainStart 0 [(asciiBytes "plat1", asciiBytes "TICKET")])).world.atClock 100)).calls =
        [.read (asciiBytes "app1")] :=
  ⟨by decide,
    (delegated_chain 0 100 [(asciiBytes "plat1", asciiBytes "TICKET")] (by decide)).1,
    (delegated_chain 0 100 [(asciiBytes "plat1", asciiBytes "TICKET")] (by decide)).2.2.2.1⟩

/-! ## The length field, the padding round trip and malformed payloads -/

theorem getNetworkBytesOrder_mod (n : Nat) :
    getNetworkBytesOrder n = getNetworkBytesOrder (n % 2 ^ 32) := by
  simp only [getNetworkBytesOrder, Nat.shiftRight_eq_div_pow, List.cons.injEq, and_true]
  refine ⟨?_, ?_, ?_, ?_⟩ <;>
  · apply Fin.ext
    simp only [toByte_val]
    omega

/-- C28: for every n with 0 ≤ n < 2^32, `getNetworkBytesOrder(n)` is the 4-byte
big-endian encoding of n and `recoverNetworkBytesOrder` gives n back; for
n ≥ 2^32 the encoding is that of n mod 2^32, it does not read back as n, and
the length field that `Encrypt` writes for a plaintext of such a length does not
denote the plaintext length. -/
theorem getNetworkBytesOrder_big_endian (n : Nat) :
    (getNetworkBytesOrder n).length = 4 ∧
      (n < 2 ^ 32 → bigEndianValue (getNetworkBytesOrder n) = n ∧
        recoverNetworkBytesOrder (getNetworkBytesOrder n) = some n) ∧
      (2 ^ 32 ≤ n → getNetworkBytesOrder n = getNetworkBytesOrder (n % 2 ^ 32) ∧
        bigEndianValue (getNetworkBytesOrder n) = n % 2 ^ 32 ∧
        recoverNetworkBytesOrder (getNetworkBytesOrder n) = some (n % 2 ^ 32) ∧
        recoverNetworkBytesOrder (getNetworkBytesOrder n) ≠ some n) ∧
      (∀ (mc : WXBizMsgCrypt) (r : GoString) (t : List Byte), t.length = n → 2 ^ 32 ≤ n →
        ((unencrypted mc r t).drop r.length).take 4 = getNetworkBytesOrder n ∧
        bigEndianValue (((unencrypted mc r t).drop r.length).take 4) ≠ t.length) := by
  have hlt : n % 2 ^ 32 < 2 ^ 32 := Nat.mod_lt _ (by decide)
  refine ⟨rfl, fun h => ?_, fun h => ?_, fun mc r t ht h => ?_⟩
  · rw [bigEndianValue_getNetworkBytesOrder, recover_getNetworkBytesOrder, Nat.mod_eq_of_lt h]
    exact ⟨rfl, rfl⟩
  · refine ⟨getNetworkBytesOrder_mod n, bigEndianValue_getNetworkBytesOrder n,
      recover_getNetworkBytesOrder n, ?_⟩
    rw [recover_getNetworkBytesOrder]
    intro heq
    have := Option.some.inj heq
    omega
  · have hfield : ((unencrypted mc r t).drop r.length).take 4 = getNetworkBytesOrder n := by
      rw [unencrypted_eq, ht]
      simp only [List.append_assoc]
      rw [List.drop_left' rfl, List.take_left' (getNetworkBytesOrder_length n)]
    rw [hfield, bigEndianValue_getNetworkBytesOrder, ht]
    exact ⟨rfl, by omega⟩

/-- C29: padding round trip: for every byte sequence b, the empty one and those
whose last byte lies in [1, 32] included, `pkcs7Decode(b ++ pkcs7Encode(len(b)))`
returns b. -/
theorem pkcs7_roundtrip (b : List Byte) :
    pkcs7Decode (b ++ pkcs7Encode b.length) = some b ∧
      pkcs7Decode (([] : List Byte) ++ pkcs7Encode (([] : List Byte).length)) = some [] ∧
      (∀ x : Byte, 1 ≤ x.val → x.val ≤ 32 →
        pkcs7Decode ((b ++ [x]) ++ pkcs7Encode (b ++ [x]).length) = some (b ++ [x])) :=
  ⟨pkcs7Decode_append_pkcs7Encode b, pkcs7Decode_append_pkcs7Encode [],
    fun x _ _ => pkcs7Decode_append_pkcs7Encode (b ++ [x])⟩

/-- C26 fails on the code: with a key of a valid size `Decrypt` panics, instead of
returning a plaintext or an error, when the decoded input is not a whole number
of 16-byte blocks (`CryptBlocks`), when it is empty (`decrypted[len-1]`), when
the last byte exceeds the decrypted length (`decrypted[:len-pad]`), and when
fewer than 20 bytes were decrypted (`dst[16:20]`). -/
theorem Decrypt_panics_on_malformed_input (P : Primitives) (mc : WXBizMsgCrypt)
    (hk : aesKeySizeOk mc.aesKey.length) (text : GoString) :
    ((P.b64Decode text).length % 16 ≠ 0 → Decrypt P mc text = .panic) ∧
      (P.b64Decode text = [] → P.cbcDecrypt mc.aesKey (mc.aesKey.take 16) [] = [] →
        Decrypt P mc text = .panic) ∧
      ((P.b64Decode text).length % 16 = 0 →
        pkcs7Decode (P.cbcDecrypt mc.aesKey (mc.aesKey.take 16) (P.b64Decode text)) = none →
        Decrypt P mc text = .panic) ∧
      ((P.b64Decode text).length % 16 = 0 →
        (P.cbcDecrypt mc.aesKey (mc.aesKey.take 16) (P.b64Decode text)).length < 20 →
        Decrypt P mc text = .panic) := by
  refine ⟨fun h => ?_, fun h0 hc => ?_, fun h16 hd => ?_, fun h16 hlen => ?_⟩
  · simp only [Decrypt, if_pos hk, if_pos h]
  · have h16 : ¬ ((([] : List Byte)).length % 16 ≠ 0) := by decide
    have hd : pkcs7Decode ([] : List Byte) = none := rfl
    simp only [Decrypt, if_pos hk, h0, if_neg h16, hc, hd]
  · have h16' : ¬ ((P.b64Decode text).length % 16 ≠ 0) := fun h => h h16
    simp only [Decrypt, if_pos hk, if_neg h16', hd]
  · have h16' : ¬ ((P.b64Decode text).length % 16 ≠ 0) := fun h => h h16
    simp only [Decrypt, if_pos hk, if_neg h16']
    cases hdec : pkcs7Decode (P.cbcDecrypt mc.aesKey (mc.aesKey.take 16) (P.b64Decode text)) with
    | none => rfl
    | some dst => simp only [if_pos hlen]

theorem Decrypt_panics_on_malformed_input_witness :
    aesKeySizeOk mcA.aesKey.length ∧ toy.b64Decode [] = [] ∧
      toy.cbcDecrypt mcA.aesKey (mcA.aesKey.take 16) [] = [] ∧ Decrypt toy mcA [] = .panic :=
  ⟨key32_ok, rfl, rfl,
    (Decrypt_panics_on_malformed_input toy mcA key32_ok []).2.1 rfl rfl⟩

/-! ## SignSchema -/

theorem joinWith_append_singleton (sep : GoString) (x : GoString) :
    ∀ ps : List GoString, ps ≠ [] → joinWith sep (ps ++ [x]) = joinWith sep ps ++ sep ++ x
  | [], h => absurd rfl h
  | [y], _ => by simp [joinWith]
  | y :: z :: rest, _ => by
    have ih := joinWith_append_singleton sep x (z :: rest) (by simp)
    show y ++ sep ++ joinWith sep ((z :: rest) ++ [x]) =
      y ++ sep ++ joinWith sep (z :: rest) ++ sep ++ x
    rw [ih]
    simp only [List.append_assoc]

theorem flatten_map_append_sep (sep : GoString) :
    ∀ ps : List GoString, ps ≠ [] → (ps.map (· ++ sep)).flatten = joinWith sep ps ++ sep
  | [], h => absurd rfl h
  | [y], _ => by simp [joinWith]
  | y :: z :: rest, _ => by
    have ih := flatten_map_append_sep sep (z :: rest) (by simp)
    show (y ++ sep) ++ ((z :: rest).map (· ++ sep)).flatten =
      y ++ sep ++ joinWith sep (z :: rest) ++ sep
    rw [ih]
    simp only [List.append_assoc]

/-- Appending the separator to every pair and then the last pair is joining all of them. -/
theorem flatten_map_append_last (sep x : GoString) (ps : List GoString) :
    (ps.map (· ++ sep)).flatten ++ x = joinWith sep (ps ++ [x]) := by
  by_cases h : ps = []
  · subst h
    rfl
  · rw [flatten_map_append_sep sep ps h, joinWith_append_singleton sep x ps h]

/-- Appending the separator to every pair and trimming it once at the end is joining them. -/
theorem trimSuffix_flatten_map (sep : GoString) (hsep : sep ≠ []) (ps : List GoString) :
    trimSuffix ((ps.map (· ++ sep)).flatten) sep = joinWith sep ps := by
  by_cases h : ps = []
  · subst h
    have hns : ¬ (sep <:+ ([] : GoString)) := by
      intro hs
      exact hsep (List.suffix_nil.1 hs)
    simp only [trimSuffix, List.map_nil, List.flatten_nil, if_neg hns, joinWith]
  · rw [flatten_map_append_sep sep ps h]
    have hs : sep <:+ joinWith sep ps ++ sep := List.suffix_append _ _
    simp only [trimSuffix, if_pos hs, List.length_append, Nat.add_sub_cancel]
    exact List.take_left' rfl

theorem upperByte_hexDigit : ∀ n : Fin 16,
    upperByte (hexDigit n.val) = (asciiBytes "0123456789ABCDEF").getD n.val 0 := by
  decide

theorem toUpperASCII_hexLower (bs : List Byte) : toUpperASCII (hexLower bs) = hexUpper bs := by
  induction bs with
  | nil => rfl
  | cons b bs ih =>
    have hhi := upperByte_hexDigit ⟨b.val / 16, by omega⟩
    have hlo := upperByte_hexDigit ⟨b.val % 16, by omega⟩
    simp only at hhi hlo
    have hcons : hexUpper (b :: bs) =
        (asciiBytes "0123456789ABCDEF").getD (b.val / 16) 0 ::
          (asciiBytes "0123456789ABCDEF").getD (b.val % 16) 0 :: hexUpper bs := by
      simp [hexUpper]
    rw [hexLower_cons, hcons, ← ih, ← hhi, ← hlo]
    rfl

/-- C25, as stated, fails: for the schema with a = "0" and b = "1" and an empty
key, `SignSchema` hashes "b=1": the field a, whose value "0" is not empty, is
skipped, so that the hashed string is not that of the fields with a non-empty
value, "a=0&b=1". -/
theorem SignSchema_skips_zero :
    signString [(asciiBytes "a", [asciiBytes "0"]), (asciiBytes "b", [asciiBytes "1"])] [] =
        asciiBytes "b=1" ∧
      specSignString (fun v => decide (v ≠ []))
        [(asciiBytes "a", [asciiBytes "0"]), (asciiBytes "b", [asciiBytes "1"])] [] =
        asciiBytes "a=0&b=1" ∧
      SignSchema id (.ok [(asciiBytes "a", [asciiBytes "0"]), (asciiBytes "b", [asciiBytes "1"])])
        [] = .ok (hexUpper (asciiBytes "b=1")) ∧
      hexUpper (asciiBytes "b=1") ≠ hexUpper (asciiBytes "a=0&b=1") := by
  decide

/-- C25, amended: for every schema (viewed as its url-tagged field-to-values map)
and key, `SignSchema` hashes the string made of the pairs name=value for exactly
the fields whose first value is neither empty nor "0", in ascending field-name
order, joined by '&', with 'key=' + key joined on as a last pair when key is
non-empty and with no trailing '&' when key is empty, and returns the upper-case
hex of the digest; an error of `query.Values` is returned as it is. -/
theorem SignSchema_refines (digest : List Byte → List Byte) (vs : UrlValues) (key : GoString) :
    signString vs key =
        specSignString (fun v => decide (v ≠ [] ∧ v ≠ asciiBytes "0")) vs key ∧
      SignSchema digest (.ok vs) key = .ok (hexUpper (digest (signString vs key))) ∧
      (∀ e, SignSchema digest (.error e) key = .err e) := by
  refine ⟨?_, ?_, fun e => rfl⟩
  · have hsep : asciiBytes "&" ≠ [] := by decide
    have hmap : ∀ keys : List GoString,
        keys.map (fun k => k ++ asciiBytes "=" ++ firstValue vs k ++ asciiBytes "&") =
          (keys.map (fun k => k ++ asciiBytes "=" ++ firstValue vs k)).map
            (· ++ asciiBytes "&") := by
      intro keys
      rw [List.map_map]
      rfl
    unfold signString specSignString schemaKeys
    simp only [hmap]
    by_cases hkey : key = []
    · have hk : ¬ (key ≠ []) := fun h => h hkey
      simp only [if_neg hk, List.append_nil]
      exact trimSuffix_flatten_map _ hsep _
    · simp only [if_pos hkey]
      exact flatten_map_append_last _ _ _
  · simp only [SignSchema, toUpperASCII_hexLower]

/-! ## splitStrs -/

/-- One round of the loop of `splitStrs` with a positive limit, below the end of the list. -/
theorem splitStrsLoop_succ {W : Type} (walk : List GoString → W → Option Err × W)
    (strs : List GoString) (limit : Int) (hl : 0 < limit) (fuel : Nat) (offset : Int) (w : W)
    (h0 : 0 ≤ offset) (hlt : offset < (strs.length : Int)) :
    splitStrsLoop walk strs limit (fuel + 1) offset w =
      match walk ((strs.drop offset.toNat).take
          (min limit ((strs.length : Int) - offset)).toNat) w with
      | (some err, w1) =>
        some { result := .err err, world := w1,
               walked := [(strs.drop offset.toNat).take
                 (min limit ((strs.length : Int) - offset)).toNat] }
      | (none, w1) =>
        match splitStrsLoop walk strs limit fuel (offset + limit) w1 with
        | none => none
        | some out =>
          some { out with walked := ((strs.drop offset.toNat).take
                   (min limit ((strs.length : Int) - offset)).toNat :: out.walked) } := by
  have hend : (if offset + limit > (strs.length : Int) then (strs.length : Int)
      else offset + limit) - offset = min limit ((strs.length : Int) - offset) := by
    by_cases hc : offset + limit > (strs.length : Int)
    · rw [if_pos hc]; omega
    · rw [if_neg hc]; omega
  have hnp : ¬ (offset < 0 ∨ (if offset + limit > (strs.length : Int) then (strs.length : Int)
      else offset + limit) < offset) := by
    by_cases hc : offset + limit > (strs.length : Int)
    · rw [if_pos hc]; omega
    · rw [if_neg hc]; omega
  simp only [splitStrsLoop, if_pos hlt, if_neg hnp, hend]

/-- The loop of `splitStrs` at or past the end of the list. -/
theorem splitStrsLoop_done {W : Type} (walk : List GoString → W → Option Err × W)
    (strs : List GoString) (limit : Int) (fuel : Nat) (offset : Int) (w : W)
    (hge : ¬ offset < (strs.length : Int)) :
    splitStrsLoop walk strs limit (fuel + 1) offset w =
      some { result := .ok (), world := w, walked := [] } := by
  simp only [splitStrsLoop, if_neg hge]

/-- What the loop of `splitStrs` does from an offset, for a positive limit and enough fuel. -/
theorem splitStrsLoop_spec {W : Type} (walk : List GoString → W → Option Err × W)
    (strs : List GoString) (limit : Int) (hl : 0 < limit) :
    ∀ (fuel : Nat) (offset : Int) (w : W), 0 ≤ offset → 0 < fuel →
      (strs.length : Int) - offset < fuel →
      ∃ out, splitStrsLoop walk strs limit fuel offset w = some out ∧
        out.result ≠ .panic ∧
        (∃ rest, out.walked.flatten ++ rest = strs.drop offset.toNat ∧
          (out.result = .ok () → rest = [])) ∧
        (∀ c ∈ out.walked, 0 < c.length ∧ (c.length : Int) ≤ limit) ∧
        (∀ c ∈ out.walked.dropLast, (c.length : Int) = limit) ∧
        (out.walked ≠ [] → offset < (strs.length : Int)) ∧
        (∀ e, out.result = .err e →
          ∃ init last wb, out.walked = init ++ [last] ∧ walk last wb = (some e, out.world)) ∧
        ((∀ subs w', (walk subs w').1 = none) → out.result = .ok ()) := by
  intro fuel
  induction fuel with
  | zero => intro offset w _ hf; exact absurd hf (by decide)
  | succ fuel ih =>
    intro offset w h0 _ hfuel
    by_cases hlt : offset < (strs.length : Int)
    · -- one round
      rw [splitStrsLoop_succ walk strs limit hl fuel offset w h0 hlt]
      have hdlen : (strs.drop offset.toNat).length = strs.length - offset.toNat :=
        List.length_drop _ _
      have hsubs : ((strs.drop offset.toNat).take
          (min limit ((strs.length : Int) - offset)).toNat).length =
          (min limit ((strs.length : Int) - offset)).toNat := by
        rw [List.length_take, hdlen]
        omega
      generalize hS : (strs.drop offset.toNat).take
        (min limit ((strs.length : Int) - offset)).toNat = subs at hsubs ⊢
      have hsplit : strs.drop offset.toNat = subs ++ strs.drop (offset + limit).toNat := by
        have h1 := (List.take_append_drop (min limit ((strs.length : Int) - offset)).toNat
          (strs.drop offset.toNat)).symm
        rw [hS, List.drop_drop] at h1
        by_cases hc : offset + limit ≤ (strs.length : Int)
        · have he : offset.toNat + (min limit ((strs.length : Int) - offset)).toNat =
              (offset + limit).toNat := by omega
          rw [he] at h1
          exact h1
        · have hnil1 : strs.drop (offset.toNat +
              (min limit ((strs.length : Int) - offset)).toNat) = [] :=
            List.drop_eq_nil_of_le (by omega)
          have hnil2 : strs.drop (offset + limit).toNat = [] :=
            List.drop_eq_nil_of_le (by omega)
          rw [hnil1] at h1
          rw [hnil2]
          exact h1
      rcases hwalk : walk subs w with ⟨o, w1⟩
      cases o with
      | some e =>
        refine ⟨_, rfl, by simp, ⟨strs.drop (offset + limit).toNat, ?_, by simp⟩, ?_, by simp,
          fun _ => hlt, ?_, ?_⟩
        · simp only [List.flatten_cons, List.flatten_nil, List.append_nil]
          exact hsplit.symm
        · intro c hc
          rw [List.mem_singleton] at hc
          subst hc
          omega
        · intro e' he'
          have : e' = e := by
            simp only [Outcome.err.injEq] at he'
            exact he'.symm
          subst this
          exact ⟨[], subs, w, rfl, hwalk⟩
        · intro hnever
          have := hnever subs w
          rw [hwalk] at this
          simp at this
      | none =>
        have hfuel0 : 0 < fuel := by omega
        obtain ⟨out, hout, hnp, ⟨rest, hrest, hok⟩, hlen, hdl, hne, herr, hnever⟩ :=
          ih (offset + limit) w1 (by omega) hfuel0 (by omega)
        simp only [hout]
        refine ⟨{ out with walked := subs :: out.walked }, rfl, hnp, ⟨rest, ?_, hok⟩, ?_, ?_,
          fun _ => hlt, ?_, hnever⟩
        · show (subs :: out.walked).flatten ++ rest = _
          rw [List.flatten_cons, List.append_assoc, hrest, hsplit]
        · intro c hc
          show 0 < c.length ∧ (c.length : Int) ≤ limit
          have hc' : c ∈ subs :: out.walked := hc
          rcases List.mem_cons.1 hc' with h | h
          · subst h
            omega
          · exact hlen c h
        · intro c hc
          have hc' : c ∈ (subs :: out.walked).dropLast := hc
          by_cases hwn : out.walked = []
          · rw [hwn] at hc'
            simp at hc'
          · rw [List.dropLast_cons_of_ne_nil hwn] at hc'
            rcases List.mem_cons.1 hc' with h | h
            · subst h
              have := hne hwn
              omega
            · exact hdl c h
        · intro e he
          obtain ⟨init, last, wb, hw, hwalk'⟩ := herr e he
          refine ⟨subs :: init, last, wb, ?_, hwalk'⟩
          show subs :: out.walked = subs :: init ++ [last]
          rw [hw]
          rfl
    · rw [splitStrsLoop_done walk strs limit fuel offset w hlt]
      refine ⟨_, rfl, by simp, ⟨strs.drop offset.toNat, rfl, fun _ => ?_⟩, by simp, by simp,
        by simp, by simp, fun _ => rfl⟩
      exact List.drop_eq_nil_of_le (by omega)

theorem chunksOf_nil (n k : Nat) : chunksOf n k [] = [] := by
  cases k <;> rfl

/-- The chunks do not depend on the bound, once it is at least the length of the list. -/
theorem chunksOf_fuel (n : Nat) (hn : 0 < n) :
    ∀ (k k' : Nat) (l : List GoString), l.length ≤ k → l.length ≤ k' →
      chunksOf n k l = chunksOf n k' l
  | 0, k', l, h, _ => by
    have hl : l = [] := List.length_eq_zero.1 (Nat.le_zero.1 h)
    rw [hl, chunksOf_nil, chunksOf_nil]
  | k + 1, 0, l, _, h' => by
    have hl : l = [] := List.length_eq_zero.1 (Nat.le_zero.1 h')
    rw [hl, chunksOf_nil, chunksOf_nil]
  | k + 1, k' + 1, l, h, h' => by
    by_cases hl : l = []
    · rw [hl, chunksOf_nil, chunksOf_nil]
    · have hpos : 0 < l.length := List.length_pos.2 hl
      have hd : (l.drop n).length = l.length - n := List.length_drop _ _
      simp only [chunksOf, if_neg hl]
      rw [chunksOf_fuel n hn k k' (l.drop n) (by omega) (by omega)]

/-- The loop of `splitStrs` from an offset is the walk of the specification over the chunks
of what is left of the list. -/
theorem splitStrsLoop_eq_walkChunks {W : Type} (walk : List GoString → W → Option Err × W)
    (strs : List GoString) (limit : Int) (hl : 0 < limit) :
    ∀ (fuel : Nat) (offset : Int) (w : W), 0 ≤ offset → 0 < fuel →
      (strs.length : Int) - offset < fuel →
      splitStrsLoop walk strs limit fuel offset w =
        some (walkChunks walk (chunks limit.toNat (strs.drop offset.toNat)) w) := by
  intro fuel
  induction fuel with
  | zero => intro offset w _ hf; exact absurd hf (by decide)
  | succ fuel ih =>
    intro offset w h0 _ hfuel
    by_cases hlt : offset < (strs.length : Int)
    · rw [splitStrsLoop_succ walk strs limit hl fuel offset w h0 hlt]
      have hdlen : (strs.drop offset.toNat).length = strs.length - offset.toNat :=
        List.length_drop _ _
      have hne : strs.drop offset.toNat ≠ [] := by
        intro h
        rw [h] at hdlen
        simp only [List.length_nil] at hdlen
        omega
      have htake : (strs.drop offset.toNat).take (min limit ((strs.length : Int) - offset)).toNat =
          (strs.drop offset.toNat).take limit.toNat := by
        by_cases hc : limit ≤ (strs.length : Int) - offset
        · rw [min_eq_left hc]
        · have h1 : (min limit ((strs.length : Int) - offset)).toNat =
              (strs.drop offset.toNat).length := by omega
          rw [h1, List.take_length]
          exact (List.take_of_length_le (by omega)).symm
      have hdrop : (strs.drop offset.toNat).drop limit.toNat =
          strs.drop (offset + limit).toNat := by
        rw [List.drop_drop]
        congr 1
        omega
      obtain ⟨m, hm⟩ : ∃ m, (strs.drop offset.toNat).length = m + 1 :=
        ⟨(strs.drop offset.toNat).length - 1, by
          have := List.length_pos.2 hne
          omega⟩
      have hchunks : chunks limit.toNat (strs.drop offset.toNat) =
          (strs.drop offset.toNat).take limit.toNat ::
            chunks limit.toNat (strs.drop (offset + limit).toNat) := by
        unfold chunks
        rw [hm]
        simp only [chunksOf, if_neg hne]
        rw [hdrop]
        have hd2 : (strs.drop (offset + limit).toNat).length ≤ m := by
          rw [← hdrop, List.length_drop]
          omega
        rw [chunksOf_fuel limit.toNat (by omega) m _ _ hd2 (le_refl _)]
      rw [hchunks, htake]
      rcases hwalk : walk ((strs.drop offset.toNat).take limit.toNat) w with ⟨o, w1⟩
      cases o with
      | some e => simp only [walkChunks, hwalk]
      | none =>
        have hfuel0 : 0 < fuel := by omega
        have hih := ih (offset + limit) w1 (by omega) hfuel0 (by omega)
        simp only [hih, walkChunks, hwalk]
    · rw [splitStrsLoop_done walk strs limit fuel offset w hlt]
      have hnil : strs.drop offset.toNat = [] := List.drop_eq_nil_of_le (by omega)
      rw [hnil]
      rfl

/-- A walk that succeeds on the chunks `pre` and fails on the next chunk returns that error
and has walked `pre` and that chunk, whatever chunks follow. -/
theorem walkChunks_fail {W : Type} (walk : List GoString → W → Option Err × W)
    (c : List GoString) (post : List (List GoString)) (e : Err) (w1 : W) :
    ∀ (pre : List (List GoString)) (w : W), (walkChunks walk pre w).result = .ok () →
      walk c (walkChunks walk pre w).world = (some e, w1) →
      walkChunks walk (pre ++ c :: post) w =
        { result := .err e, world := w1, walked := pre ++ [c] }
  | [], w, _, hc => by
    have hc' : walk c w = (some e, w1) := hc
    simp only [List.nil_append, walkChunks, hc']
  | p :: ps, w, hok, hc => by
    rcases hp : walk p w with ⟨o, w'⟩
    cases o with
    | some err =>
      simp only [walkChunks, hp] at hok
      cases hok
    | none =>
      simp only [walkChunks, hp] at hok hc
      have ih := walkChunks_fail walk c post e w1 ps w' hok hc
      show walkChunks walk (p :: (ps ++ c :: post)) w = _
      simp only [walkChunks, hp, ih]
      rfl

/-- The chunks of a list, in order, make up the list. -/
theorem chunksOf_flatten (n : Nat) (hn : 0 < n) :
    ∀ (k : Nat) (l : List GoString), l.length ≤ k → (chunksOf n k l).flatten = l
  | 0, l, h => by
    have hl : l = [] := List.length_eq_zero.1 (Nat.le_zero.1 h)
    rw [hl]
    rfl
  | k + 1, l, h => by
    by_cases hl : l = []
    · rw [hl, chunksOf_nil]
      rfl
    · have hpos : 0 < l.length := List.length_pos.2 hl
      have hd : (l.drop n).length = l.length - n := List.length_drop _ _
      simp only [chunksOf, if_neg hl, List.flatten_cons]
      rw [chunksOf_flatten n hn k (l.drop n) (by omega)]
      exact List.take_append_drop n l

/-- C30: for every list strs and every limit > 0, `splitStrs` terminates (any bound
above len(strs) on the number of rounds is enough) without a panic; the slices
it passes to `walk` are consecutive non-empty chunks of strs, each of length at
most limit and all but the last of length exactly limit; when `walk` never
fails, or whenever nil is returned, their concatenation in call order is strs
(no call for an empty list); when an error is returned, it is the error of
`walk` on the last chunk passed.  The run is the walk of the specification over
the chunks of strs: when `walk` succeeds on the chunks before a chunk and fails
on that chunk, `splitStrs` returns that error and has called `walk` on these
chunks and on no later one.  With limit = 100 no chunk has more than the 100
ids that `GetSubscribersInfo` rejects. -/
theorem splitStrs_chunks {W : Type} (walk : List GoString → W → Option Err × W)
    (strs : List GoString) (limit : Int) (hl : 0 < limit) (fuel : Nat)
    (hfuel : strs.length < fuel) (w : W) :
    ∃ out, splitStrs fuel strs limit walk w = some out ∧
      out.result ≠ .panic ∧
      out.walked.flatten <+: strs ∧
      (∀ c ∈ out.walked, 0 < c.length ∧ (c.length : Int) ≤ limit) ∧
      (∀ c ∈ out.walked.dropLast, (c.length : Int) = limit) ∧
      ((∀ subs w', (walk subs w').1 = none) →
        out.result = .ok () ∧ out.walked.flatten = strs) ∧
      (out.result = .ok () → out.walked.flatten = strs) ∧
      (strs = [] → out.walked = []) ∧
      (∀ e, out.result = .err e →
        ∃ init last wb, out.walked = init ++ [last] ∧ walk last wb = (some e, out.world)) ∧
      (limit = 100 → ∀ c ∈ out.walked, ¬ exceedsBatchLimit c) ∧
      out = walkChunks walk (chunks limit.toNat strs) w ∧
      (chunks limit.toNat strs).flatten = strs ∧
      (∀ (pre : List (List GoString)) (c : List GoString) (post : List (List GoString))
          (e : Err) (w1 : W),
        chunks limit.toNat strs = pre ++ c :: post →
        (walkChunks walk pre w).result = .ok () →
        walk c (walkChunks walk pre w).world = (some e, w1) →
        out.result = .err e ∧ out.world = w1 ∧ out.walked = pre ++ [c]) := by
  obtain ⟨out, hout, hnp, ⟨rest, hrest, hok⟩, hlen, hdl, hne, herr, hnever⟩ :=
    splitStrsLoop_spec walk strs limit hl fuel 0 w (le_refl 0) (by omega) (by omega)
  have hdrop : strs.drop (0 : Int).toNat = strs := rfl
  rw [hdrop] at hrest
  have hcomplete : out.result = .ok () → out.walked.flatten = strs := by
    intro h
    have hr := hok h
    rw [hr, List.append_nil] at hrest
    exact hrest
  have hrun : out = walkChunks walk (chunks limit.toNat strs) w := by
    have h := splitStrsLoop_eq_walkChunks walk strs limit hl fuel 0 w (le_refl 0) (by omega)
      (by omega)
    rw [hdrop] at h
    have h2 : some out = some (walkChunks walk (chunks limit.toNat strs) w) := by
      rw [← hout, ← h]
    exact Option.some.inj h2
  refine ⟨out, hout, hnp, ⟨rest, hrest⟩, hlen, hdl, fun h => ⟨hnever h, hcomplete (hnever h)⟩,
    hcomplete, ?_, herr, ?_, hrun,
    chunksOf_flatten limit.toNat (by omega) strs.length strs (le_refl _), ?_⟩
  · intro hnil
    by_contra hw
    have := hne hw
    rw [hnil] at this
    simp at this
  · intro h100 c hc
    have := (hlen c hc).2
    unfold exceedsBatchLimit
    omega
  · intro pre c post e w1 hchunks hpre hc
    rw [hrun, hchunks, walkChunks_fail walk c post e w1 pre w hpre hc]
    exact ⟨rfl, rfl, rfl⟩

theorem splitStrs_chunks_witness :
    (0 : Int) < 2 ∧ fiveIds.length < 6 ∧
      (∃ out, splitStrs 6 fiveIds 2 countingWalk 0 = some out ∧ out.result = .ok () ∧
        out.walked = [[asciiBytes "a", asciiBytes "b"], [asciiBytes "c", asciiBytes "d"],
          [asciiBytes "e"]] ∧
        out.walked.flatten = fiveIds) ∧
      (∃ out, splitStrs 4 badIds 1 countingWalk 0 = some out ∧
        out.result = .err notStubbed ∧ out.world = 2 ∧
        out.walked = [[asciiBytes "a"], [asciiBytes "bad"]]) :=
  ⟨by decide, by decide,
    (splitStrs_chunks countingWalk fiveIds 2 (by decide) 6 (by decide) 0).elim
      (fun out h => ⟨out, h.1,
        by
          have hs : splitStrs 6 fiveIds 2 countingWalk 0 =
              some { result := .ok (), world := 3,
                     walked := [[asciiBytes "a", asciiBytes "b"],
                       [asciiBytes "c", asciiBytes "d"], [asciiBytes "e"]] } := by rfl
          have := h.1
          rw [hs] at this
          cases this
          exact ⟨rfl, rfl, rfl⟩⟩),
    (splitStrs_chunks countingWalk badIds 1 (by decide) 4 (by decide) 0).elim
      (fun out h => ⟨out, h.1,
        h.2.2.2.2.2.2.2.2.2.2.2.2 [[asciiBytes "a"]] [asciiBytes "bad"] [[asciiBytes "c"]]
          notStubbed 2 (by rfl) (by rfl) (by rfl)⟩)⟩

/-! ## Credentials on a shared storage -/

/-- C27 fails on the code: on `NewStorage(dt, edt)` every container reads and
writes the one storage edt under the same key.  After `AppAccessToken.Get` has
persisted the token "TOK" under "app1", `AppTicket.Get("app1")` returns "TOK"
after the `Read` alone, without calling its provider; started on an empty
storage, `AppTicket.Get("app1")` persists "TICKET" under "app1" and
`AppAccessToken.Get("app1")` then returns "TICKET"; and after
`AccessToken.Get("plat1")` the container PreAuthCode returns the platform token
"PLAT_TOK" for "plat1". -/
theorem shared_storage_mixes_credentials :
    (ticketApp.AppAccessToken.Get MemWorld.clock (asciiBytes "app1") (emptyWorld 0)).result =
        .ok (asciiBytes "TOK") ∧
      (ticketApp.AppTicket.Get MemWorld.clock (asciiBytes "app1")
        (ticketApp.AppAccessToken.Get MemWorld.clock (asciiBytes "app1")
          (emptyWorld 0)).world).result = .ok (asciiBytes "TOK") ∧
      (ticketApp.AppTicket.Get MemWorld.clock (asciiBytes "app1")
        (ticketApp.AppAccessToken.Get MemWorld.clock (asciiBytes "app1")
          (emptyWorld 0)).world).calls = [.read (asciiBytes "app1")] ∧
      (ticketApp.AppTicket.Get MemWorld.clock (asciiBytes "app1") (emptyWorld 0)).result =
        .ok (asciiBytes "TICKET") ∧
      (ticketApp.AppAccessToken.Get MemWorld.clock (asciiBytes "app1")
        (ticketApp.AppTicket.Get MemWorld.clock (asciiBytes "app1")
          (emptyWorld 0)).world).result = .ok (asciiBytes "TICKET") ∧
      (chainPlatform.PreAuthCode.Get MemWorld.clock (asciiBytes "plat1")
        (chainPlatform.AccessToken.Get MemWorld.clock (asciiBytes "plat1")
          (emptyWorld 0)).world).result = .ok (asciiBytes "PLAT_TOK") := by
  decide

/-! ## The registry -/

theorem lookup_cons_of_ne {α : Type} (k k' : GoString) (v : α) (m : List (GoString × α))
    (h : k ≠ k') : ((k', v) :: m).lookup k = m.lookup k := by
  have hne : (k == k') = false := by simpa using h
  rw [List.lookup_cons, hne]

theorem lookup_filter_self {α : Type} (k : GoString) :
    ∀ m : List (GoString × α), (m.filter (fun kv => kv.1 ≠ k)).lookup k = none
  | [] => rfl
  | (k', v) :: m => by
    have ih := lookup_filter_self (α := α) k m
    by_cases h : k' = k
    · have hp : ¬ ((fun kv : GoString × α => decide (kv.1 ≠ k)) (k', v) = true) := by simp [h]
      rw [@List.filter_cons_of_neg _ (fun kv : GoString × α => decide (kv.1 ≠ k)) (k', v) m hp]
      exact ih
    · have hp : (fun kv : GoString × α => decide (kv.1 ≠ k)) (k', v) = true := by simp [h]
      rw [@List.filter_cons_of_pos _ (fun kv : GoString × α => decide (kv.1 ≠ k)) (k', v) m hp,
        lookup_cons_of_ne k k' v _ (fun h' => h h'.symm)]
      exact ih

theorem lookup_filter_of_ne {α : Type} (k k' : GoString) (hk : k' ≠ k) :
    ∀ m : List (GoString × α), (m.filter (fun kv => kv.1 ≠ k)).lookup k' = m.lookup k'
  | [] => rfl
  | (k0, v) :: m => by
    have ih := lookup_filter_of_ne (α := α) k k' hk m
    by_cases h : k0 = k
    · have hp : ¬ ((fun kv : GoString × α => decide (kv.1 ≠ k)) (k0, v) = true) := by simp [h]
      rw [@List.filter_cons_of_neg _ (fun kv : GoString × α => decide (kv.1 ≠ k)) (k0, v) m hp,
        lookup_cons_of_ne k' k0 v m (by rw [h]; exact hk)]
      exact ih
    · have hp : (fun kv : GoString × α => decide (kv.1 ≠ k)) (k0, v) = true := by simp [h]
      rw [@List.filter_cons_of_pos _ (fun kv : GoString × α => decide (kv.1 ≠ k)) (k0, v) m hp]
      by_cases h2 : k' = k0
      · subst h2
        rw [List.lookup_cons_self, List.lookup_cons_self]
      · rw [lookup_cons_of_ne k' k0 v _ h2, lookup_cons_of_ne k' k0 v _ h2]
        exact ih

theorem lookup_mapSet_self {α : Type} (m : List (GoString × α)) (k : GoString) (v : α) :
    (mapSet m k v).lookup k = some v := by
  unfold mapSet
  exact List.lookup_cons_self

theorem lookup_mapSet_of_ne {α : Type} (m : List (GoString × α)) (k k' : GoString) (v : α)
    (hk : k' ≠ k) : (mapSet m k v).lookup k' = m.lookup k' := by
  unfold mapSet
  rw [lookup_cons_of_ne k' k v _ hk]
  exact lookup_filter_of_ne k k' hk m

theorem lookup_mapDel_self {α : Type} (m : List (GoString × α)) (k : GoString) :
    (mapDel m k).lookup k = none :=
  lookup_filter_self k m

theorem lookup_mapDel_of_ne {α : Type} (m : List (GoString × α)) (k k' : GoString)
    (hk : k' ≠ k) : (mapDel m k).lookup k' = m.lookup k' :=
  lookup_filter_of_ne k k' hk m

/-- Setting a key that is absent keeps every entry. -/
theorem lookup_mapSet_of_absent {α : Type} (m : List (GoString × α)) (k k' : GoString) (v p : α)
    (habs : m.lookup k = none) (h : m.lookup k' = some p) : (mapSet m k v).lookup k' = some p := by
  by_cases hk : k' = k
  · subst hk
    rw [habs] at h
    exact absurd h (by simp)
  · rw [lookup_mapSet_of_ne m k k' v hk, h]

theorem KeepsEntries_refl {W : Type} (a : AccessContainer W) (x : Option GoString) :
    a.KeepsEntries a x :=
  ⟨fun _ _ _ h => h, fun _ _ _ h => h, fun _ _ _ h => h⟩

theorem KeepsEntries_trans {W : Type} {a b c : AccessContainer W} {x : Option GoString}
    (hab : a.KeepsEntries b x) (hbc : b.KeepsEntries c x) : a.KeepsEntries c x :=
  ⟨fun k p hk h => hbc.1 k p hk (hab.1 k p hk h), fun k p hk h => hbc.2.1 k p hk (hab.2.1 k p hk h),
    fun k p hk h => hbc.2.2 k p hk (hab.2.2 k p hk h)⟩

theorem KeepsEntries_weaken {W : Type} {a b : AccessContainer W} (x : Option GoString)
    (hab : a.KeepsEntries b none) : a.KeepsEntries b x :=
  ⟨fun k p _ h => hab.1 k p (by simp) h, fun k p _ h => hab.2.1 k p (by simp) h,
    fun k p _ h => hab.2.2 k p (by simp) h⟩

/-- The method `GetComponentAccess` on a cached id returns the cached pointer and changes nothing. -/
theorem GetComponentAccess_cached {W : Type} (ac : AccessContainer W) (t : GoString)
    (p : Ptr (ComponentAccess W)) (h : ac.componentAccess.lookup t = some p) :
    ac.GetComponentAccess t = (p, ac) := by
  simp only [AccessContainer.GetComponentAccess, h]

/-- The method `GetComponentAccess` on an id that is not cached builds a struct and caches it. -/
theorem GetComponentAccess_fresh {W : Type} (ac : AccessContainer W) (t : GoString)
    (h : ac.componentAccess.lookup t = none) :
    ac.GetComponentAccess t =
      ({ addr := ac.allocated,
         val := NewComponentAccess ac.tickerNow ac.remote ac.storage t ac.AppSecretProvider },
       { ac with
           componentAccess := mapSet ac.componentAccess t
             { addr := ac.allocated,
               val := NewComponentAccess ac.tickerNow ac.remote ac.storage t
                 ac.AppSecretProvider },
           allocated := ac.allocated + 1 }) := by
  simp only [AccessContainer.GetComponentAccess, h]

/-- What `GetComponentAccess` leaves: the returned pointer cached under the id, the other
maps and the providers untouched, the entries kept, the count not lowered. -/
theorem GetComponentAccess_frame {W : Type} (ac : AccessContainer W) (t : GoString) :
    (ac.GetComponentAccess t).2.componentAccess.lookup t = some (ac.GetComponentAccess t).1 ∧
      (ac.GetComponentAccess t).2.appAccess = ac.appAccess ∧
      (ac.GetComponentAccess t).2.decrypter = ac.decrypter ∧
      (ac.GetComponentAccess t).2.AppAesKeyProvider = ac.AppAesKeyProvider ∧
      (ac.GetComponentAccess t).2.ComponentAppidProvider = ac.ComponentAppidProvider ∧
      ac.KeepsEntries (ac.GetComponentAccess t).2 none ∧
      ac.allocated ≤ (ac.GetComponentAccess t).2.allocated ∧
      (ac.WellFormed → (ac.GetComponentAccess t).2.WellFormed) := by
  cases h : ac.componentAccess.lookup t with
  | some p =>
    rw [GetComponentAccess_cached ac t p h]
    exact ⟨h, rfl, rfl, rfl, rfl, KeepsEntries_refl ac none, le_refl _, fun hw => hw⟩
  | none =>
    rw [GetComponentAccess_fresh ac t h]
    refine ⟨lookup_mapSet_self _ _ _, rfl, rfl, rfl, rfl,
      ⟨fun _ _ _ hk => hk, fun k p _ hk => lookup_mapSet_of_absent _ t k _ p h hk,
        fun _ _ _ hk => hk⟩, Nat.le_succ _, fun hw => ⟨?_, ?_, ?_⟩⟩
    · intro k p hk
      exact Nat.lt_succ_of_lt (hw.1 k p hk)
    · intro k p hk
      by_cases hkt : k = t
      · subst hkt
        have hk' : (mapSet ac.componentAccess k _).lookup k = some p := hk
        rw [lookup_mapSet_self] at hk'
        rw [← Option.some.inj hk']
        exact Nat.lt_succ_self _
      · have hk' : (mapSet ac.componentAccess t _).lookup k = some p := hk
        rw [lookup_mapSet_of_ne _ t k _ hkt] at hk'
        exact Nat.lt_succ_of_lt (hw.2.1 k p hk')
    · intro k p hk
      exact Nat.lt_succ_of_lt (hw.2.2 k p hk)

/-- The method `GetAppAccess` on a cached id returns the cached pointer and changes nothing. -/
theorem GetAppAccess_cached {W : Type} (ac : AccessContainer W) (c t : GoString)
    (p : Ptr (AppAccess W)) (h : ac.appAccess.lookup t = some p) :
    ac.GetAppAccess c t = (p, ac) := by
  simp only [AccessContainer.GetAppAccess, h]

/-- Caching a new application struct under an id that has no entry: the entry is there, the
entries held before are kept, and the addresses stay below the count. -/
theorem addApp_frame {W : Type} (b : AccessContainer W) (t : GoString) (v : AppAccess W)
    (hb : b.appAccess.lookup t = none) :
    ({ b with appAccess := mapSet b.appAccess t { addr := b.allocated, val := v },
              allocated := b.allocated + 1 } : AccessContainer W).appAccess.lookup t =
        some { addr := b.allocated, val := v } ∧
      b.KeepsEntries
        { b with appAccess := mapSet b.appAccess t { addr := b.allocated, val := v },
                 allocated := b.allocated + 1 } none ∧
      (b.WellFormed →
        ({ b with appAccess := mapSet b.appAccess t { addr := b.allocated, val := v },
                  allocated := b.allocated + 1 } : AccessContainer W).WellFormed) := by
  refine ⟨lookup_mapSet_self _ _ _,
    ⟨fun k p _ hk => lookup_mapSet_of_absent _ t k _ p hb hk, fun _ _ _ hk => hk,
      fun _ _ _ hk => hk⟩, fun hw => ⟨?_, ?_, ?_⟩⟩
  · intro k p hk
    by_cases hkt : k = t
    · subst hkt
      have hk' : (mapSet b.appAccess k _).lookup k = some p := hk
      rw [lookup_mapSet_self] at hk'
      rw [← Option.some.inj hk']
      exact Nat.lt_succ_self _
    · have hk' : (mapSet b.appAccess t _).lookup k = some p := hk
      rw [lookup_mapSet_of_ne _ t k _ hkt] at hk'
      exact Nat.lt_succ_of_lt (hw.1 k p hk')
  · intro k p hk
    exact Nat.lt_succ_of_lt (hw.2.1 k p hk)
  · intro k p hk
    exact Nat.lt_succ_of_lt (hw.2.2 k p hk)

/-- What `GetAppAccess` leaves: the returned pointer cached under the id, the ciphers and the
providers untouched, the entries kept, the count not lowered. -/
theorem GetAppAccess_frame {W : Type} (ac : AccessContainer W) (c t : GoString) :
    (ac.GetAppAccess c t).2.appAccess.lookup t = some (ac.GetAppAccess c t).1 ∧
      (ac.GetAppAccess c t).2.decrypter = ac.decrypter ∧
      (ac.GetAppAccess c t).2.AppAesKeyProvider = ac.AppAesKeyProvider ∧
      (ac.GetAppAccess c t).2.ComponentAppidProvider = ac.ComponentAppidProvider ∧
      ac.KeepsEntries (ac.GetAppAccess c t).2 none ∧
      ac.allocated ≤ (ac.GetAppAccess c t).2.allocated ∧
      (ac.WellFormed → (ac.GetAppAccess c t).2.WellFormed) := by
  cases h : ac.appAccess.lookup t with
  | some p =>
    rw [GetAppAccess_cached ac c t p h]
    exact ⟨h, rfl, rfl, rfl, KeepsEntries_refl ac none, le_refl _, fun hw => hw⟩
  | none =>
    simp only [AccessContainer.GetAppAccess, h]
    generalize (if c = [] then (ac.ComponentAppidProvider t).1 else c) = c1
    by_cases hc : c1 = []
    · simp only [hc, ne_eq, not_true_eq_false, if_false]
      have hf := addApp_frame ac t
        (NewAppAccess ac.tickerNow ac.remote ac.storage t ac.AppSecretProvider none) h
      exact ⟨hf.1, trivial, trivial, trivial, hf.2.1, Nat.le_succ _, hf.2.2⟩
    · simp only [hc, ne_eq, not_false_eq_true, if_true]
      obtain ⟨-, f2, f3, f4, f5, f6, f7, f8⟩ := GetComponentAccess_frame ac c1
      have hb : (ac.GetComponentAccess c1).2.appAccess.lookup t = none := by rw [f2]; exact h
      have hf := addApp_frame (ac.GetComponentAccess c1).2 t
        (NewAppAccess ac.tickerNow ac.remote ac.storage t ac.AppSecretProvider
          (Option.map (fun c => c.val) (some (ac.GetComponentAccess c1).1))) hb
      exact ⟨hf.1, f3, f4, f5, KeepsEntries_trans f6 hf.2.1,
        Nat.le_trans f7 (Nat.le_succ _), fun hw => hf.2.2 (f8 hw)⟩

/-- The registry that `GetComponentAppid` leaves is the one `GetAppAccess("", appid)` leaves. -/
theorem GetComponentAppid_registry {W : Type} (ac : AccessContainer W) (t : GoString) :
    (ac.GetComponentAppid t).2 = (ac.GetAppAccess [] t).2 := by
  simp only [AccessContainer.GetComponentAppid]
  split <;> rfl

/-- The result of `GetComponentAppid` is the id of the platform of the application struct, or
`ErrNeedAuthorizerApp`. -/
theorem GetComponentAppid_result {W : Type} (ac : AccessContainer W) (t : GoString) :
    (ac.GetComponentAppid t).1 =
      match (ac.GetAppAccess [] t).1.val.ComponentAccess with
      | some c => .ok c.Appid
      | none => .err .needAuthorizerApp := by
  simp only [AccessContainer.GetComponentAppid]
  split <;> rfl

/-- An entry of a map after `delete` was an entry before. -/
theorem lookup_mapDel_some {α : Type} (m : List (GoString × α)) (k k' : GoString) (p : α)
    (h : (mapDel m k).lookup k' = some p) : m.lookup k' = some p := by
  by_cases hk : k' = k
  · subst hk
    rw [lookup_mapDel_self] at h
    cases h
  · rw [lookup_mapDel_of_ne m k k' hk] at h
    exact h

/-- What the end of `GetDecrypter` leaves when no cipher is cached under the id. -/
theorem decrypterFor_frame {W : Type} (ac : AccessContainer W) (appid g : GoString)
    (hno : ac.decrypter.lookup appid = none) :
    ac.KeepsEntries (ac.decrypterFor appid g).2 none ∧
      (ac.WellFormed → (ac.decrypterFor appid g).2.WellFormed) := by
  unfold AccessContainer.decrypterFor
  cases ac.AppAesKeyProvider g with
  | error err => exact ⟨KeepsEntries_refl ac none, fun hw => hw⟩
  | ok ta =>
    obtain ⟨token, aesKey⟩ := ta
    by_cases hk : aesKey = []
    · simp only [hk, ne_eq, not_true_eq_false, if_false]
      exact ⟨KeepsEntries_refl ac none, fun hw => hw⟩
    · simp only [hk, ne_eq, not_false_eq_true, if_true]
      cases NewWXBizMsgCrypt token aesKey g with
      | panic => exact ⟨KeepsEntries_refl ac none, fun hw => hw⟩
      | err e => exact ⟨KeepsEntries_refl ac none, fun hw => hw⟩
      | ok mc =>
        refine ⟨⟨fun _ _ _ h => h, fun _ _ _ h => h,
          fun k p _ h => lookup_mapSet_of_absent _ appid k _ p hno h⟩, fun hw => ⟨?_, ?_, ?_⟩⟩
        · intro k p hk
          exact Nat.lt_succ_of_lt (hw.1 k p hk)
        · intro k p hk
          exact Nat.lt_succ_of_lt (hw.2.1 k p hk)
        · intro k p hk
          by_cases hkt : k = appid
          · subst hkt
            have hk' : (mapSet ac.decrypter k _).lookup k = some p := hk
            rw [lookup_mapSet_self] at hk'
            rw [← Option.some.inj hk']
            exact Nat.lt_succ_self _
          · have hk' : (mapSet ac.decrypter appid _).lookup k = some p := hk
            rw [lookup_mapSet_of_ne _ appid k _ hkt] at hk'
            exact Nat.lt_succ_of_lt (hw.2.2 k p hk')

/-- With no cipher cached under the id, `GetDecrypter` asks `GetComponentAppid` which tenant
governs it and ends with that tenant. -/
theorem GetDecrypter_uncached {W : Type} (ac : AccessContainer W) (appid : GoString)
    (hno : ac.decrypter.lookup appid = none) :
    ac.GetDecrypter appid =
      (ac.GetAppAccess [] appid).2.decrypterFor appid
        (match (ac.GetAppAccess [] appid).1.val.ComponentAccess with
         | some c => c.Appid
         | none => appid) := by
  simp only [AccessContainer.GetDecrypter, hno, AccessContainer.GetComponentAppid]
  cases (ac.GetAppAccess [] appid).1.val.ComponentAccess with
  | some c => rfl
  | none => simp

/-- What `GetDecrypter` leaves: the entries held before are kept. -/
theorem GetDecrypter_frame {W : Type} (ac : AccessContainer W) (appid : GoString) :
    ac.KeepsEntries (ac.GetDecrypter appid).2 none ∧
      (ac.WellFormed → (ac.GetDecrypter appid).2.WellFormed) := by
  cases h : ac.decrypter.lookup appid with
  | some d =>
    simp only [AccessContainer.GetDecrypter, h]
    exact ⟨KeepsEntries_refl ac none, fun hw => hw⟩
  | none =>
    rw [GetDecrypter_uncached ac appid h]
    obtain ⟨-, f2, -, -, f5, -, f7⟩ := GetAppAccess_frame ac [] appid
    have hno : (ac.GetAppAccess [] appid).2.decrypter.lookup appid = none := by rw [f2]; exact h
    have hd := decrypterFor_frame (ac.GetAppAccess [] appid).2 appid
      (match (ac.GetAppAccess [] appid).1.val.ComponentAccess with
       | some c => c.Appid
       | none => appid) hno
    exact ⟨KeepsEntries_trans f5 hd.1, fun hw => hd.2 (f7 hw)⟩

/-- A registry just built holds no struct. -/
theorem NewAccessContainer_wellFormed {W : Type} (tickerNow : W → Int) (remote : Remote W)
    (storage : Storage W) (appSecret : Wechat.AppSecretProvider W)
    (aesKey : Wechat.AppAesKeyProvider) (components : Wechat.ComponentAppidProvider) :
    (NewAccessContainer tickerNow remote storage appSecret aesKey components).WellFormed := by
  refine ⟨fun _ _ h => ?_, fun _ _ h => ?_, fun _ _ h => ?_⟩ <;> cases h

/-- The entries that `Flash` leaves were entries before. -/
theorem Flash_wellFormed {W : Type} (ac : AccessContainer W) (u : GoString)
    (hw : ac.WellFormed) : (ac.Flash u).WellFormed :=
  ⟨fun k p h => hw.1 k p (lookup_mapDel_some _ u k p h),
    fun k p h => hw.2.1 k p (lookup_mapDel_some _ u k p h),
    fun k p h => hw.2.2 k p (lookup_mapDel_some _ u k p h)⟩

/-- The method `Flash(u)` keeps the entries of every id but `u`. -/
theorem Flash_keeps {W : Type} (ac : AccessContainer W) (u : GoString) :
    ac.KeepsEntries (ac.Flash u) (some u) := by
  have hne : ∀ k : GoString, some k ≠ some u → k ≠ u := fun k hk hku => hk (by rw [hku])
  refine ⟨fun k p hk h => ?_, fun k p hk h => ?_, fun k p hk h => ?_⟩
  · exact (lookup_mapDel_of_ne ac.appAccess u k (hne k hk)).trans h
  · exact (lookup_mapDel_of_ne ac.componentAccess u k (hne k hk)).trans h
  · exact (lookup_mapDel_of_ne ac.decrypter u k (hne k hk)).trans h

/-- A call that is not `Flash` keeps every entry of the three maps. -/
theorem step_keeps {W : Type} (op : Op) (s : AccessContainer W × W)
    (hop : ∀ u, op ≠ .flash u) : s.1.KeepsEntries (op.step s).1 none := by
  cases op with
  | getComponentAccess t => exact (GetComponentAccess_frame s.1 t).2.2.2.2.2.1
  | getAppAccess c t => exact (GetAppAccess_frame s.1 c t).2.2.2.2.1
  | getComponentAppid t =>
    show s.1.KeepsEntries (s.1.GetComponentAppid t).2 none
    rw [GetComponentAppid_registry]
    exact (GetAppAccess_frame s.1 [] t).2.2.2.2.1
  | getAppAccessToken t => exact (GetAppAccess_frame s.1 [] t).2.2.2.2.1
  | getAppTicket t => exact (GetAppAccess_frame s.1 [] t).2.2.2.2.1
  | getDecrypter t => exact (GetDecrypter_frame s.1 t).1
  | flash u => exact absurd rfl (hop u)

/-- Every call keeps the addresses of the structs held below the count of allocations. -/
theorem step_wellFormed {W : Type} (op : Op) (s : AccessContainer W × W)
    (hw : s.1.WellFormed) : (op.step s).1.WellFormed := by
  cases op with
  | getComponentAccess t => exact (GetComponentAccess_frame s.1 t).2.2.2.2.2.2.2 hw
  | getAppAccess c t => exact (GetAppAccess_frame s.1 c t).2.2.2.2.2.2 hw
  | getComponentAppid t =>
    show (s.1.GetComponentAppid t).2.WellFormed
    rw [GetComponentAppid_registry]
    exact (GetAppAccess_frame s.1 [] t).2.2.2.2.2.2 hw
  | getAppAccessToken t => exact (GetAppAccess_frame s.1 [] t).2.2.2.2.2.2 hw
  | getAppTicket t => exact (GetAppAccess_frame s.1 [] t).2.2.2.2.2.2 hw
  | getDecrypter t => exact (GetDecrypter_frame s.1 t).2 hw
  | flash u => exact Flash_wellFormed s.1 u hw

/-- A call that is not `Flash(t)` keeps the entries of `t`. -/
theorem step_keeps_key {W : Type} (op : Op) (t : GoString) (s : AccessContainer W × W)
    (hop : op ≠ .flash t) :
    (∀ p, s.1.appAccess.lookup t = some p → (op.step s).1.appAccess.lookup t = some p) ∧
      (∀ p, s.1.componentAccess.lookup t = some p →
        (op.step s).1.componentAccess.lookup t = some p) ∧
      (∀ p, s.1.decrypter.lookup t = some p → (op.step s).1.decrypter.lookup t = some p) := by
  by_cases hf : ∃ u, op = .flash u
  · obtain ⟨u, rfl⟩ := hf
    have hut : some t ≠ some u := fun h => hop (by rw [Option.some.inj h])
    have hk := Flash_keeps s.1 u
    exact ⟨fun p h => hk.1 t p hut h, fun p h => hk.2.1 t p hut h, fun p h => hk.2.2 t p hut h⟩
  · have hk := step_keeps op s (fun u h => hf ⟨u, h⟩)
    exact ⟨fun p h => hk.1 t p (by simp) h, fun p h => hk.2.1 t p (by simp) h,
      fun p h => hk.2.2 t p (by simp) h⟩

/-- A run without `Flash(t)` keeps the entries of `t`. -/
theorem runOps_keeps_key {W : Type} (t : GoString) :
    ∀ (mid : List Op) (s : AccessContainer W × W), Op.flash t ∉ mid →
      (∀ p, s.1.appAccess.lookup t = some p → (runOps mid s).1.appAccess.lookup t = some p) ∧
      (∀ p, s.1.componentAccess.lookup t = some p →
        (runOps mid s).1.componentAccess.lookup t = some p) ∧
      (∀ p, s.1.decrypter.lookup t = some p → (runOps mid s).1.decrypter.lookup t = some p)
  | [], _, _ => ⟨fun _ h => h, fun _ h => h, fun _ h => h⟩
  | op :: mid, s, hmid => by
    have hop : op ≠ .flash t := fun h => hmid (by rw [h]; exact List.mem_cons_self _ _)
    have hrest : Op.flash t ∉ mid := fun h => hmid (List.mem_cons_of_mem _ h)
    have h1 := step_keeps_key op t s hop
    have h2 := runOps_keeps_key t mid (op.step s) hrest
    exact ⟨fun p h => h2.1 p (h1.1 p h), fun p h => h2.2.1 p (h1.2.1 p h),
      fun p h => h2.2.2 p (h1.2.2 p h)⟩

/-- Every run keeps the addresses of the structs held below the count of allocations. -/
theorem runOps_wellFormed {W : Type} :
    ∀ (ops : List Op) (s : AccessContainer W × W), s.1.WellFormed → (runOps ops s).1.WellFormed
  | [], _, hw => hw
  | op :: ops, s, hw => runOps_wellFormed ops (op.step s) (step_wellFormed op s hw)

/-- The method `GetComponentAccess` keeps the platform structs under their own ids. -/
theorem GetComponentAccess_keyed {W : Type} (ac : AccessContainer W) (t : GoString)
    (hk : ac.Keyed) : (ac.GetComponentAccess t).2.Keyed := by
  cases h : ac.componentAccess.lookup t with
  | some p =>
    rw [GetComponentAccess_cached ac t p h]
    exact hk
  | none =>
    rw [GetComponentAccess_fresh ac t h]
    intro k p hkp
    by_cases hkt : k = t
    · subst hkt
      have hk' : (mapSet ac.componentAccess k _).lookup k = some p := hkp
      rw [lookup_mapSet_self] at hk'
      rw [← Option.some.inj hk']
      rfl
    · have hk' : (mapSet ac.componentAccess t _).lookup k = some p := hkp
      rw [lookup_mapSet_of_ne _ t k _ hkt] at hk'
      exact hk k p hk'

/-- The platform struct that `GetComponentAccess(t)` returns has the id `t`. -/
theorem GetComponentAccess_appid {W : Type} (ac : AccessContainer W) (t : GoString)
    (hk : ac.Keyed) : (ac.GetComponentAccess t).1.val.Appid = t :=
  GetComponentAccess_keyed ac t hk t _ (GetComponentAccess_frame ac t).1

/-- The platform map after `GetAppAccess(c, t)`: the one `GetComponentAccess` leaves for some
platform id, or the one before. -/
theorem GetAppAccess_componentAccess {W : Type} (ac : AccessContainer W) (c t : GoString) :
    (ac.GetAppAccess c t).2.componentAccess = ac.componentAccess ∨
      ∃ c1, (ac.GetAppAccess c t).2.componentAccess = (ac.GetComponentAccess c1).2.componentAccess := by
  cases h : ac.appAccess.lookup t with
  | some p =>
    rw [GetAppAccess_cached ac c t p h]
    exact Or.inl rfl
  | none =>
    simp only [AccessContainer.GetAppAccess, h]
    generalize (if c = [] then (ac.ComponentAppidProvider t).1 else c) = c1
    by_cases hc : c1 = []
    · simp only [hc, ne_eq, not_true_eq_false, if_false]
      exact Or.inl trivial
    · simp only [hc, ne_eq, not_false_eq_true, if_true]
      exact Or.inr ⟨c1, rfl⟩

/-- The method `GetAppAccess` keeps the platform structs under their own ids. -/
theorem GetAppAccess_keyed {W : Type} (ac : AccessContainer W) (c t : GoString)
    (hk : ac.Keyed) : (ac.GetAppAccess c t).2.Keyed := by
  intro k p hkp
  rcases GetAppAccess_componentAccess ac c t with h | ⟨c1, h⟩
  · rw [h] at hkp
    exact hk k p hkp
  · rw [h] at hkp
    exact GetComponentAccess_keyed ac c1 hk k p hkp

/-- With no struct cached for the application, the platform of the struct that
`GetAppAccess("", t)` builds is the non-empty answer of the delegation lookup. -/
theorem GetAppAccess_parent {W : Type} (ac : AccessContainer W) (t : GoString)
    (happ : ac.appAccess.lookup t = none) (hk : ac.Keyed) :
    (ac.GetAppAccess [] t).1.val.ComponentAccess.map (fun c => c.Appid) =
      if (ac.ComponentAppidProvider t).1 ≠ [] then some (ac.ComponentAppidProvider t).1
      else none := by
  simp only [AccessContainer.GetAppAccess, happ, if_true]
  by_cases hc : (ac.ComponentAppidProvider t).1 = []
  · simp only [hc, ne_eq, not_true_eq_false, if_false]
    rfl
  · simp only [hc, ne_eq, not_false_eq_true, if_true]
    show some (ac.GetComponentAccess (ac.ComponentAppidProvider t).1).1.val.Appid = _
    rw [GetComponentAccess_appid ac _ hk]

/-- The end of `GetDecrypter` leaves the platform map as it was. -/
theorem decrypterFor_componentAccess {W : Type} (ac : AccessContainer W) (appid g : GoString) :
    (ac.decrypterFor appid g).2.componentAccess = ac.componentAccess := by
  unfold AccessContainer.decrypterFor
  cases ac.AppAesKeyProvider g with
  | error err => rfl
  | ok ta =>
    obtain ⟨token, aesKey⟩ := ta
    by_cases hk : aesKey = []
    · simp only [hk, ne_eq, not_true_eq_false, if_false]
    · simp only [hk, ne_eq, not_false_eq_true, if_true]
      cases NewWXBizMsgCrypt token aesKey g <;> rfl

/-- The method `GetDecrypter` keeps the platform structs under their own ids. -/
theorem GetDecrypter_keyed {W : Type} (ac : AccessContainer W) (appid : GoString)
    (hk : ac.Keyed) : (ac.GetDecrypter appid).2.Keyed := by
  cases h : ac.decrypter.lookup appid with
  | some d =>
    simp only [AccessContainer.GetDecrypter, h]
    exact hk
  | none =>
    rw [GetDecrypter_uncached ac appid h]
    intro k p hkp
    rw [decrypterFor_componentAccess] at hkp
    exact GetAppAccess_keyed ac [] appid hk k p hkp

/-- Every call keeps the platform structs under their own ids. -/
theorem step_keyed {W : Type} (op : Op) (s : AccessContainer W × W)
    (hk : s.1.Keyed) : (op.step s).1.Keyed := by
  cases op with
  | getComponentAccess t => exact GetComponentAccess_keyed s.1 t hk
  | getAppAccess c t => exact GetAppAccess_keyed s.1 c t hk
  | getComponentAppid t =>
    show (s.1.GetComponentAppid t).2.Keyed
    rw [GetComponentAppid_registry]
    exact GetAppAccess_keyed s.1 [] t hk
  | getAppAccessToken t => exact GetAppAccess_keyed s.1 [] t hk
  | getAppTicket t => exact GetAppAccess_keyed s.1 [] t hk
  | getDecrypter t => exact GetDecrypter_keyed s.1 t hk
  | flash u => exact fun k p h => hk k p (lookup_mapDel_some _ u k p h)

/-- Every run from a registry just built keeps the platform structs under their own ids. -/
theorem runOps_keyed {W : Type} :
    ∀ (ops : List Op) (s : AccessContainer W × W), s.1.Keyed → (runOps ops s).1.Keyed
  | [], _, hk => hk
  | op :: ops, s, hk => runOps_keyed ops (op.step s) (step_keyed op s hk)

/-- Claim C21: in a sequential run, when `GetComponentAccess(t)` (resp. `GetAppAccess(c, t)`)
is called twice with no `Flash(t)` among the calls in between, the second call returns the
instance that the first returned and leaves the registry as it found it, so it constructs
nothing; and a call that is not `Flash` keeps every entry of the three maps. -/
theorem registry_entries_created_once {W : Type} (s : AccessContainer W × W)
    (c c' t : GoString) (mid : List Op) (hmid : Op.flash t ∉ mid) :
    (runOps mid ((s.1.GetComponentAccess t).2, s.2)).1.GetComponentAccess t =
        ((s.1.GetComponentAccess t).1, (runOps mid ((s.1.GetComponentAccess t).2, s.2)).1) ∧
      (runOps mid ((s.1.GetAppAccess c t).2, s.2)).1.GetAppAccess c' t =
        ((s.1.GetAppAccess c t).1, (runOps mid ((s.1.GetAppAccess c t).2, s.2)).1) ∧
      ∀ op : Op, (∀ u, op ≠ .flash u) → s.1.KeepsEntries (op.step s).1 none := by
  refine ⟨?_, ?_, fun op hop => step_keeps op s hop⟩
  · exact GetComponentAccess_cached _ t _
      ((runOps_keeps_key t mid ((s.1.GetComponentAccess t).2, s.2) hmid).2.1 _
        (GetComponentAccess_frame s.1 t).1)
  · exact GetAppAccess_cached _ c' t _
      ((runOps_keeps_key t mid ((s.1.GetAppAccess c t).2, s.2) hmid).1 _
        (GetAppAccess_frame s.1 c t).1)

theorem registry_entries_created_once_witness :
    Op.flash (asciiBytes "plat1") ∉ midOps ∧
      ((runOps midOps ((registry0.GetComponentAccess (asciiBytes "plat1")).2,
          emptyWorld 0)).1.GetComponentAccess (asciiBytes "plat1")).1 =
        (registry0.GetComponentAccess (asciiBytes "plat1")).1 :=
  ⟨by decide, by
    have h := congrArg Prod.fst
      (registry_entries_created_once (registry0, emptyWorld 0) [] [] (asciiBytes "plat1") midOps
        (by decide)).1
    exact h⟩

/-- Claim C22: after `Flash(t)` none of the three maps holds `t`, every other id has in each
map the entry it had, and the next `GetComponentAccess(t)` or `GetAppAccess(c, t)` builds a
struct: it returns a new one, at an address that no struct held before has, and
records one more allocation at least. -/
theorem Flash_evicts {W : Type} (ac : AccessContainer W) (t : GoString) :
    ((ac.Flash t).componentAccess.lookup t = none ∧ (ac.Flash t).appAccess.lookup t = none ∧
        (ac.Flash t).decrypter.lookup t = none) ∧
      (∀ u, u ≠ t →
        (ac.Flash t).componentAccess.lookup u = ac.componentAccess.lookup u ∧
        (ac.Flash t).appAccess.lookup u = ac.appAccess.lookup u ∧
        (ac.Flash t).decrypter.lookup u = ac.decrypter.lookup u) ∧
      ((ac.Flash t).GetComponentAccess t).1 =
        { addr := ac.allocated,
          val := NewComponentAccess ac.tickerNow ac.remote ac.storage t ac.AppSecretProvider } ∧
      ((ac.Flash t).GetComponentAccess t).2.allocated = ac.allocated + 1 ∧
      (∀ c, ∃ parent,
        ((ac.Flash t).GetAppAccess c t).1.val =
          NewAppAccess ac.tickerNow ac.remote ac.storage t ac.AppSecretProvider parent ∧
        ac.allocated ≤ ((ac.Flash t).GetAppAccess c t).1.addr ∧
        ((ac.Flash t).GetAppAccess c t).1.addr < ((ac.Flash t).GetAppAccess c t).2.allocated) ∧
      (ac.WellFormed →
        (∀ k p, ac.componentAccess.lookup k = some p →
          p.addr ≠ ((ac.Flash t).GetComponentAccess t).1.addr) ∧
        (∀ c k p, ac.appAccess.lookup k = some p →
          p.addr ≠ ((ac.Flash t).GetAppAccess c t).1.addr)) := by
  have hc : (ac.Flash t).componentAccess.lookup t = none := lookup_mapDel_self _ t
  have ha : (ac.Flash t).appAccess.lookup t = none := lookup_mapDel_self _ t
  have hfresh := GetComponentAccess_fresh (ac.Flash t) t hc
  have happ : ∀ c, ∃ parent,
      ((ac.Flash t).GetAppAccess c t).1.val =
        NewAppAccess ac.tickerNow ac.remote ac.storage t ac.AppSecretProvider parent ∧
      ac.allocated ≤ ((ac.Flash t).GetAppAccess c t).1.addr ∧
      ((ac.Flash t).GetAppAccess c t).1.addr < ((ac.Flash t).GetAppAccess c t).2.allocated := by
    intro c
    simp only [AccessContainer.GetAppAccess, ha]
    generalize (if c = [] then ((ac.Flash t).ComponentAppidProvider t).1 else c) = c1
    by_cases hc1 : c1 = []
    · simp only [hc1, ne_eq, not_true_eq_false, if_false]
      exact ⟨none, rfl, le_refl _, Nat.lt_succ_self _⟩
    · simp only [hc1, ne_eq, not_false_eq_true, if_true]
      exact ⟨_, rfl, (GetComponentAccess_frame (ac.Flash t) c1).2.2.2.2.2.2.1,
        Nat.lt_succ_self _⟩
  refine ⟨⟨hc, ha, lookup_mapDel_self _ t⟩,
    fun u hu => ⟨lookup_mapDel_of_ne _ t u hu, lookup_mapDel_of_ne _ t u hu,
      lookup_mapDel_of_ne _ t u hu⟩, ?_, ?_, happ, fun hw => ⟨?_, ?_⟩⟩
  · rw [hfresh]
    rfl
  · rw [hfresh]
    rfl
  · intro k p hkp
    rw [hfresh]
    exact Nat.ne_of_lt (hw.2.1 k p hkp)
  · intro c k p hkp
    obtain ⟨_, -, hle, -⟩ := happ c
    exact Nat.ne_of_lt (Nat.lt_of_lt_of_le (hw.1 k p hkp) hle)

/-- The governing tenant of an id, read from the application struct of the id. -/
theorem governing_eq {W : Type} (ac : AccessContainer W) (appid : GoString) :
    ac.governing appid =
      match (ac.GetAppAccess [] appid).1.val.ComponentAccess with
      | some c => c.Appid
      | none => appid := by
  unfold AccessContainer.governing
  rw [GetComponentAppid_result]
  cases (ac.GetAppAccess [] appid).1.val.ComponentAccess <;> rfl

/-- The cipher that `NewWXBizMsgCrypt` builds carries the id it was given. -/
theorem NewWXBizMsgCrypt_appID (token aesKey appid : GoString) (mc : WXBizMsgCrypt)
    (h : NewWXBizMsgCrypt token aesKey appid = .ok mc) : mc.appID = appid := by
  unfold NewWXBizMsgCrypt at h
  cases hd : stdDecodeString (aesKey ++ asciiBytes "=") with
  | none =>
    rw [hd] at h
    cases h
  | some data =>
    rw [hd] at h
    cases h
    rfl

/-- With no cipher cached under the id, `GetDecrypter` ends with the governing tenant. -/
theorem GetDecrypter_eq_decrypterFor {W : Type} (ac : AccessContainer W) (appid : GoString)
    (hno : ac.decrypter.lookup appid = none) :
    ac.GetDecrypter appid = (ac.GetAppAccess [] appid).2.decrypterFor appid (ac.governing appid) := by
  rw [GetDecrypter_uncached ac appid hno, governing_eq]

/-- Claim C23 (as amended): for an id with no cached cipher, the tenant that governs is the
platform that `GetComponentAppid` reports, and the id itself when it reports
`ErrNeedAuthorizerApp`; with no application struct cached for the id either,
`GetComponentAppid` reports the non-empty answer of the delegation lookup and
`ErrNeedAuthorizerApp` when the answer is empty.  When `AppAesKeyProvider` of the
governing tenant gives a non-empty key that `NewWXBizMsgCrypt` accepts,
`GetDecrypter` returns the cipher built from it with the id of the governing
tenant, cached under the id asked for. -/
theorem GetDecrypter_governing_tenant {W : Type} (ac : AccessContainer W) (appid : GoString)
    (hno : ac.decrypter.lookup appid = none) :
    ((∃ P, (ac.GetComponentAppid appid).1 = .ok P ∧ ac.governing appid = P) ∨
        ((ac.GetComponentAppid appid).1 = .err .needAuthorizerApp ∧
          ac.governing appid = appid)) ∧
      (ac.appAccess.lookup appid = none → ac.Keyed →
        (ac.GetComponentAppid appid).1 =
          if (ac.ComponentAppidProvider appid).1 ≠ [] then
            .ok (ac.ComponentAppidProvider appid).1
          else .err .needAuthorizerApp) ∧
      (∀ token aesKey mc,
        ac.AppAesKeyProvider (ac.governing appid) = .ok (token, aesKey) → aesKey ≠ [] →
        NewWXBizMsgCrypt token aesKey (ac.governing appid) = .ok mc →
        mc.appID = ac.governing appid ∧
          ∃ d : Ptr WXBizMsgCrypt, d.val = mc ∧ (ac.GetDecrypter appid).1 = .ok (some d) ∧
            (ac.GetDecrypter appid).2.decrypter.lookup appid = some d) := by
  refine ⟨?_, ?_, ?_⟩
  · unfold AccessContainer.governing
    rw [GetComponentAppid_result]
    cases (ac.GetAppAccess [] appid).1.val.ComponentAccess with
    | some c => exact Or.inl ⟨c.Appid, rfl, rfl⟩
    | none => exact Or.inr ⟨rfl, rfl⟩
  · intro happ hk
    have hp := GetAppAccess_parent ac appid happ hk
    rw [GetComponentAppid_result]
    cases hc : (ac.GetAppAccess [] appid).1.val.ComponentAccess with
    | some c =>
      rw [hc] at hp
      by_cases hP : (ac.ComponentAppidProvider appid).1 = []
      · simp [hP] at hp
      · simp only [ne_eq, hP, not_false_eq_true, if_true] at hp ⊢
        have hc1 : c.Appid = (ac.ComponentAppidProvider appid).1 := Option.some.inj hp
        rw [hc1]
    | none =>
      rw [hc] at hp
      by_cases hP : (ac.ComponentAppidProvider appid).1 = []
      · simp only [ne_eq, hP, not_true_eq_false, if_false]
      · simp [hP] at hp
  · intro token aesKey mc hprov hkey hmc
    refine ⟨NewWXBizMsgCrypt_appID _ _ _ mc hmc, ?_⟩
    have hprov1 : (ac.GetAppAccess [] appid).2.AppAesKeyProvider (ac.governing appid) =
        .ok (token, aesKey) := by
      rw [(GetAppAccess_frame ac [] appid).2.2.1]
      exact hprov
    rw [GetDecrypter_eq_decrypterFor ac appid hno]
    unfold AccessContainer.decrypterFor
    rw [hprov1]
    simp only [ne_eq, hkey, not_false_eq_true, if_true, hmc]
    exact ⟨_, rfl, rfl, lookup_mapSet_self _ _ _⟩

theorem GetDecrypter_governing_tenant_witness :
    registry0.decrypter.lookup (asciiBytes "app1") = none ∧
      ∃ d : Ptr WXBizMsgCrypt, d.val.appID = asciiBytes "plat1" ∧
        (registry0.GetDecrypter (asciiBytes "app1")).1 = .ok (some d) ∧
        (registry0.GetDecrypter (asciiBytes "app1")).2.decrypter.lookup (asciiBytes "app1") =
          some d :=
  ⟨by decide, by
    obtain ⟨hid, d, hd, hres, hcache⟩ :=
      (GetDecrypter_governing_tenant registry0 (asciiBytes "app1") (by decide)).2.2
        (asciiBytes "tok") key43
        { token := asciiBytes "tok",
          aesKey := (stdDecodeString (key43 ++ asciiBytes "=")).getD [],
          appID := asciiBytes "plat1" }
        (by rfl) (by decide) (by rfl)
    exact ⟨d, by rw [hd], hres, hcache⟩⟩

/-- The application "app1" is held with the platform "plat2" and has no cached cipher; the
delegation lookup answers "plat1" for it; `GetDecrypter("app1")` returns a cipher
with the tenant id "plat2". -/
theorem GetDecrypter_follows_cached_platform :
    crossRegistry.decrypter.lookup (asciiBytes "app1") = none ∧
      (crossRegistry.ComponentAppidProvider (asciiBytes "app1")).1 = asciiBytes "plat1" ∧
      cipherTenant (crossRegistry.GetDecrypter (asciiBytes "app1")).1 =
        some (asciiBytes "plat2") ∧
      asciiBytes "plat2" ≠ asciiBytes "plat1" := by
  decide

/-- With no cipher cached under the id and an empty key, with no error, from the key provider
for the governing tenant, `GetDecrypter` returns a nil cipher and a nil error and caches
nothing. -/
theorem GetDecrypter_uncached_plaintext {W : Type} (ac : AccessContainer W)
    (appid token : GoString) (hno : ac.decrypter.lookup appid = none)
    (hkey : ac.AppAesKeyProvider (ac.governing appid) = .ok (token, [])) :
    (ac.GetDecrypter appid).1 = .ok none ∧
      (ac.GetDecrypter appid).2.decrypter.lookup appid = none := by
  have hprov1 : (ac.GetAppAccess [] appid).2.AppAesKeyProvider (ac.governing appid) =
      .ok (token, []) := by
    rw [(GetAppAccess_frame ac [] appid).2.2.1]
    exact hkey
  rw [GetDecrypter_eq_decrypterFor ac appid hno]
  unfold AccessContainer.decrypterFor
  rw [hprov1]
  simp only [ne_eq, not_true_eq_false, if_false, true_and]
  rw [(GetAppAccess_frame ac [] appid).2.1]
  exact hno

/-- The end of `GetDecrypter` leaves the application map and the key provider as they were. -/
theorem decrypterFor_appAccess {W : Type} (ac : AccessContainer W) (appid g : GoString) :
    (ac.decrypterFor appid g).2.appAccess = ac.appAccess ∧
      (ac.decrypterFor appid g).2.AppAesKeyProvider = ac.AppAesKeyProvider := by
  unfold AccessContainer.decrypterFor
  cases ac.AppAesKeyProvider g with
  | error err => exact ⟨rfl, rfl⟩
  | ok ta =>
    obtain ⟨token, aesKey⟩ := ta
    by_cases hk : aesKey = []
    · simp only [hk, ne_eq, not_true_eq_false, if_false, and_self]
    · simp only [hk, ne_eq, not_false_eq_true, if_true]
      cases NewWXBizMsgCrypt token aesKey g <;> exact ⟨rfl, rfl⟩

/-- The cipher that the end of `GetDecrypter` caches is cached under the id asked for, with a
non-empty key from the provider for the tenant it was given; every other entry is as it
was. -/
theorem decrypterFor_decrypter {W : Type} (ac : AccessContainer W) (appid g : GoString)
    (k : GoString) (d : Ptr WXBizMsgCrypt)
    (h : (ac.decrypterFor appid g).2.decrypter.lookup k = some d) :
    ac.decrypter.lookup k = some d ∨
      (k = appid ∧ ∃ token aesKey, ac.AppAesKeyProvider g = .ok (token, aesKey) ∧ aesKey ≠ []) := by
  unfold AccessContainer.decrypterFor at h
  cases hp : ac.AppAesKeyProvider g with
  | error err =>
    rw [hp] at h
    exact Or.inl h
  | ok ta =>
    obtain ⟨token, aesKey⟩ := ta
    rw [hp] at h
    by_cases hk : aesKey = []
    · simp only [hk, ne_eq, not_true_eq_false, if_false] at h
      exact Or.inl h
    · simp only [hk, ne_eq, not_false_eq_true, if_true] at h
      cases hmc : NewWXBizMsgCrypt token aesKey g with
      | panic =>
        rw [hmc] at h
        exact Or.inl h
      | err e =>
        rw [hmc] at h
        exact Or.inl h
      | ok mc =>
        rw [hmc] at h
        by_cases hka : k = appid
        · exact Or.inr ⟨hka, token, aesKey, rfl, hk⟩
        · have h' : (mapSet ac.decrypter appid _).lookup k = some d := h
          rw [lookup_mapSet_of_ne _ appid k _ hka] at h'
          exact Or.inl h'

/-- The method `GetComponentAccess` keeps the ciphers with their application structs. -/
theorem GetComponentAccess_cipherKeyed {W : Type} (ac : AccessContainer W) (t : GoString)
    (hinv : ac.CipherKeyed) : (ac.GetComponentAccess t).2.CipherKeyed := by
  obtain ⟨-, f2, f3, f4, -⟩ := GetComponentAccess_frame ac t
  intro appid d hd
  rw [f3] at hd
  rw [f2, f4]
  exact hinv appid d hd

/-- The method `GetAppAccess` keeps the ciphers with their application structs. -/
theorem GetAppAccess_cipherKeyed {W : Type} (ac : AccessContainer W) (c t : GoString)
    (hinv : ac.CipherKeyed) : (ac.GetAppAccess c t).2.CipherKeyed := by
  obtain ⟨-, f2, f3, -, f5, -⟩ := GetAppAccess_frame ac c t
  intro appid d hd
  rw [f2] at hd
  obtain ⟨p, hp, token, aesKey, hprov, hne⟩ := hinv appid d hd
  rw [f3]
  exact ⟨p, f5.1 appid p (by simp) hp, token, aesKey, hprov, hne⟩

/-- The method `GetDecrypter` keeps the ciphers with their application structs. -/
theorem GetDecrypter_cipherKeyed {W : Type} (ac : AccessContainer W) (appid : GoString)
    (hinv : ac.CipherKeyed) : (ac.GetDecrypter appid).2.CipherKeyed := by
  cases h : ac.decrypter.lookup appid with
  | some d =>
    simp only [AccessContainer.GetDecrypter, h]
    exact hinv
  | none =>
    rw [GetDecrypter_uncached ac appid h]
    have hinv1 := GetAppAccess_cipherKeyed ac [] appid hinv
    have happ := (GetAppAccess_frame ac [] appid).1
    intro k d hd
    rw [(decrypterFor_appAccess _ appid _).1, (decrypterFor_appAccess _ appid _).2]
    rcases decrypterFor_decrypter _ appid _ k d hd with hold | ⟨hk, token, aesKey, hprov, hne⟩
    · exact hinv1 k d hold
    · subst hk
      exact ⟨_, happ, token, aesKey, hprov, hne⟩

/-- The method `Flash` keeps the ciphers with their application structs. -/
theorem Flash_cipherKeyed {W : Type} (ac : AccessContainer W) (u : GoString)
    (hinv : ac.CipherKeyed) : (ac.Flash u).CipherKeyed := by
  intro k d hd
  have hku : k ≠ u := by
    intro hku
    subst hku
    have hd' : (mapDel ac.decrypter k).lookup k = some d := hd
    rw [lookup_mapDel_self] at hd'
    cases hd'
  obtain ⟨p, hp, rest⟩ := hinv k d (lookup_mapDel_some _ u k d hd)
  exact ⟨p, (lookup_mapDel_of_ne ac.appAccess u k hku).trans hp, rest⟩

/-- Every call keeps the ciphers with their application structs. -/
theorem step_cipherKeyed {W : Type} (op : Op) (s : AccessContainer W × W)
    (hinv : s.1.CipherKeyed) : (op.step s).1.CipherKeyed := by
  cases op with
  | getComponentAccess t => exact GetComponentAccess_cipherKeyed s.1 t hinv
  | getAppAccess c t => exact GetAppAccess_cipherKeyed s.1 c t hinv
  | getComponentAppid t =>
    show (s.1.GetComponentAppid t).2.CipherKeyed
    rw [GetComponentAppid_registry]
    exact GetAppAccess_cipherKeyed s.1 [] t hinv
  | getAppAccessToken t => exact GetAppAccess_cipherKeyed s.1 [] t hinv
  | getAppTicket t => exact GetAppAccess_cipherKeyed s.1 [] t hinv
  | getDecrypter t => exact GetDecrypter_cipherKeyed s.1 t hinv
  | flash u => exact Flash_cipherKeyed s.1 u hinv

/-- Every run keeps the ciphers with their application structs. -/
theorem runOps_cipherKeyed {W : Type} :
    ∀ (ops : List Op) (s : AccessContainer W × W), s.1.CipherKeyed →
      (runOps ops s).1.CipherKeyed
  | [], _, hinv => hinv
  | op :: ops, s, hinv => runOps_cipherKeyed ops (op.step s) (step_cipherKeyed op s hinv)

/-- In a registry that keeps its ciphers with their application structs, an id whose
governing tenant has an empty key has no cached cipher. -/
theorem no_cipher_of_empty_key {W : Type} (ac : AccessContainer W) (hinv : ac.CipherKeyed)
    (appid token : GoString)
    (hkey : ac.AppAesKeyProvider (ac.governing appid) = .ok (token, [])) :
    ac.decrypter.lookup appid = none := by
  cases h : ac.decrypter.lookup appid with
  | none => rfl
  | some d =>
    exfalso
    obtain ⟨p, hp, token1, aesKey, hprov, hne⟩ := hinv appid d h
    rw [governing_eq, GetAppAccess_cached ac [] appid p hp] at hkey
    rw [hprov] at hkey
    injection hkey with hkey
    exact hne (congrArg Prod.snd hkey)

/-- Claim C24: in every registry reached from `NewAccessContainer` by calls of its methods,
for every appid whose governing tenant's `AppAesKeyProvider` returns an empty
aesKey with no error, `GetDecrypter(appid)` returns a nil cipher and a nil error,
and caches nothing under the id. -/
theorem GetDecrypter_plaintext {W : Type} (tickerNow : W → Int) (remote : Remote W)
    (storage : Storage W) (appSecret : Wechat.AppSecretProvider W)
    (aesKey : Wechat.AppAesKeyProvider) (components : Wechat.ComponentAppidProvider)
    (ops : List Op) (w : W) (appid token : GoString)
    (hkey :
      (runOps ops (NewAccessContainer tickerNow remote storage appSecret aesKey components,
        w)).1.AppAesKeyProvider
        ((runOps ops (NewAccessContainer tickerNow remote storage appSecret aesKey components,
          w)).1.governing appid) = .ok (token, [])) :
    ((runOps ops (NewAccessContainer tickerNow remote storage appSecret aesKey components,
        w)).1.GetDecrypter appid).1 = .ok none ∧
      ((runOps ops (NewAccessContainer tickerNow remote storage appSecret aesKey components,
        w)).1.GetDecrypter appid).2.decrypter.lookup appid = none := by
  have hinv0 : (NewAccessContainer tickerNow remote storage appSecret aesKey
      components).CipherKeyed := by
    intro k d hd
    cases hd
  have hinv := runOps_cipherKeyed ops
    (NewAccessContainer tickerNow remote storage appSecret aesKey components, w) hinv0
  exact GetDecrypter_uncached_plaintext _ appid token
    (no_cipher_of_empty_key _ hinv appid token hkey) hkey

theorem GetDecrypter_plaintext_witness :
    (runOps midOps (registry0, emptyWorld 0)).1.AppAesKeyProvider
        ((runOps midOps (registry0, emptyWorld 0)).1.governing (asciiBytes "app3")) =
        .ok (asciiBytes "tok", []) ∧
      ((runOps midOps (registry0, emptyWorld 0)).1.GetDecrypter (asciiBytes "app3")).1 =
        .ok none ∧
      ((runOps midOps (registry0, emptyWorld 0)).1.GetDecrypter
        (asciiBytes "app3")).2.decrypter.lookup (asciiBytes "app3") = none :=
  ⟨by rfl,
    GetDecrypter_plaintext MemWorld.clock (stubRemote chainStubs) memStorage
      (fixedSecret (asciiBytes "secret")) someKeys delegation midOps (emptyWorld 0)
      (asciiBytes "app3") (asciiBytes "tok") (by rfl)⟩

end Wechat
